import Mathlib

/-!
A shallow embedding of `fs-sim.c`.

The simulator keeps one in-memory superblock (a 16-byte free-block bitmap and
126 inode records of 8 bytes), one 1024-byte transfer buffer, the name of the
mounted image and the index of the current directory.  Every operation of the
C program is embedded as a pure function on an explicit `State`.

Modelling conventions:

* bytes are natural numbers; the places where C truncates an `int` to a
  one-byte field are written `% 256`, and masks are written as in the source;
* sizes and block indices handed to the operations are natural numbers (the
  command reader of `main` rejects negative numbers); the start argument of
  `mark_blocks` is an integer, as in the source;
* the arrays `free_block_list[16]` and `inode[126]` are total maps from
  indices, the loops of the program only visit the indices the C loops visit;
* the image file of the mounted disk is a total map from block numbers to
  blocks, block 0 holding the byte image of the superblock; the file named in
  `fs_mount` is an argument of the embedded function;
* the functions that print an error and return are embedded as functions
  returning an `Outcome` together with the state they leave behind;
* `fs_delete` is recursive and need not terminate, its embedding carries a
  bound on the depth of the recursion.
-/

namespace FsSim

abbrev BLOCK_SIZE : Nat := 1024
abbrev NUM_BLOCKS : Nat := 128
abbrev NUM_INODES : Nat := 126

/-- The five bytes of `char name[5]`. -/
structure Name where
  c0 : Nat
  c1 : Nat
  c2 : Nat
  c3 : Nat
  c4 : Nat
deriving DecidableEq, Repr

/-- Modelled from the spec: the record type `Inode` of the header `fs-sim.h`, which is
not among the sources: a 5-byte name followed by the three one-byte fields
`used_size` (top bit in-use, low 7 bits size), `start_block` and `dir_parent`
(top bit is-directory, low 7 bits parent index). -/
structure Inode where
  name : Name
  used_size : Nat
  start_block : Nat
  dir_parent : Nat
deriving DecidableEq, Repr

/-- Modelled from the spec: the type `Superblock` of the header `fs-sim.h`: the bitmap
`free_block_list[16]` followed by the table `inode[126]`. -/
structure Superblock where
  free_block_list : Nat → Nat
  inode : Nat → Inode

/-- The contents of one block: byte offset to byte. -/
abbrev Block := Nat → Nat

/-- The contents of an image file: block number to block. -/
abbrev Disk := Nat → Block

/-- What an operation reported: `ok` when it printed nothing, otherwise the
error message it printed before returning. -/
inductive Outcome where
  | ok
  | cannot_find_disk
  | inconsistent (code : Nat)
  | not_mounted
  | already_exists
  | superblock_full
  | cannot_allocate
  | does_not_exist
  | no_such_block
  | cannot_expand
  | unallocated_block
deriving DecidableEq, Repr

/-- The global variables of the program, and the contents of the image file
named by `current_disk`. -/
structure State where
  superblock : Superblock
  buffer : Block
  current_disk : Option String
  current_dir_inode : Nat
  disk : Disk

/-- The result of `memset(&x, 0, sizeof x)` on a name. -/
def zero_name : Name := ⟨0, 0, 0, 0, 0⟩

/-- The result of `memset(&superblock.inode[i], 0, sizeof(Inode))`. -/
def zero_inode : Inode := ⟨zero_name, 0, 0, 0⟩

/-- A block of 1024 zero bytes (`uint8_t zero_block[BLOCK_SIZE] = {0}`). -/
def zero_block : Block := fun _ => 0

/-- The test `used_size & 0x80`. -/
def Inode.in_use (r : Inode) : Bool := r.used_size &&& 0x80 != 0

/-- The test `dir_parent & 0x80`. -/
def Inode.is_dir (r : Inode) : Bool := r.dir_parent &&& 0x80 != 0

/-- The value `used_size & 0x7F`. -/
def Inode.size (r : Inode) : Nat := r.used_size &&& 0x7F

/-- The value `dir_parent & 0x7F`. -/
def Inode.parent (r : Inode) : Nat := r.dir_parent &&& 0x7F

/-- An in-use record that is not a directory. -/
def Inode.is_file (r : Inode) : Bool := r.in_use && !r.is_dir

/-- The test `free_block_list[i / 8] & (1 << (i % 8))`. -/
def Superblock.bit (sb : Superblock) (i : Nat) : Bool :=
  sb.free_block_list (i / 8) &&& (1 <<< (i % 8)) != 0

/-- Assignment to `superblock.free_block_list[k]`. -/
def Superblock.set_byte (sb : Superblock) (k v : Nat) : Superblock :=
  { sb with free_block_list := fun j => if j = k then v else sb.free_block_list j }

/-- Assignment to `superblock.inode[k]`. -/
def Superblock.set_inode (sb : Superblock) (k : Nat) (r : Inode) : Superblock :=
  { sb with inode := fun j => if j = k then r else sb.inode j }

/-- Bytes of `write_block(disk, block_num, data)`. -/
def write_block (d : Disk) (block_num : Nat) (data : Block) : Disk :=
  fun j => if j = block_num then data else d j

/-- Result of `read_block(disk, block_num, data)`. -/
def read_block (d : Disk) (block_num : Nat) : Block := d block_num

/-- The 1024 bytes of the superblock as they are written to block 0: the 16
bitmap bytes, then the 126 records of 8 bytes each. -/
def Superblock.toBlock (sb : Superblock) : Block := fun off =>
  if off < 16 then sb.free_block_list off
  else if off < BLOCK_SIZE then
    let r := sb.inode ((off - 16) / 8)
    match (off - 16) % 8 with
    | 0 => r.name.c0
    | 1 => r.name.c1
    | 2 => r.name.c2
    | 3 => r.name.c3
    | 4 => r.name.c4
    | 5 => r.used_size
    | 6 => r.start_block
    | _ => r.dir_parent
  else 0

/-- The superblock read from the 1024 bytes of block 0. -/
def Superblock.ofBlock (b : Block) : Superblock :=
  { free_block_list := fun i => if i < 16 then b i else 0
    inode := fun i =>
      if i < NUM_INODES then
        { name := ⟨b (16 + 8 * i), b (16 + 8 * i + 1), b (16 + 8 * i + 2),
                   b (16 + 8 * i + 3), b (16 + 8 * i + 4)⟩
          used_size := b (16 + 8 * i + 5)
          start_block := b (16 + 8 * i + 6)
          dir_parent := b (16 + 8 * i + 7) }
      else zero_inode }

/-- `find_free_inode`: the first record whose in-use bit is clear; `none` is
the return value `-1`. -/
def find_free_inode (sb : Superblock) : Option Nat :=
  (List.range NUM_INODES).find? (fun i => !(sb.inode i).in_use)

/-- `get_file_inode`: the first in-use record with the given parent index and
the given five name bytes; `none` is the return value `-1`. -/
def get_file_inode (sb : Superblock) (name : Name) (parent_inode : Nat) : Option Nat :=
  (List.range NUM_INODES).find? (fun i =>
    (sb.inode i).in_use && (sb.inode i).parent == parent_inode && (sb.inode i).name == name)

/-- The loop of `find_contiguous_blocks` over the remaining block numbers,
with the loop variables `current_start` and `current_count`. -/
def find_contiguous_loop (sb : Superblock) (size : Nat) :
    List Nat → Nat → Nat → Option Nat
  | [], _, _ => none
  | i :: rest, current_start, current_count =>
    if !sb.bit i then
      let current_start := if current_count = 0 then i else current_start
      let current_count := current_count + 1
      if current_count = size then some current_start
      else find_contiguous_loop sb size rest current_start current_count
    else find_contiguous_loop sb size rest current_start 0

/-- `find_contiguous_blocks`: first-fit scan of blocks 1..127; `none` is the
return value `-1`.  The callers only pass positive sizes. -/
def find_contiguous_blocks (sb : Superblock) (size : Nat) : Option Nat :=
  if size ≤ 0 then some 0
  else find_contiguous_loop sb size (List.range' 1 (NUM_BLOCKS - 1)) 1 0

/-- One iteration of the loop of `mark_blocks`, for `block = start_block + i`. -/
def mark_block (sb : Superblock) (block : Int) (mark : Bool) : Superblock :=
  if block < 0 ∨ block ≥ NUM_BLOCKS then sb
  else
    let b := block.toNat
    let byte_idx := b / 8
    let bit_idx := b % 8
    if b = 0 then sb.set_byte 0 (sb.free_block_list 0 ||| 1)
    else if mark then
      sb.set_byte byte_idx (sb.free_block_list byte_idx ||| (1 <<< bit_idx))
    else
      -- `&= ~(1 << bit_idx)`, the result truncated to the one-byte element
      sb.set_byte byte_idx (sb.free_block_list byte_idx &&& (0xFF ^^^ (1 <<< bit_idx)))

/-- `mark_blocks(start_block, num_blocks, mark)`. -/
def mark_blocks (sb : Superblock) (start_block : Int) (num_blocks : Nat) (mark : Bool) :
    Superblock :=
  (List.range num_blocks).foldl
    (fun (sb : Superblock) (i : Nat) => mark_block sb (start_block + (i : Int)) mark) sb

/-- Check 1 of `check_consistency` at record `i`. -/
def check1_bad (sb : Superblock) (i : Nat) : Bool :=
  !(sb.inode i).in_use &&
    ((sb.inode i).used_size != 0 || (sb.inode i).start_block != 0 ||
      (sb.inode i).dir_parent != 0 || (sb.inode i).name != zero_name)

/-- Check 2 of `check_consistency` at record `i`. -/
def check2_bad (sb : Superblock) (i : Nat) : Bool :=
  (sb.inode i).in_use && !(sb.inode i).is_dir &&
    (decide ((sb.inode i).start_block < 1) || decide ((sb.inode i).start_block > 127) ||
      decide (((sb.inode i).start_block : Int) + ((sb.inode i).size : Int) - 1 > 127))

/-- Check 3 of `check_consistency` at record `i`. -/
def check3_bad (sb : Superblock) (i : Nat) : Bool :=
  (sb.inode i).in_use && (sb.inode i).is_dir &&
    ((sb.inode i).start_block != 0 || (sb.inode i).size != 0)

/-- Check 4 of `check_consistency` at record `i`. -/
def check4_bad (sb : Superblock) (i : Nat) : Bool :=
  (sb.inode i).in_use &&
    (let parent := (sb.inode i).parent
     parent == 126 || decide (parent ≥ NUM_INODES) ||
      (parent != 127 && (!(sb.inode parent).in_use || !(sb.inode parent).is_dir)))

/-- Check 5 of `check_consistency` at record `i`: some later record has the
same parent and the same name. -/
def check5_bad (sb : Superblock) (i : Nat) : Bool :=
  (sb.inode i).in_use &&
    (List.range' (i + 1) (NUM_INODES - (i + 1))).any (fun j =>
      (sb.inode j).in_use && (sb.inode j).parent == (sb.inode i).parent &&
        (sb.inode i).name == (sb.inode j).name)

/-- `check_consistency`: the code of the first check that fails, 0 if none. -/
def check_consistency (sb : Superblock) : Nat :=
  if (List.range NUM_INODES).any (check1_bad sb) then 1
  else if (List.range NUM_INODES).any (check2_bad sb) then 2
  else if (List.range NUM_INODES).any (check3_bad sb) then 3
  else if (List.range NUM_INODES).any (check4_bad sb) then 4
  else if (List.range NUM_INODES).any (check5_bad sb) then 5
  else 0

/-- `fs_mount(new_disk_name)`; `image` is the contents of the file of that
name, `none` when it cannot be opened. -/
def fs_mount (s : State) (new_disk_name : String) (image : Option Disk) : Outcome × State :=
  match image with
  | none => (Outcome.cannot_find_disk, s)
  | some img =>
    -- read_block(disk, 0, &superblock); superblock.free_block_list[0] |= 1;
    let sb := Superblock.ofBlock (read_block img 0)
    let sb := sb.set_byte 0 (sb.free_block_list 0 ||| 1)
    let s := { s with superblock := sb }
    let consistency := check_consistency s.superblock
    if consistency ≠ 0 then (Outcome.inconsistent consistency, s)
    else
      (Outcome.ok,
        { s with current_disk := some new_disk_name
                 current_dir_inode := 0
                 buffer := zero_block
                 disk := img })

/-- `fs_create(name, size)`. -/
def fs_create (s : State) (name : Name) (size : Nat) : Outcome × State :=
  if s.current_disk.isNone then (Outcome.not_mounted, s)
  else if (get_file_inode s.superblock name s.current_dir_inode).isSome then
    (Outcome.already_exists, s)
  else
    match find_free_inode s.superblock with
    | none => (Outcome.superblock_full, s)
    | some inode_idx =>
      match (if size > 0 then find_contiguous_blocks s.superblock size else some 0) with
      | none => (Outcome.cannot_allocate, s)
      | some start_block =>
        let sb := s.superblock.set_inode inode_idx
          { name := name
            used_size := 0x80 ||| (size &&& 0x7F)
            start_block := start_block % 256
            dir_parent := (if size = 0 then 0x80 else 0) ||| (s.current_dir_inode &&& 0x7F) }
        let sb := if size > 0 then mark_blocks sb start_block size true else sb
        (Outcome.ok, { s with superblock := sb, disk := write_block s.disk 0 sb.toBlock })

/-- The loop `for (i = 0; i < size; i++) write_block(disk, start + i, zero_block)`. -/
def zero_blocks (d : Disk) (start size : Nat) : Disk :=
  (List.range size).foldl (fun d i => write_block d (start + i) zero_block) d

/-- The loop of `fs_delete` over the records whose parent is `inode_idx`;
`call` is the recursive call of `fs_delete`. -/
def delete_children (call : State → Name → Option (Outcome × State)) (inode_idx : Nat) :
    List Nat → State → Option State
  | [], s => some s
  | i :: rest, s =>
    if (s.superblock.inode i).in_use && (s.superblock.inode i).parent == inode_idx then
      match call s (s.superblock.inode i).name with
      | none => none
      | some (_, s1) => delete_children call inode_idx rest s1
    else delete_children call inode_idx rest s

/-- `fs_delete(name)`, with a bound on the depth of the recursive calls:
`none` means that the bound was reached. -/
def fs_delete : Nat → State → Name → Option (Outcome × State)
  | 0, _, _ => none
  | fuel + 1, s, name =>
    if s.current_disk.isNone then some (Outcome.not_mounted, s)
    else
      match get_file_inode s.superblock name s.current_dir_inode with
      | none => some (Outcome.does_not_exist, s)
      | some inode_idx =>
        let after :=
          if (s.superblock.inode inode_idx).is_dir then
            delete_children (fs_delete fuel) inode_idx (List.range NUM_INODES) s
          else
            let size := (s.superblock.inode inode_idx).size
            let start := (s.superblock.inode inode_idx).start_block
            let sb := mark_blocks s.superblock start size false
            some { s with superblock := sb, disk := zero_blocks s.disk start size }
        match after with
        | none => none
        | some s1 =>
          let sb := s1.superblock.set_inode inode_idx zero_inode
          some (Outcome.ok, { s1 with superblock := sb, disk := write_block s1.disk 0 sb.toBlock })

/-- `fs_read(name, block_num)`. -/
def fs_read (s : State) (name : Name) (block_num : Nat) : Outcome × State :=
  if s.current_disk.isNone then (Outcome.not_mounted, s)
  else
    match get_file_inode s.superblock name s.current_dir_inode with
    | none => (Outcome.does_not_exist, s)
    | some inode_idx =>
      if (s.superblock.inode inode_idx).is_dir then (Outcome.does_not_exist, s)
      else if block_num ≥ (s.superblock.inode inode_idx).size then (Outcome.no_such_block, s)
      else
        (Outcome.ok,
          { s with buffer :=
              read_block s.disk ((s.superblock.inode inode_idx).start_block + block_num) })

/-- `fs_write(name, block_num)`. -/
def fs_write (s : State) (name : Name) (block_num : Nat) : Outcome × State :=
  if s.current_disk.isNone then (Outcome.not_mounted, s)
  else
    match get_file_inode s.superblock name s.current_dir_inode with
    | none => (Outcome.does_not_exist, s)
    | some inode_idx =>
      if (s.superblock.inode inode_idx).is_dir then (Outcome.does_not_exist, s)
      else if block_num ≥ (s.superblock.inode inode_idx).size then (Outcome.no_such_block, s)
      else
        let actual_block := (s.superblock.inode inode_idx).start_block + block_num
        if !s.superblock.bit actual_block then (Outcome.unallocated_block, s)
        else
          (Outcome.ok,
            { s with disk :=
                write_block (write_block s.disk 0 s.superblock.toBlock) actual_block s.buffer })

/-- The copy loop of `fs_resize`:
`read_block(disk, current_start + i, temp); write_block(disk, new_start + i, temp)`. -/
def copy_blocks (d : Disk) (current_start new_start current_size : Nat) : Disk :=
  (List.range current_size).foldl
    (fun d i => write_block d (new_start + i) (read_block d (current_start + i))) d

/-- The loop of `fs_resize` that computes `can_expand`: no block `i` with
`current_start + current_size ≤ i < current_start + new_size` and
`i < NUM_BLOCKS` has its bit set. -/
def can_expand (sb : Superblock) (current_start current_size new_size : Nat) : Bool :=
  (List.range' (current_start + current_size) (new_size - current_size)).all
    (fun i => !(decide (i < NUM_BLOCKS) && sb.bit i))

/-- The end of `fs_resize`, reached on every path that does not report an
error: `used_size = 0x80 | (new_size & 0x7F)` and the superblock is written
back; `sb` and `d` are the superblock and the image at that point. -/
def resize_finish (s : State) (inode_idx new_size : Nat) (sb : Superblock) (d : Disk) :
    Outcome × State :=
  let r := sb.inode inode_idx
  let sb := sb.set_inode inode_idx { r with used_size := 0x80 ||| (new_size &&& 0x7F) }
  (Outcome.ok, { s with superblock := sb, disk := write_block d 0 sb.toBlock })

/-- `fs_resize(name, new_size)`. -/
def fs_resize (s : State) (name : Name) (new_size : Nat) : Outcome × State :=
  if s.current_disk.isNone then (Outcome.not_mounted, s)
  else
    match get_file_inode s.superblock name s.current_dir_inode with
    | none => (Outcome.does_not_exist, s)
    | some inode_idx =>
      if (s.superblock.inode inode_idx).is_dir then (Outcome.does_not_exist, s)
      else
        let current_size := (s.superblock.inode inode_idx).size
        let current_start := (s.superblock.inode inode_idx).start_block
        let finish := resize_finish s inode_idx new_size
        if new_size > current_size then
          if can_expand s.superblock current_start current_size new_size then
            finish (mark_blocks s.superblock (current_start + current_size : Nat)
              (new_size - current_size) true) s.disk
          else
            match find_contiguous_blocks s.superblock new_size with
            | none => (Outcome.cannot_expand, s)
            | some new_start =>
              let d := copy_blocks s.disk current_start new_start current_size
              let d := zero_blocks d current_start current_size
              let sb := mark_blocks s.superblock current_start current_size false
              let sb := mark_blocks sb new_start new_size true
              let r := sb.inode inode_idx
              let sb := sb.set_inode inode_idx { r with start_block := new_start % 256 }
              finish sb d
        else if new_size < current_size then
          let d := zero_blocks s.disk (current_start + new_size) (current_size - new_size)
          let sb := mark_blocks s.superblock (current_start + new_size : Nat)
            (current_size - new_size) false
          finish sb d
        else finish s.superblock s.disk

/-- The local record `FileInfo` of `fs_defrag`. -/
structure FileInfo where
  inode_idx : Nat
  start_block : Nat
  size : Nat
deriving DecidableEq, Repr

/-- The first loop of `fs_defrag`: the in-use records that are not
directories, in table order. -/
def collect_files (sb : Superblock) : List FileInfo :=
  ((List.range NUM_INODES).filter (fun i => (sb.inode i).in_use && !(sb.inode i).is_dir)).map
    (fun i => ⟨i, (sb.inode i).start_block, (sb.inode i).size⟩)

/-- The inner loop of the sort of `fs_defrag`: `k` compare-and-swap steps on
adjacent entries, starting at the head of the list. -/
def bubble_inner : Nat → List FileInfo → List FileInfo
  | k + 1, a :: b :: rest =>
    if a.start_block > b.start_block then b :: bubble_inner k (a :: rest)
    else a :: bubble_inner k (b :: rest)
  | _, l => l

/-- The sort of `fs_defrag`: pass `i` makes `num_files - i - 1` steps. -/
def bubble_sort (files : List FileInfo) : List FileInfo :=
  (List.range (files.length - 1)).foldl
    (fun fs i => bubble_inner (files.length - i - 1) fs) files

/-- The loop `for (j = 0; j < size; j++) write_block(disk, next_free + j, file_data + j * BLOCK_SIZE)`. -/
def write_file_data (d : Disk) (next_free size : Nat) (file_data : Nat → Block) : Disk :=
  (List.range size).foldl (fun d j => write_block d (next_free + j) (file_data j)) d

/-- One iteration of the loop of `fs_defrag` that moves the files; the state
of the loop is the superblock, the image and `next_free`. -/
def defrag_step (st : Superblock × Disk × Nat) (f : FileInfo) : Superblock × Disk × Nat :=
  let sb := st.1
  let d := st.2.1
  let next_free := st.2.2
  if f.start_block ≠ next_free then
    let file_data : Nat → Block := fun j => read_block d (f.start_block + j)
    let d := zero_blocks d f.start_block f.size
    let d := write_file_data d next_free f.size file_data
    let r := sb.inode f.inode_idx
    (sb.set_inode f.inode_idx { r with start_block := next_free % 256 }, d, next_free + f.size)
  else (sb, d, next_free + f.size)

/-- The last loop of `fs_defrag`, after the bitmap has been cleared. -/
def rebuild_bitmap (sb : Superblock) (files : List FileInfo) : Superblock :=
  files.foldl
    (fun sb f => mark_blocks sb ((sb.inode f.inode_idx).start_block : Nat) f.size true) sb

/-- `fs_defrag()`. -/
def fs_defrag (s : State) : Outcome × State :=
  if s.current_disk.isNone then (Outcome.not_mounted, s)
  else
    let files := bubble_sort (collect_files s.superblock)
    let st := files.foldl defrag_step (s.superblock, s.disk, 1)
    let sb := st.1
    -- memset(superblock.free_block_list, 0, 16); superblock.free_block_list[0] = 1;
    let sb := { sb with free_block_list := fun j => if j < 16 then 0 else sb.free_block_list j }
    let sb := sb.set_byte 0 1
    let sb := rebuild_bitmap sb files
    (Outcome.ok, { s with superblock := sb, disk := write_block st.2.1 0 sb.toBlock })

/-- `fs_cd(name)`; the comparisons `strcmp(name, ".") == 0` and
`strcmp(name, "..") == 0` read the name up to its first zero byte. -/
def fs_cd (s : State) (name : Name) : Outcome × State :=
  if s.current_disk.isNone then (Outcome.not_mounted, s)
  else if name.c0 = 46 ∧ name.c1 = 0 then (Outcome.ok, s)
  else if name.c0 = 46 ∧ name.c1 = 46 ∧ name.c2 = 0 then
    if s.current_dir_inode ≠ 0 then
      let parent := (s.superblock.inode s.current_dir_inode).parent
      if parent ≠ 127 then (Outcome.ok, { s with current_dir_inode := parent })
      else (Outcome.ok, s)
    else (Outcome.ok, s)
  else
    match get_file_inode s.superblock name s.current_dir_inode with
    | none => (Outcome.does_not_exist, s)
    | some dir_inode =>
      if !(s.superblock.inode dir_inode).is_dir then (Outcome.does_not_exist, s)
      else (Outcome.ok, { s with current_dir_inode := dir_inode })

/-- An image with no record in use and only block 0 marked used. -/
def empty_superblock : Superblock :=
  { free_block_list := fun j => if j = 0 then 1 else 0
    inode := fun _ => zero_inode }

/-- A session mounted on the empty image, at the root directory. -/
def empty_state : State :=
  { superblock := empty_superblock
    buffer := zero_block
    current_disk := some "disk0"
    current_dir_inode := 0
    disk := fun b => if b = 0 then empty_superblock.toBlock else zero_block }

/-- The name `f`, padded with zero bytes. -/
def name_f : Name := ⟨102, 0, 0, 0, 0⟩

/-- The name `a`, padded with zero bytes. -/
def name_a : Name := ⟨97, 0, 0, 0, 0⟩

/-- The name `d`, padded with zero bytes. -/
def name_d : Name := ⟨100, 0, 0, 0, 0⟩

/-- The name `x`, padded with zero bytes. -/
def name_x : Name := ⟨120, 0, 0, 0, 0⟩

/-- The name `..`, padded with zero bytes. -/
def name_dotdot : Name := ⟨46, 46, 0, 0, 0⟩

/-- The session after `C f 3` on the empty image: the file `f` occupies
record 0 and blocks 1..3. -/
def session_with_file : State := (fs_create empty_state name_f 3).2

/-- An image whose block 0 has a free record 0 with `start_block = 5`. -/
def bad_image : Disk := fun b =>
  if b = 0 then (fun off => if off = 22 then 5 else 0) else zero_block

/-- The session after `C x 1`, `C d 0`, `Y d`, `C x 1`, `Y ..` on the empty
image: record 0 is the file `x` of the root, record 1 the directory `d` of the
root, record 2 the file `x` inside `d`; the current directory is the root. -/
def tree_state : State :=
  let s1 := (fs_create empty_state name_x 1).2
  let s2 := (fs_create s1 name_d 0).2
  let s3 := (fs_cd s2 name_d).2
  let s4 := (fs_create s3 name_x 1).2
  (fs_cd s4 name_dotdot).2

/-- The session after `C a 126`, `C f 1` on the empty image: `a` occupies
record 0 and blocks 1..126, `f` occupies record 1 and block 127; no block is free. -/
def full_state : State :=
  let s1 := (fs_create empty_state name_a 126).2
  (fs_create s1 name_f 1).2

/-- The session `full_state` after `D a`: the file `f` occupies block 127 and
blocks 1..126 are free. -/
def tail_state : State :=
  match fs_delete 1 full_state name_a with
  | some r => r.2
  | none => full_state

/-- A superblock whose only record in use is the file `f` with
`start_block = 0` and size 1; `byte0` is the first byte of the bitmap. -/
def block0_file_superblock (byte0 : Nat) : Superblock :=
  { free_block_list := fun j => if j = 0 then byte0 else 0
    inode := fun i => if i = 0 then ⟨name_f, 0x81, 0, 0⟩ else zero_inode }

/-- A session whose superblock is `block0_file_superblock byte0`. -/
def block0_file_state (byte0 : Nat) : State :=
  { superblock := block0_file_superblock byte0
    buffer := zero_block
    current_disk := some "disk0"
    current_dir_inode := 0
    disk := fun b => if b = 0 then (block0_file_superblock byte0).toBlock else zero_block }

/-- The session after `C f 1`, `C a 1` on the empty image: `f` occupies
record 0 and block 1, `a` occupies record 1 and block 2. -/
def two_files_state : State :=
  let s1 := (fs_create empty_state name_f 1).2
  (fs_create s1 name_a 1).2

/-- The name `b`, padded with zero bytes. -/
def name_b : Name := ⟨98, 0, 0, 0, 0⟩

/-- A superblock that passes `check_consistency` although its files overlap:
record 0 is a directory, records 1..4 are four files of 127 blocks that all
start at block 1. -/
def overlap_superblock : Superblock :=
  { free_block_list := fun j => if j < 16 then 0xFF else 0
    inode := fun i =>
      if i = 0 then ⟨name_d, 0x80, 0, 0x80⟩
      else if i = 1 then ⟨name_a, 0xFF, 1, 0⟩
      else if i = 2 then ⟨name_b, 0xFF, 1, 0⟩
      else if i = 3 then ⟨name_f, 0xFF, 1, 0⟩
      else if i = 4 then ⟨name_x, 0xFF, 1, 0⟩
      else zero_inode }

/-- An image whose block 0 holds `overlap_superblock`. -/
def overlap_image : Disk := fun b =>
  if b = 0 then overlap_superblock.toBlock else zero_block

/-- The session after mounting `overlap_image`. -/
def overlap_state : State := (fs_mount empty_state "disk1" (some overlap_image)).2

/-- The session after `C a 2`, `C f 1`, `D a`, `C x 3` on the empty image:
record 0 is the file `x` in blocks 4..6, record 1 the file `f` in block 3. -/
def unordered_state : State :=
  let s1 := (fs_create empty_state name_a 2).2
  let s2 := (fs_create s1 name_f 1).2
  let s3 := match fs_delete 1 s2 name_a with
    | some r => r.2
    | none => s2
  (fs_create s3 name_x 3).2

/-- A superblock that passes `check_consistency` with overlapping files whose
sizes add up to more than the disk: record 0 is a directory, records 1 and 2
are files of 127 blocks at block 1, record 3 a file of 1 block at block 1 and
record 4 the file `f` of 1 block at block 2. -/
def wrap_superblock : Superblock :=
  { free_block_list := fun j => if j < 16 then 0xFF else 0
    inode := fun i =>
      if i = 0 then ⟨name_d, 0x80, 0, 0x80⟩
      else if i = 1 then ⟨name_a, 0xFF, 1, 0⟩
      else if i = 2 then ⟨name_b, 0xFF, 1, 0⟩
      else if i = 3 then ⟨name_x, 0x81, 1, 0⟩
      else if i = 4 then ⟨name_f, 0x81, 2, 0⟩
      else zero_inode }

/-- An image whose block 0 holds `wrap_superblock`. -/
def wrap_image : Disk := fun b =>
  if b = 0 then wrap_superblock.toBlock else zero_block

/-- The order of the sorted table of `fs_defrag`: ascending `start_block`,
entries with equal `start_block` in the order of their records. -/
def FileInfo.before (x y : FileInfo) : Prop :=
  x.start_block < y.start_block ∨ (x.start_block = y.start_block ∧ x.inode_idx < y.inode_idx)

instance : DecidableRel FileInfo.before := fun x y =>
  inferInstanceAs (Decidable (x.start_block < y.start_block ∨
    (x.start_block = y.start_block ∧ x.inode_idx < y.inode_idx)))

/-- A superblock whose only record in use is the directory `d` in record 0
with the sentinel 127 as parent index. -/
def sentinel_superblock : Superblock :=
  { free_block_list := fun j => if j = 0 then 1 else 0
    inode := fun i => if i = 0 then ⟨name_d, 0x80, 0, 0xFF⟩ else zero_inode }

/-- A superblock whose only record in use is the file `f` in record 0 with
`start_block = 128` and size 0. -/
def start128_superblock : Superblock :=
  { free_block_list := fun j => if j = 0 then 1 else 0
    inode := fun i => if i = 0 then ⟨name_f, 0x80, 128, 0⟩ else zero_inode }

/-- A superblock with a directory in record 0 (its own parent) and two files
named `a` in that directory, in blocks 1 and 2. -/
def duplicate_superblock : Superblock :=
  { free_block_list := fun j => if j = 0 then 7 else 0
    inode := fun i =>
      if i = 0 then ⟨name_d, 0x80, 0, 0x80⟩
      else if i = 1 then ⟨name_a, 0x81, 1, 0⟩
      else if i = 2 then ⟨name_a, 0x81, 2, 0⟩
      else zero_inode }

/-- The session after `C a 2`, `C f 1`, `D a`, `C x 3` and, with the buffer
holding the byte 7, `W f 0`: the only block of `f` (block 3) holds the buffer. -/
def written_state : State :=
  (fs_write { unordered_state with buffer := fun off => if off = 0 then 7 else 0 } name_f 0).2

/-- A superblock that passes `check_consistency` and holds a file without
blocks: record 0 is the directory `d`, record 1 the file `a` in blocks 5..7,
record 2 the file `f` of size 0 with `start_block` 2. -/
def empty_file_superblock : Superblock :=
  { free_block_list := fun j => if j = 0 then 0xE1 else 0
    inode := fun i =>
      if i = 0 then ⟨name_d, 0x80, 0, 0x80⟩
      else if i = 1 then ⟨name_a, 0x83, 5, 0⟩
      else if i = 2 then ⟨name_f, 0x80, 2, 0⟩
      else zero_inode }

/-- An image whose block 0 holds `empty_file_superblock`. -/
def empty_file_image : Disk := fun b =>
  if b = 0 then empty_file_superblock.toBlock else zero_block

/-- The session after mounting `empty_file_image`. -/
def empty_file_state : State := (fs_mount empty_state "disk1" (some empty_file_image)).2

/-- The session `session_with_file` with a transfer buffer whose first byte
is 7 and whose other bytes are 0. -/
def buffer_state : State :=
  { session_with_file with buffer := fun off => if off = 0 then 7 else 0 }

/-- The empty image: every byte of every block is zero. -/
def zero_image : Disk := fun _ => zero_block

/-- The session after mounting the empty image. -/
def fresh_state : State := (fs_mount empty_state "disk1" (some zero_image)).2

/-! ## Lemmas and theorems -/

theorem land_shiftLeft_ne_zero (x k : Nat) : (x &&& (1 <<< k) != 0) = x.testBit k := by
  rw [Nat.one_shiftLeft, Nat.and_two_pow]
  cases h : x.testBit k <;> simp [Nat.pos_iff_ne_zero.mp (Nat.two_pow_pos k)]

theorem testBit_255 (k : Nat) (h : k < 8) : Nat.testBit 255 k = true := by
  have := Nat.testBit_two_pow_sub_one 8 k
  simp only [Nat.reducePow, Nat.add_one_sub_one] at this
  rw [this]; simp; omega

theorem bit_eq_testBit (sb : Superblock) (i : Nat) :
    sb.bit i = (sb.free_block_list (i / 8)).testBit (i % 8) := by
  unfold Superblock.bit
  exact land_shiftLeft_ne_zero _ _

theorem set_byte_bit (sb : Superblock) (k v j : Nat) :
    (sb.set_byte k v).bit j = if j / 8 = k then v.testBit (j % 8) else sb.bit j := by
  simp only [bit_eq_testBit, Superblock.set_byte]
  split <;> rfl

theorem mark_block_inode (sb : Superblock) (block : Int) (m : Bool) :
    (mark_block sb block m).inode = sb.inode := by
  unfold mark_block
  simp only [Superblock.set_byte]
  split
  · rfl
  · split
    · rfl
    · split <;> rfl

theorem mark_block_bit (sb : Superblock) (block : Int) (m : Bool) (j : Nat) :
    (mark_block sb block m).bit j =
      if block = (j : Int) ∧ j < NUM_BLOCKS then (if j = 0 then true else m) else sb.bit j := by
  unfold mark_block
  by_cases hr : block < 0 ∨ block ≥ (NUM_BLOCKS : Nat)
  · rw [if_pos hr]
    have : ¬ (block = (j : Int) ∧ j < NUM_BLOCKS) := by
      simp only [NUM_BLOCKS] at hr ⊢; omega
    rw [if_neg this]
  · rw [if_neg hr]
    simp only [NUM_BLOCKS] at hr ⊢
    obtain ⟨b, rfl⟩ : ∃ b : Nat, block = (b : Int) := ⟨block.toNat, by omega⟩
    simp only [Int.toNat_ofNat, Nat.cast_inj]
    have hb : b < 128 := by omega
    by_cases hb0 : b = 0
    · subst hb0
      simp only [if_true, set_byte_bit]
      by_cases hj : j = 0
      · subst hj
        simp [Nat.testBit_or]
      · have h1 : ¬ ((0 : Nat) = j ∧ j < 128) := by omega
        rw [if_neg h1]
        by_cases hq : j / 8 = 0
        · rw [if_pos hq, bit_eq_testBit, hq, Nat.testBit_or]
          have : (1 : Nat).testBit (j % 8) = false := by
            have : j % 8 ≠ 0 := by omega
            have h2 := @Nat.testBit_two_pow 0 (j % 8)
            simp only [pow_zero] at h2
            rw [h2]; simp; omega
          rw [this, Bool.or_false]
        · rw [if_neg hq]
    · rw [if_neg hb0]
      by_cases hjb : b = j
      · subst hjb
        have h1 : (b = b ∧ b < 128) := ⟨rfl, hb⟩
        rw [if_pos h1, if_neg hb0]
        cases m
        · simp only [Bool.false_eq_true, if_false, set_byte_bit, if_true]
          rw [Nat.testBit_and, Nat.testBit_xor, Nat.one_shiftLeft, Nat.testBit_two_pow_self,
            testBit_255 _ (Nat.mod_lt _ (by decide))]
          simp
        · simp only [if_true, set_byte_bit]
          rw [Nat.testBit_or, Nat.one_shiftLeft, Nat.testBit_two_pow_self]
          simp
      · have h1 : ¬ (b = j ∧ j < 128) := by omega
        rw [if_neg h1]
        cases m
        · simp only [Bool.false_eq_true, if_false, set_byte_bit]
          split
          · next hq =>
            rw [bit_eq_testBit, hq, Nat.testBit_and, Nat.testBit_xor, Nat.one_shiftLeft,
              Nat.testBit_two_pow]
            have hne : ¬ (b % 8 = j % 8) := by omega
            rw [testBit_255 _ (Nat.mod_lt _ (by decide))]; simp [hne]
          · rfl
        · simp only [if_true, set_byte_bit]
          split
          · next hq =>
            rw [bit_eq_testBit, hq, Nat.testBit_or, Nat.one_shiftLeft, Nat.testBit_two_pow]
            have hne : ¬ (b % 8 = j % 8) := by omega
            simp [hne]
          · rfl

theorem mark_blocks_succ (sb : Superblock) (start : Int) (n : Nat) (m : Bool) :
    mark_blocks sb start (n + 1) m = mark_block (mark_blocks sb start n m) (start + (n : Int)) m := by
  unfold mark_blocks
  rw [List.range_succ, List.foldl_append]
  rfl

theorem mark_blocks_inode (sb : Superblock) (start : Int) (n : Nat) (m : Bool) :
    (mark_blocks sb start n m).inode = sb.inode := by
  induction n with
  | zero => rfl
  | succ n ih => rw [mark_blocks_succ, mark_block_inode, ih]

theorem mark_blocks_bit (sb : Superblock) (start : Int) (n : Nat) (m : Bool) (j : Nat) :
    (mark_blocks sb start n m).bit j =
      if start ≤ (j : Int) ∧ (j : Int) < start + (n : Int) ∧ j < NUM_BLOCKS then
        (if j = 0 then true else m)
      else sb.bit j := by
  induction n with
  | zero =>
    have : ¬ (start ≤ (j : Int) ∧ (j : Int) < start + ((0 : Nat) : Int) ∧ j < NUM_BLOCKS) := by
      omega
    rw [if_neg this]; rfl
  | succ n ih =>
    rw [mark_blocks_succ, mark_block_bit, ih]
    by_cases h1 : start + (n : Int) = (j : Int) ∧ j < NUM_BLOCKS
    · rw [if_pos h1]
      have : start ≤ (j : Int) ∧ (j : Int) < start + ((n + 1 : Nat) : Int) ∧ j < NUM_BLOCKS := by
        omega
      rw [if_pos this]
    · rw [if_neg h1]
      by_cases h2 : start ≤ (j : Int) ∧ (j : Int) < start + (n : Int) ∧ j < NUM_BLOCKS
      · have : start ≤ (j : Int) ∧ (j : Int) < start + ((n + 1 : Nat) : Int) ∧ j < NUM_BLOCKS := by
          omega
        rw [if_pos h2, if_pos this]
      · have : ¬ (start ≤ (j : Int) ∧ (j : Int) < start + ((n + 1 : Nat) : Int) ∧
            j < NUM_BLOCKS) := by omega
        rw [if_neg h2, if_neg this]

/-- The bitmap after `mark_blocks` with a start that is a block number. -/
theorem mark_blocks_bit_nat (sb : Superblock) (start n : Nat) (m : Bool) (j : Nat) :
    (mark_blocks sb (start : Int) n m).bit j =
      if start ≤ j ∧ j < start + n ∧ j < NUM_BLOCKS then (if j = 0 then true else m)
      else sb.bit j := by
  rw [mark_blocks_bit]
  by_cases h : start ≤ j ∧ j < start + n ∧ j < NUM_BLOCKS
  · have : (start : Int) ≤ (j : Int) ∧ (j : Int) < (start : Int) + (n : Int) ∧ j < NUM_BLOCKS := by
      omega
    rw [if_pos h, if_pos this]
  · have : ¬ ((start : Int) ≤ (j : Int) ∧ (j : Int) < (start : Int) + (n : Int) ∧
        j < NUM_BLOCKS) := by omega
    rw [if_neg h, if_neg this]

theorem find_free_inode_some {sb : Superblock} {i : Nat} (h : find_free_inode sb = some i) :
    i < NUM_INODES ∧ (sb.inode i).in_use = false := by
  unfold find_free_inode at h
  rw [List.find?_range_eq_some] at h
  obtain ⟨h1, h2, _⟩ := h
  refine ⟨List.mem_range.mp h2, ?_⟩
  simpa using h1

theorem get_file_inode_some {sb : Superblock} {name : Name} {p i : Nat}
    (h : get_file_inode sb name p = some i) :
    i < NUM_INODES ∧ (sb.inode i).in_use = true ∧ (sb.inode i).parent = p ∧
      (sb.inode i).name = name := by
  unfold get_file_inode at h
  rw [List.find?_range_eq_some] at h
  obtain ⟨h1, h2, _⟩ := h
  refine ⟨List.mem_range.mp h2, ?_⟩
  simpa [and_assoc] using h1

/-- The lookup only reads the in-use bit, the parent index and the name. -/
theorem find?_congr_mem {α : Type} (p q : α → Bool) (l : List α)
    (h : ∀ x ∈ l, p x = q x) : l.find? p = l.find? q := by
  induction l with
  | nil => rfl
  | cons a t ih =>
    simp only [List.find?_cons, h a (List.mem_cons_self a t)]
    rw [ih (fun x hx => h x (List.mem_cons_of_mem a hx))]

theorem get_file_inode_congr (sb sb' : Superblock) (name : Name) (p : Nat)
    (h : ∀ i < NUM_INODES, (sb'.inode i).in_use = (sb.inode i).in_use ∧
      (sb'.inode i).parent = (sb.inode i).parent ∧ (sb'.inode i).name = (sb.inode i).name) :
    get_file_inode sb' name p = get_file_inode sb name p := by
  unfold get_file_inode
  apply find?_congr_mem
  intro i hi
  obtain ⟨h1, h2, h3⟩ := h i (List.mem_range.mp hi)
  rw [h1, h2, h3]

theorem find_contiguous_loop_sound (sb : Superblock) (size : Nat) (n : Nat) :
    ∀ (i cs cc b : Nat), 1 ≤ i → cc < size →
      (cc ≠ 0 → cs + cc = i ∧ 1 ≤ cs ∧ ∀ k, cs ≤ k → k < i → sb.bit k = false) →
      find_contiguous_loop sb size (List.range' i n) cs cc = some b →
      1 ≤ b ∧ b + size ≤ i + n ∧ ∀ k, b ≤ k → k < b + size → sb.bit k = false := by
  induction n with
  | zero =>
    intro i cs cc b _ _ _ h
    simp [find_contiguous_loop] at h
  | succ n ih =>
    intro i cs cc b hi hcc hinv h
    rw [List.range'_succ, find_contiguous_loop] at h
    by_cases hb : sb.bit i = true
    · simp only [hb, Bool.not_true, Bool.false_eq_true, if_false] at h
      obtain ⟨r1, r2, r3⟩ :=
        ih (i + 1) cs 0 b (by omega) (by omega) (by intro h0; exact absurd rfl h0) h
      exact ⟨r1, by omega, r3⟩
    · have hb' : sb.bit i = false := by simpa using hb
      simp only [hb', Bool.not_false, if_true] at h
      have hinv' : (if cc = 0 then i else cs) + (cc + 1) = i + 1 ∧
          1 ≤ (if cc = 0 then i else cs) ∧
          ∀ k, (if cc = 0 then i else cs) ≤ k → k < i + 1 → sb.bit k = false := by
        by_cases h0 : cc = 0
        · subst h0
          simp only [↓reduceIte]
          refine ⟨trivial, hi, ?_⟩
          intro k hk1 hk2
          have : k = i := by omega
          rw [this]; exact hb'
        · simp only [if_neg h0]
          obtain ⟨e1, e2, e3⟩ := hinv h0
          refine ⟨by omega, e2, ?_⟩
          intro k hk1 hk2
          by_cases hki : k = i
          · rw [hki]; exact hb'
          · exact e3 k hk1 (by omega)
      by_cases hsz : cc + 1 = size
      · rw [if_pos hsz] at h
        injection h with h
        subst h
        obtain ⟨e1, e2, e3⟩ := hinv'
        refine ⟨e2, by omega, ?_⟩
        intro k hk1 hk2
        exact e3 k hk1 (by omega)
      · rw [if_neg hsz] at h
        obtain ⟨r1, r2, r3⟩ :=
          ih (i + 1) _ (cc + 1) b (by omega) (by omega) (fun _ => hinv') h
        exact ⟨r1, by omega, r3⟩

/-- What `find_contiguous_blocks` returns is a run of free blocks inside 1..127. -/
theorem find_contiguous_blocks_sound {sb : Superblock} {size b : Nat} (hsize : 1 ≤ size)
    (h : find_contiguous_blocks sb size = some b) :
    1 ≤ b ∧ b + size ≤ NUM_BLOCKS ∧ ∀ k, b ≤ k → k < b + size → sb.bit k = false := by
  unfold find_contiguous_blocks at h
  rw [if_neg (by omega)] at h
  have := find_contiguous_loop_sound sb size (NUM_BLOCKS - 1) 1 1 0 b (by omega) (by omega)
    (by intro h0; exact absurd rfl h0) h
  simpa [NUM_BLOCKS] using this

theorem size_mask (n : Nat) (h : n ≤ 127) : (0x80 ||| (n &&& 0x7F)) &&& 0x7F = n := by
  have : ∀ n < 128, (0x80 ||| (n &&& 0x7F)) &&& 0x7F = n := by decide
  exact this n (by omega)

theorem in_use_mask (n : Nat) : ((0x80 ||| (n &&& 0x7F)) &&& 0x80 != 0) = true := by
  have h1 : n &&& 0x7F < 128 := Nat.lt_succ_of_le Nat.and_le_right
  have : ∀ m < 128, ((0x80 ||| m) &&& 0x80 != 0) = true := by decide
  exact this _ h1

theorem file_mask (n : Nat) : (((0 ||| (n &&& 0x7F)) &&& 0x80) != 0) = false := by
  have h1 : n &&& 0x7F < 128 := Nat.lt_succ_of_le Nat.and_le_right
  have : ∀ m < 128, (((0 ||| m) &&& 0x80) != 0) = false := by decide
  exact this _ h1

/-- C1: when `fs_create` of a file of 1..127 blocks succeeds in a state whose
bitmap marks every block of every existing file as used, the record it fills
was free and is now a file with the given name and size whose range
`[b, b + size)` lies inside 1..127 and meets the range of no other file, every
other record is unchanged, and the bitmap is the old bitmap with exactly the
bits of that range additionally set (on a bitmap with only block 0 marked,
exactly block 0 and that range are marked afterwards). -/
theorem C1_create_allocates_free_run (s s' : State) (name : Name) (size : Nat)
    (hused : ∀ i < NUM_INODES, (s.superblock.inode i).is_file = true →
      ∀ k, (s.superblock.inode i).start_block ≤ k →
        k < (s.superblock.inode i).start_block + (s.superblock.inode i).size →
        k < NUM_BLOCKS ∧ s.superblock.bit k = true)
    (hsize : 1 ≤ size ∧ size ≤ 127)
    (hok : fs_create s name size = (Outcome.ok, s')) :
    ∃ idx b, idx < NUM_INODES ∧ (s.superblock.inode idx).in_use = false ∧
      (s'.superblock.inode idx).is_file = true ∧
      (s'.superblock.inode idx).name = name ∧
      (s'.superblock.inode idx).size = size ∧
      (s'.superblock.inode idx).start_block = b ∧
      1 ≤ b ∧ b + size ≤ NUM_BLOCKS ∧
      (∀ j < NUM_INODES, j ≠ idx → s'.superblock.inode j = s.superblock.inode j) ∧
      (∀ j < NUM_INODES, j ≠ idx → (s'.superblock.inode j).is_file = true →
        ∀ k, (s'.superblock.inode j).start_block ≤ k →
          k < (s'.superblock.inode j).start_block + (s'.superblock.inode j).size →
          ¬ (b ≤ k ∧ k < b + size)) ∧
      (∀ k < NUM_BLOCKS,
        s'.superblock.bit k = (s.superblock.bit k || decide (b ≤ k ∧ k < b + size))) ∧
      ((∀ k < NUM_BLOCKS, s.superblock.bit k = decide (k = 0)) →
        ∀ k < NUM_BLOCKS, s'.superblock.bit k = decide (k = 0 ∨ (b ≤ k ∧ k < b + size))) := by
  obtain ⟨hs1, hs2⟩ := hsize
  unfold fs_create at hok
  split at hok
  · simp at hok
  split at hok
  · simp at hok
  split at hok
  · simp at hok
  next idx hidx =>
  rw [if_pos (by omega : size > 0)] at hok
  split at hok
  · simp at hok
  next b hb =>
  obtain ⟨hi1, hi2⟩ := find_free_inode_some hidx
  obtain ⟨hb1, hb2, hb3⟩ := find_contiguous_blocks_sound hs1 hb
  simp only [NUM_BLOCKS] at hb2
  simp only [if_pos (by omega : size > 0), if_neg (by omega : ¬ size = 0), Prod.mk.injEq,
    true_and] at hok
  subst hok
  have hbit : ∀ k < NUM_BLOCKS,
      (mark_blocks (s.superblock.set_inode idx
        { name := name, used_size := 0x80 ||| (size &&& 0x7F), start_block := b % 256,
          dir_parent := 0 ||| (s.current_dir_inode &&& 0x7F) }) (b : Int) size true).bit k =
        (s.superblock.bit k || decide (b ≤ k ∧ k < b + size)) := by
    intro k hk
    rw [mark_blocks_bit_nat]
    by_cases hr : b ≤ k ∧ k < b + size
    · rw [if_pos ⟨hr.1, hr.2, hk⟩, if_neg (by omega)]
      simp [hr]
    · have : ¬ (b ≤ k ∧ k < b + size ∧ k < NUM_BLOCKS) := fun h => hr ⟨h.1, h.2.1⟩
      rw [if_neg this]
      simp only [hr, decide_False, Bool.or_false]
      rfl
  have hino : ∀ j, (mark_blocks (s.superblock.set_inode idx
        { name := name, used_size := 0x80 ||| (size &&& 0x7F), start_block := b % 256,
          dir_parent := 0 ||| (s.current_dir_inode &&& 0x7F) }) (b : Int) size true).inode j =
        if j = idx then
          { name := name, used_size := 0x80 ||| (size &&& 0x7F), start_block := b % 256,
            dir_parent := 0 ||| (s.current_dir_inode &&& 0x7F) }
        else s.superblock.inode j := by
    intro j
    rw [mark_blocks_inode]
    rfl
  have hother : ∀ j < NUM_INODES, j ≠ idx →
      (mark_blocks (s.superblock.set_inode idx
        { name := name, used_size := 0x80 ||| (size &&& 0x7F), start_block := b % 256,
          dir_parent := 0 ||| (s.current_dir_inode &&& 0x7F) }) (b : Int) size true).inode j =
        s.superblock.inode j := by
    intro j _ hj
    rw [hino, if_neg hj]
  refine ⟨idx, b, hi1, hi2, ?_, ?_, ?_, ?_, hb1, hb2, hother, ?_, hbit, ?_⟩
  · simp only [hino, if_true, Inode.is_file, Inode.in_use, Inode.is_dir, in_use_mask, file_mask]
    rfl
  · simp only [hino, if_true]
  · simp only [hino, if_true, Inode.size]
    exact size_mask size hs2
  · simp only [hino, if_true]
    exact Nat.mod_eq_of_lt (by omega)
  · intro j hj hne hfile k hk1 hk2 hr
    rw [hother j hj hne] at hfile hk1 hk2
    have := (hused j hj hfile k hk1 hk2).2
    rw [hb3 k hr.1 hr.2] at this
    exact Bool.false_ne_true this
  · intro hempty k hk
    rw [hbit k hk, hempty k hk]
    simp

/-- Witness for C1: on the empty image `C f 3` succeeds, and the record it
fills has the name `f` and a range of three blocks inside 1..127. -/
theorem C1_witness :
    (∀ i < NUM_INODES, (empty_state.superblock.inode i).is_file = true →
      ∀ k, (empty_state.superblock.inode i).start_block ≤ k →
        k < (empty_state.superblock.inode i).start_block +
          (empty_state.superblock.inode i).size →
        k < NUM_BLOCKS ∧ empty_state.superblock.bit k = true) ∧
    fs_create empty_state name_f 3 = (Outcome.ok, session_with_file) ∧
    ∃ idx b, idx < NUM_INODES ∧ (session_with_file.superblock.inode idx).name = name_f ∧
      (session_with_file.superblock.inode idx).start_block = b ∧ 1 ≤ b ∧ b + 3 ≤ NUM_BLOCKS :=
  have h1 : ∀ i < NUM_INODES, (empty_state.superblock.inode i).is_file = true →
      ∀ k, (empty_state.superblock.inode i).start_block ≤ k →
        k < (empty_state.superblock.inode i).start_block +
          (empty_state.superblock.inode i).size →
        k < NUM_BLOCKS ∧ empty_state.superblock.bit k = true :=
    fun _ _ hf => absurd (show zero_inode.is_file = true from hf) (by decide)
  have h2 : fs_create empty_state name_f 3 = (Outcome.ok, session_with_file) :=
    Prod.ext (by decide) rfl
  ⟨h1, h2,
    let ⟨idx, b, hi, _, _, hn, _, hb, hb1, hb2, _⟩ :=
      C1_create_allocates_free_run empty_state session_with_file name_f 3 h1
        ⟨by decide, by decide⟩ h2
    ⟨idx, b, hi, hn, hb, hb1, hb2⟩⟩

/-- C2 (the code departs from the claim): with the file `f` in the mounted
session, mounting an image whose block 0 fails check 1 reports the
inconsistency and keeps `current_disk`, but the in-memory superblock is now
the one read from the rejected image: record 0 no longer describes `f`. -/
theorem C2_failed_mount_replaces_superblock :
    check_consistency
      (((Superblock.ofBlock (read_block bad_image 0)).set_byte 0
        ((Superblock.ofBlock (read_block bad_image 0)).free_block_list 0 ||| 1))) = 1 ∧
    (fs_mount session_with_file "disk1" (some bad_image)).1 = Outcome.inconsistent 1 ∧
    (fs_mount session_with_file "disk1" (some bad_image)).2.current_disk = some "disk0" ∧
    session_with_file.superblock.inode 0 = ⟨name_f, 0x83, 1, 0⟩ ∧
    (fs_mount session_with_file "disk1" (some bad_image)).2.superblock.inode 0 =
      ⟨zero_name, 0, 5, 0⟩ := by
  refine ⟨by decide, by decide, by decide, by decide, by decide⟩

/-- C3 (the code departs from the claim): in the root directory, with the
file `x` in the root and the directory `d` containing another file `x`,
`fs_delete d` returns after removing `d` and the file `x` of the root, while
the file `x` inside `d` stays in use with the freed record 1 as its parent. -/
theorem C3_delete_directory_leaves_orphan :
    tree_state.current_dir_inode = 0 ∧
    get_file_inode tree_state.superblock name_d tree_state.current_dir_inode = some 1 ∧
    tree_state.superblock.inode 0 = ⟨name_x, 0x81, 1, 0⟩ ∧
    tree_state.superblock.inode 1 = ⟨name_d, 0x80, 0, 0x80⟩ ∧
    tree_state.superblock.inode 2 = ⟨name_x, 0x81, 2, 1⟩ ∧
    (fs_delete 2 tree_state name_d).map
        (fun r => (r.1, r.2.superblock.inode 0, r.2.superblock.inode 1,
          r.2.superblock.inode 2)) =
      some (Outcome.ok, zero_inode, zero_inode, ⟨name_x, 0x81, 2, 1⟩) := by
  refine ⟨by decide, by decide, by decide, by decide, by decide, by decide⟩

theorem zero_blocks_apply (d : Disk) (a n k : Nat) :
    zero_blocks d a n k = if a ≤ k ∧ k < a + n then zero_block else d k := by
  unfold zero_blocks
  induction n with
  | zero =>
    have : ¬ (a ≤ k ∧ k < a + 0) := by omega
    rw [if_neg this]; rfl
  | succ n ih =>
    rw [List.range_succ, List.foldl_append]
    simp only [List.foldl_cons, List.foldl_nil, write_block]
    by_cases hk : k = a + n
    · rw [if_pos hk, if_pos (by omega)]
    · rw [if_neg hk, ih]
      by_cases h : a ≤ k ∧ k < a + n
      · rw [if_pos h, if_pos (by omega)]
      · rw [if_neg h, if_neg (by omega)]

theorem isNone_eq_false_of_ne_none {α : Type} {o : Option α} (h : o ≠ none) :
    o.isNone = false := by
  cases o with
  | none => exact absurd rfl h
  | some _ => rfl

/-- The effect of `fs_delete` on a name that resolves to a record that is
not a directory: no recursive call is made. -/
theorem fs_delete_file (fuel : Nat) (s : State) (name : Name) (idx : Nat)
    (hm : s.current_disk ≠ none)
    (hres : get_file_inode s.superblock name s.current_dir_inode = some idx)
    (hfile : (s.superblock.inode idx).is_dir = false) :
    fs_delete (fuel + 1) s name =
      some (Outcome.ok,
        { s with
          superblock :=
            (mark_blocks s.superblock ((s.superblock.inode idx).start_block : Nat)
              (s.superblock.inode idx).size false).set_inode idx zero_inode
          disk :=
            write_block
              (zero_blocks s.disk (s.superblock.inode idx).start_block
                (s.superblock.inode idx).size) 0
              ((mark_blocks s.superblock ((s.superblock.inode idx).start_block : Nat)
                (s.superblock.inode idx).size false).set_inode idx zero_inode).toBlock }) := by
  simp only [fs_delete, isNone_eq_false_of_ne_none hm, hres, hfile, Bool.false_eq_true, if_false]

/-- C4: when the name resolves in the current directory to a file whose range
`[a, a + sz)` lies inside 1..127, `fs_delete` returns (for any positive bound
on the recursion depth); it clears exactly the bitmap bits of the range,
zero-fills exactly the data blocks of the range, zeroes the record of the file
and leaves every other record unchanged. -/
theorem C4_delete_file_frees_exactly_its_range (fuel : Nat) (s : State) (name : Name)
    (idx a sz : Nat)
    (hm : s.current_disk ≠ none)
    (hres : get_file_inode s.superblock name s.current_dir_inode = some idx)
    (hfile : (s.superblock.inode idx).is_dir = false)
    (ha : (s.superblock.inode idx).start_block = a)
    (hsz : (s.superblock.inode idx).size = sz)
    (hrange : 1 ≤ a ∧ a + sz ≤ NUM_BLOCKS) :
    ∃ s', fs_delete (fuel + 1) s name = some (Outcome.ok, s') ∧
      (∀ k, s'.superblock.bit k = (s.superblock.bit k && !decide (a ≤ k ∧ k < a + sz))) ∧
      (∀ k, a ≤ k → k < a + sz → s'.disk k = zero_block) ∧
      (∀ k, 1 ≤ k → ¬ (a ≤ k ∧ k < a + sz) → s'.disk k = s.disk k) ∧
      s'.superblock.inode idx = zero_inode ∧
      (∀ j, j ≠ idx → s'.superblock.inode j = s.superblock.inode j) := by
  refine ⟨_, fs_delete_file fuel s name idx hm hres hfile, ?_, ?_, ?_, ?_, ?_⟩
  · intro k
    show (mark_blocks s.superblock _ _ false).bit k = _
    rw [ha, hsz, mark_blocks_bit_nat]
    by_cases h : a ≤ k ∧ k < a + sz
    · rw [if_pos ⟨h.1, h.2, by simp only [NUM_BLOCKS] at hrange ⊢; omega⟩, if_neg (by omega)]
      simp [h]
    · rw [if_neg (fun h' => h ⟨h'.1, h'.2.1⟩)]
      simp [h]
  · intro k h1 h2
    show write_block (zero_blocks s.disk _ _) 0 _ k = _
    rw [ha, hsz]
    unfold write_block
    rw [if_neg (by omega), zero_blocks_apply, if_pos ⟨h1, h2⟩]
  · intro k h1 h2
    show write_block (zero_blocks s.disk _ _) 0 _ k = _
    rw [ha, hsz]
    unfold write_block
    rw [if_neg (by omega), zero_blocks_apply, if_neg h2]
  · show (if idx = idx then zero_inode else _) = _
    rw [if_pos rfl]
  · intro j hj
    show (if j = idx then zero_inode else (mark_blocks s.superblock _ _ false).inode j) = _
    rw [if_neg hj, mark_blocks_inode]

/-- Witness for C4: deleting the file `f` of `session_with_file` (record 0,
blocks 1..3). -/
theorem C4_witness :
    session_with_file.current_disk ≠ none ∧
    get_file_inode session_with_file.superblock name_f session_with_file.current_dir_inode =
      some 0 ∧
    (session_with_file.superblock.inode 0).is_dir = false ∧
    (session_with_file.superblock.inode 0).start_block = 1 ∧
    (session_with_file.superblock.inode 0).size = 3 ∧
    ∃ s', fs_delete 1 session_with_file name_f = some (Outcome.ok, s') ∧
      (∀ k, s'.superblock.bit k =
        (session_with_file.superblock.bit k && !decide (1 ≤ k ∧ k < 1 + 3))) ∧
      (∀ k, 1 ≤ k → k < 1 + 3 → s'.disk k = zero_block) ∧
      (∀ k, 1 ≤ k → ¬ (1 ≤ k ∧ k < 1 + 3) → s'.disk k = session_with_file.disk k) ∧
      s'.superblock.inode 0 = zero_inode ∧
      (∀ j, j ≠ 0 → s'.superblock.inode j = session_with_file.superblock.inode j) :=
  ⟨by decide, by decide, by decide, by decide, by decide,
    C4_delete_file_frees_exactly_its_range 0 session_with_file name_f 0 1 3
      (by decide) (by decide) (by decide) (by decide) (by decide) ⟨by decide, by decide⟩⟩

theorem copy_blocks_succ (d : Disk) (a b n : Nat) :
    copy_blocks d a b (n + 1) =
      write_block (copy_blocks d a b n) (b + n) (read_block (copy_blocks d a b n) (a + n)) := by
  unfold copy_blocks
  rw [List.range_succ, List.foldl_append]
  rfl

/-- The copy loop of the relocation, when no source block is a destination block. -/
theorem copy_blocks_apply (d : Disk) (a b n : Nat)
    (hdisj : ∀ i < n, ∀ j < n, a + i ≠ b + j) (k : Nat) :
    copy_blocks d a b n k = if b ≤ k ∧ k < b + n then d (a + (k - b)) else d k := by
  induction n generalizing k with
  | zero =>
    have : ¬ (b ≤ k ∧ k < b + 0) := by omega
    rw [if_neg this]; rfl
  | succ n ih =>
    have ih' := ih (fun i hi j hj => hdisj i (by omega) j (by omega))
    have hsrc : copy_blocks d a b n (a + n) = d (a + n) := by
      rw [ih' (a + n)]
      have hn : ¬ (b ≤ a + n ∧ a + n < b + n) := by
        intro h
        exact hdisj n (by omega) (a + n - b) (by omega) (by omega)
      rw [if_neg hn]
    rw [copy_blocks_succ]
    unfold write_block read_block
    by_cases hk : k = b + n
    · subst hk
      rw [if_pos rfl, hsrc, if_pos (by omega), Nat.add_sub_cancel_left]
    · rw [if_neg hk, ih' k]
      by_cases h : b ≤ k ∧ k < b + n
      · rw [if_pos h, if_pos (by omega)]
      · rw [if_neg h, if_neg (by omega)]

theorem can_expand_eq_true (sb : Superblock) (a sz n : Nat) :
    can_expand sb a sz n = true ↔
      ∀ k, a + sz ≤ k → k < a + sz + (n - sz) → k < NUM_BLOCKS → sb.bit k = false := by
  unfold can_expand
  rw [List.all_eq_true]
  constructor
  · intro h k h1 h2 h3
    have := h k (List.mem_range'_1.mpr ⟨h1, h2⟩)
    simpa [h3] using this
  · intro h k hk
    obtain ⟨h1, h2⟩ := List.mem_range'_1.mp hk
    by_cases h3 : k < NUM_BLOCKS
    · simp [h3, h k h1 h2 h3]
    · simp [h3]

theorem fs_resize_grow_in_place (s : State) (name : Name) (n idx : Nat)
    (hm : s.current_disk ≠ none)
    (hres : get_file_inode s.superblock name s.current_dir_inode = some idx)
    (hfile : (s.superblock.inode idx).is_dir = false)
    (hn : (s.superblock.inode idx).size < n)
    (hc : can_expand s.superblock (s.superblock.inode idx).start_block
      (s.superblock.inode idx).size n = true) :
    fs_resize s name n =
      resize_finish s idx n
        (mark_blocks s.superblock
          (((s.superblock.inode idx).start_block + (s.superblock.inode idx).size : Nat) : Int)
          (n - (s.superblock.inode idx).size) true) s.disk := by
  simp only [fs_resize, isNone_eq_false_of_ne_none hm, hres, hfile, Bool.false_eq_true, if_false,
    gt_iff_lt, hn, if_true, hc]

theorem fs_resize_relocate (s : State) (name : Name) (n idx b : Nat)
    (hm : s.current_disk ≠ none)
    (hres : get_file_inode s.superblock name s.current_dir_inode = some idx)
    (hfile : (s.superblock.inode idx).is_dir = false)
    (hn : (s.superblock.inode idx).size < n)
    (hc : can_expand s.superblock (s.superblock.inode idx).start_block
      (s.superblock.inode idx).size n = false)
    (hf : find_contiguous_blocks s.superblock n = some b) :
    fs_resize s name n =
      resize_finish s idx n
        ((mark_blocks
            (mark_blocks s.superblock ((s.superblock.inode idx).start_block : Nat)
              (s.superblock.inode idx).size false) (b : Nat) n true).set_inode idx
          { (mark_blocks
              (mark_blocks s.superblock ((s.superblock.inode idx).start_block : Nat)
                (s.superblock.inode idx).size false) (b : Nat) n true).inode idx with
            start_block := b % 256 })
        (zero_blocks
          (copy_blocks s.disk (s.superblock.inode idx).start_block b
            (s.superblock.inode idx).size)
          (s.superblock.inode idx).start_block (s.superblock.inode idx).size) := by
  simp only [fs_resize, isNone_eq_false_of_ne_none hm, hres, hfile, Bool.false_eq_true, if_false,
    gt_iff_lt, hn, if_true, hc, hf]

theorem fs_resize_no_space (s : State) (name : Name) (n idx : Nat)
    (hm : s.current_disk ≠ none)
    (hres : get_file_inode s.superblock name s.current_dir_inode = some idx)
    (hfile : (s.superblock.inode idx).is_dir = false)
    (hn : (s.superblock.inode idx).size < n)
    (hc : can_expand s.superblock (s.superblock.inode idx).start_block
      (s.superblock.inode idx).size n = false)
    (hf : find_contiguous_blocks s.superblock n = none) :
    fs_resize s name n = (Outcome.cannot_expand, s) := by
  simp only [fs_resize, isNone_eq_false_of_ne_none hm, hres, hfile, Bool.false_eq_true, if_false,
    gt_iff_lt, hn, if_true, hc, hf]

theorem fs_resize_shrink (s : State) (name : Name) (n idx : Nat)
    (hm : s.current_disk ≠ none)
    (hres : get_file_inode s.superblock name s.current_dir_inode = some idx)
    (hfile : (s.superblock.inode idx).is_dir = false)
    (hn : n < (s.superblock.inode idx).size) :
    fs_resize s name n =
      resize_finish s idx n
        (mark_blocks s.superblock (((s.superblock.inode idx).start_block + n : Nat) : Int)
          ((s.superblock.inode idx).size - n) false)
        (zero_blocks s.disk ((s.superblock.inode idx).start_block + n)
          ((s.superblock.inode idx).size - n)) := by
  have h1 : ¬ (s.superblock.inode idx).size < n := by omega
  simp only [fs_resize, isNone_eq_false_of_ne_none hm, hres, hfile, Bool.false_eq_true, if_false,
    gt_iff_lt, h1, hn, if_true]

theorem fs_resize_same (s : State) (name : Name) (n idx : Nat)
    (hm : s.current_disk ≠ none)
    (hres : get_file_inode s.superblock name s.current_dir_inode = some idx)
    (hfile : (s.superblock.inode idx).is_dir = false)
    (hn : n = (s.superblock.inode idx).size) :
    fs_resize s name n = resize_finish s idx n s.superblock s.disk := by
  have h1 : ¬ (s.superblock.inode idx).size < n := by omega
  have h2 : ¬ n < (s.superblock.inode idx).size := by omega
  simp only [fs_resize, isNone_eq_false_of_ne_none hm, hres, hfile, Bool.false_eq_true, if_false,
    gt_iff_lt, h1, h2]

/-- C6 (as amended): when the file starts at a block `a ≥ 1`, its blocks are
marked used, some block of the disk among `a+sz .. a+n-1` is marked used and
`find_contiguous_blocks n` returns `b`, then `fs_resize` moves the file to
`b`: the record has `start_block = b` and size `n`, block `b+i` holds what
block `a+i` held for every `i < sz`, the blocks `a .. a+sz-1` are zero, and
the bitmap is the old one with the bits of `[a, a+sz)` cleared and those of
`[b, b+n)` set. -/
theorem C6_relocating_growth_preserves_data (s : State) (name : Name) (idx a sz n b : Nat)
    (hm : s.current_disk ≠ none)
    (hres : get_file_inode s.superblock name s.current_dir_inode = some idx)
    (hfile : (s.superblock.inode idx).is_dir = false)
    (ha : (s.superblock.inode idx).start_block = a)
    (hsz : (s.superblock.inode idx).size = sz)
    (ha1 : 1 ≤ a)
    (hused : ∀ k, a ≤ k → k < a + sz → k < NUM_BLOCKS ∧ s.superblock.bit k = true)
    (hn : sz < n)
    (hblocked : ∃ k, a + sz ≤ k ∧ k < a + n ∧ k < NUM_BLOCKS ∧ s.superblock.bit k = true)
    (hfind : find_contiguous_blocks s.superblock n = some b) :
    ∃ s', fs_resize s name n = (Outcome.ok, s') ∧
      (s'.superblock.inode idx).start_block = b ∧
      (s'.superblock.inode idx).size = n ∧
      (∀ i < sz, s'.disk (b + i) = s.disk (a + i)) ∧
      (∀ k, a ≤ k → k < a + sz → s'.disk k = zero_block) ∧
      (∀ k < NUM_BLOCKS, s'.superblock.bit k =
        ((s.superblock.bit k && !decide (a ≤ k ∧ k < a + sz)) || decide (b ≤ k ∧ k < b + n))) := by
  obtain ⟨hb1, hb2, hb3⟩ := find_contiguous_blocks_sound (by omega) hfind
  simp only [NUM_BLOCKS] at hb2
  have hc : can_expand s.superblock (s.superblock.inode idx).start_block
      (s.superblock.inode idx).size n = false := by
    rw [ha, hsz]
    cases hce : can_expand s.superblock a sz n with
    | false => rfl
    | true =>
      obtain ⟨k, k1, k2, k3, k4⟩ := hblocked
      have := (can_expand_eq_true s.superblock a sz n).mp hce k k1 (by omega) k3
      rw [k4] at this
      exact absurd this (by decide)
  have hdisj : ∀ i < sz, ∀ j < sz, a + i ≠ b + j := by
    intro i hi j hj heq
    have h1 := (hused (a + i) (by omega) (by omega)).2
    rw [heq, hb3 (b + j) (by omega) (by omega)] at h1
    exact absurd h1 (by decide)
  have hdisj' : ∀ k, a ≤ k → k < a + sz → ¬ (b ≤ k ∧ k < b + n) := by
    intro k k1 k2 hk
    have h1 := (hused k k1 k2).2
    rw [hb3 k hk.1 hk.2] at h1
    exact absurd h1 (by decide)
  refine ⟨_, fs_resize_relocate s name n idx b hm hres hfile (by omega) hc hfind, ?_, ?_, ?_, ?_,
    ?_⟩
  · show (if idx = idx then _ else _ : Inode).start_block = b
    rw [if_pos rfl]
    show (if idx = idx then _ else _ : Inode).start_block = b
    rw [if_pos rfl]
    exact Nat.mod_eq_of_lt (by omega)
  · show (if idx = idx then _ else _ : Inode).size = n
    rw [if_pos rfl]
    exact size_mask n (by omega)
  · intro i hi
    show write_block (zero_blocks (copy_blocks s.disk _ b _) _ _) 0 _ (b + i) = _
    rw [ha, hsz]
    unfold write_block
    rw [if_neg (by omega), zero_blocks_apply,
      if_neg (fun h => hdisj (b + i - a) (by omega) i hi (by omega)),
      copy_blocks_apply _ _ _ _ hdisj, if_pos (by omega), Nat.add_sub_cancel_left]
  · intro k k1 k2
    show write_block (zero_blocks (copy_blocks s.disk _ b _) _ _) 0 _ k = _
    rw [ha, hsz]
    unfold write_block
    rw [if_neg (by omega), zero_blocks_apply, if_pos ⟨k1, k2⟩]
  · intro k hk
    show (mark_blocks (mark_blocks s.superblock _ _ false) (b : Nat) n true).bit k = _
    rw [ha, hsz, mark_blocks_bit_nat, mark_blocks_bit_nat]
    by_cases hnew : b ≤ k ∧ k < b + n
    · rw [if_pos ⟨hnew.1, hnew.2, hk⟩, if_neg (by omega)]
      simp [hnew]
    · rw [if_neg (fun h => hnew ⟨h.1, h.2.1⟩)]
      by_cases hold : a ≤ k ∧ k < a + sz
      · rw [if_pos ⟨hold.1, hold.2, hk⟩, if_neg (by omega)]
        simp [hold, hnew]
      · rw [if_neg (fun h => hold ⟨h.1, h.2.1⟩)]
        simp [hold, hnew]

/-- C7: for a file with range `[a, a+sz)` and a new size `n > sz` that the
command reader passes to `fs_resize` (it passes the sizes 1..127), when the
blocks `a+sz .. a+n-1` are all blocks of the disk that are free, `fs_resize`
reports no error, keeps `start_block = a`, stores the size `n`, sets exactly
the bitmap bits of `a+sz .. a+n-1` and changes no data block. -/
theorem C7_growth_in_place (s : State) (name : Name) (idx a sz n : Nat)
    (hm : s.current_disk ≠ none)
    (hres : get_file_inode s.superblock name s.current_dir_inode = some idx)
    (hfile : (s.superblock.inode idx).is_dir = false)
    (ha : (s.superblock.inode idx).start_block = a)
    (hsz : (s.superblock.inode idx).size = sz)
    (hn : sz < n)
    (hn127 : n ≤ 127)
    (hfree : ∀ k, a + sz ≤ k → k < a + n → k < NUM_BLOCKS ∧ s.superblock.bit k = false) :
    ∃ s', fs_resize s name n = (Outcome.ok, s') ∧
      (s'.superblock.inode idx).start_block = a ∧
      (s'.superblock.inode idx).size = n ∧
      (∀ k, s'.superblock.bit k = (s.superblock.bit k || decide (a + sz ≤ k ∧ k < a + n))) ∧
      (∀ k, 1 ≤ k → s'.disk k = s.disk k) := by
  have hc : can_expand s.superblock (s.superblock.inode idx).start_block
      (s.superblock.inode idx).size n = true := by
    rw [ha, hsz, can_expand_eq_true]
    intro k k1 k2 _
    exact (hfree k k1 (by omega)).2
  refine ⟨_, fs_resize_grow_in_place s name n idx hm hres hfile (by omega) hc, ?_, ?_, ?_, ?_⟩
  · show (if idx = idx then _ else _ : Inode).start_block = a
    rw [if_pos rfl]
    show ((mark_blocks s.superblock _ _ true).inode idx).start_block = a
    rw [mark_blocks_inode, ha]
  · show (if idx = idx then _ else _ : Inode).size = n
    rw [if_pos rfl]
    exact size_mask n hn127
  · intro k
    show (mark_blocks s.superblock _ _ true).bit k = _
    rw [ha, hsz, mark_blocks_bit_nat]
    by_cases h : a + sz ≤ k ∧ k < a + n
    · rw [if_pos ⟨h.1, by omega, (hfree k h.1 h.2).1⟩]
      simp [h]
    · rw [if_neg (fun h' => h ⟨h'.1, by omega⟩)]
      simp [h]
  · intro k hk
    show write_block s.disk 0 _ k = _
    unfold write_block
    rw [if_neg (by omega)]

/-- C8: when the file's range `[a, a + sz)` lies inside 1..127 and `n < sz`,
`fs_resize` keeps `start_block`, stores the size `n`, clears exactly the
bitmap bits of `a+n .. a+sz-1`, leaves the data blocks `a+n .. a+sz-1` zero
and leaves every other data block unchanged. -/
theorem C8_shrink_releases_the_tail (s : State) (name : Name) (idx a sz n : Nat)
    (hm : s.current_disk ≠ none)
    (hres : get_file_inode s.superblock name s.current_dir_inode = some idx)
    (hfile : (s.superblock.inode idx).is_dir = false)
    (ha : (s.superblock.inode idx).start_block = a)
    (hsz : (s.superblock.inode idx).size = sz)
    (hrange : 1 ≤ a ∧ a + sz ≤ NUM_BLOCKS)
    (hn : n < sz) :
    ∃ s', fs_resize s name n = (Outcome.ok, s') ∧
      (s'.superblock.inode idx).start_block = a ∧
      (s'.superblock.inode idx).size = n ∧
      (∀ k, s'.superblock.bit k = (s.superblock.bit k && !decide (a + n ≤ k ∧ k < a + sz))) ∧
      (∀ k, a + n ≤ k → k < a + sz → s'.disk k = zero_block) ∧
      (∀ k, 1 ≤ k → ¬ (a + n ≤ k ∧ k < a + sz) → s'.disk k = s.disk k) := by
  obtain ⟨hr1, hr2⟩ := hrange
  simp only [NUM_BLOCKS] at hr2
  have hsz127 : sz ≤ 127 := by omega
  refine ⟨_, fs_resize_shrink s name n idx hm hres hfile (by omega), ?_, ?_, ?_, ?_, ?_⟩
  · show (if idx = idx then _ else _ : Inode).start_block = a
    rw [if_pos rfl]
    show ((mark_blocks s.superblock _ _ false).inode idx).start_block = a
    rw [mark_blocks_inode, ha]
  · show (if idx = idx then _ else _ : Inode).size = n
    rw [if_pos rfl]
    exact size_mask n (by omega)
  · intro k
    show (mark_blocks s.superblock _ _ false).bit k = _
    rw [ha, hsz, mark_blocks_bit_nat]
    by_cases h : a + n ≤ k ∧ k < a + sz
    · rw [if_pos ⟨h.1, by omega, by simp only [NUM_BLOCKS]; omega⟩, if_neg (by omega)]
      simp [h]
    · rw [if_neg (fun h' => h ⟨h'.1, by omega⟩)]
      simp [h]
  · intro k k1 k2
    show write_block (zero_blocks s.disk _ _) 0 _ k = _
    rw [ha, hsz]
    unfold write_block
    rw [if_neg (by omega), zero_blocks_apply, if_pos ⟨k1, by omega⟩]
  · intro k k1 k2
    show write_block (zero_blocks s.disk _ _) 0 _ k = _
    rw [ha, hsz]
    unfold write_block
    rw [if_neg (by omega), zero_blocks_apply, if_neg (fun h' => k2 ⟨h'.1, by omega⟩)]

set_option maxRecDepth 100000 in
/-- C5 (the code departs from the claim): in `full_state` the file `f` sits in
block 127 and no block of the disk is free, so block 128 is not a free block
of the disk and there is no run of two free blocks; `fs_resize f 2` still
reports no error and stores the size 2. -/
theorem C5_resize_grows_past_the_disk :
    get_file_inode full_state.superblock name_f full_state.current_dir_inode = some 1 ∧
    full_state.superblock.inode 1 = ⟨name_f, 0x81, 127, 0⟩ ∧
    (∀ k < NUM_BLOCKS, full_state.superblock.bit k = true) ∧
    find_contiguous_blocks full_state.superblock 2 = none ∧
    (fs_resize full_state name_f 2).1 = Outcome.ok ∧
    (fs_resize full_state name_f 2).2.superblock.inode 1 = ⟨name_f, 0x82, 127, 0⟩ := by
  refine ⟨by decide, by decide, by decide, by decide, by decide, by decide⟩

set_option maxRecDepth 100000 in
/-- C6 fails as stated, at two inputs.  In `tail_state` the file `f` sits in
block 127, which is marked used; growth to 2 blocks in place is impossible
(block 128 is not a block of the disk) and `find_contiguous_blocks 2` returns
1, but `fs_resize f 2` leaves `start_block = 127`.  In
`block0_file_state 3` the file has `start_block = 0`, blocks 0 and 1 are
marked used and `find_contiguous_blocks 2` returns 2; after `fs_resize f 2`
the file is at block 2, but bit 0 is still set and block 0 is not zero. -/
theorem C6_counterexample :
    (get_file_inode tail_state.superblock name_f tail_state.current_dir_inode = some 1 ∧
      tail_state.superblock.inode 1 = ⟨name_f, 0x81, 127, 0⟩ ∧
      tail_state.superblock.bit 127 = true ∧
      ¬ (127 + 1 < NUM_BLOCKS) ∧
      find_contiguous_blocks tail_state.superblock 2 = some 1 ∧
      (fs_resize tail_state name_f 2).1 = Outcome.ok ∧
      ((fs_resize tail_state name_f 2).2.superblock.inode 1).start_block ≠ 1) ∧
    (get_file_inode (block0_file_state 3).superblock name_f
        (block0_file_state 3).current_dir_inode = some 0 ∧
      (block0_file_state 3).superblock.inode 0 = ⟨name_f, 0x81, 0, 0⟩ ∧
      (block0_file_state 3).superblock.bit 0 = true ∧
      (block0_file_state 3).superblock.bit 1 = true ∧
      find_contiguous_blocks (block0_file_state 3).superblock 2 = some 2 ∧
      (fs_resize (block0_file_state 3) name_f 2).1 = Outcome.ok ∧
      ((fs_resize (block0_file_state 3) name_f 2).2.superblock.inode 0).start_block = 2 ∧
      (fs_resize (block0_file_state 3) name_f 2).2.superblock.bit 0 = true ∧
      (fs_resize (block0_file_state 3) name_f 2).2.disk 0 ≠ zero_block) := by
  refine ⟨⟨by decide, by decide, by decide, by decide, by decide, by decide, by decide⟩,
    ⟨by decide, by decide, by decide, by decide, by decide, by decide, by decide, by decide, ?_⟩⟩
  intro h
  have h0 : (fs_resize (block0_file_state 3) name_f 2).2.disk 0 0 = 15 := by decide
  rw [h] at h0
  exact absurd h0 (by decide)

set_option maxRecDepth 100000 in
/-- Witness for C6: in `two_files_state` the file `f` (block 1) cannot grow in
place because block 2 is used, and is moved to block 3. -/
theorem C6_witness :
    find_contiguous_blocks two_files_state.superblock 2 = some 3 ∧
    ∃ s', fs_resize two_files_state name_f 2 = (Outcome.ok, s') ∧
      (s'.superblock.inode 0).start_block = 3 ∧
      (s'.superblock.inode 0).size = 2 ∧
      (∀ i < 1, s'.disk (3 + i) = two_files_state.disk (1 + i)) ∧
      (∀ k, 1 ≤ k → k < 1 + 1 → s'.disk k = zero_block) ∧
      (∀ k < NUM_BLOCKS, s'.superblock.bit k =
        ((two_files_state.superblock.bit k && !decide (1 ≤ k ∧ k < 1 + 1)) ||
          decide (3 ≤ k ∧ k < 3 + 2))) :=
  ⟨by decide,
    C6_relocating_growth_preserves_data two_files_state name_f 0 1 1 2 3
      (by decide) (by decide) (by decide) (by decide) (by decide) (by decide)
      (fun k k1 k2 => by
        have hk : k = 1 := by omega
        subst hk
        exact ⟨by decide, by decide⟩)
      (by decide) ⟨2, by decide, by decide, by decide, by decide⟩ (by decide)⟩

set_option maxRecDepth 100000 in
/-- The size is stored in 7 bits: in `block0_file_state 1` the file has
`start_block = 0` and size 1 and the blocks 1..127 are all free; a call of
`fs_resize` with the size 128, which the command reader never passes, stores
the size 0. -/
theorem fs_resize_stores_size_in_seven_bits :
    get_file_inode (block0_file_state 1).superblock name_f
        (block0_file_state 1).current_dir_inode = some 0 ∧
    (block0_file_state 1).superblock.inode 0 = ⟨name_f, 0x81, 0, 0⟩ ∧
    (∀ k < NUM_BLOCKS, 0 + 1 ≤ k → (block0_file_state 1).superblock.bit k = false) ∧
    (fs_resize (block0_file_state 1) name_f 128).1 = Outcome.ok ∧
    ((fs_resize (block0_file_state 1) name_f 128).2.superblock.inode 0).size = 0 := by
  refine ⟨by decide, by decide, by decide, by decide, by decide⟩

set_option maxRecDepth 100000 in
/-- Witness for C7: the file `f` of `session_with_file` (blocks 1..3) grows in
place to 5 blocks. -/
theorem C7_witness :
    ∃ s', fs_resize session_with_file name_f 5 = (Outcome.ok, s') ∧
      (s'.superblock.inode 0).start_block = 1 ∧
      (s'.superblock.inode 0).size = 5 ∧
      (∀ k, s'.superblock.bit k =
        (session_with_file.superblock.bit k || decide (1 + 3 ≤ k ∧ k < 1 + 5))) ∧
      (∀ k, 1 ≤ k → s'.disk k = session_with_file.disk k) :=
  C7_growth_in_place session_with_file name_f 0 1 3 5
    (by decide) (by decide) (by decide) (by decide) (by decide) (by decide) (by decide)
    (fun k k1 k2 => by
      have hk : k = 4 ∨ k = 5 := by omega
      rcases hk with hk | hk <;> subst hk <;> exact ⟨by decide, by decide⟩)

set_option maxRecDepth 100000 in
/-- Witness for C8: the file `f` of `session_with_file` (blocks 1..3) shrinks
to 1 block. -/
theorem C8_witness :
    ∃ s', fs_resize session_with_file name_f 1 = (Outcome.ok, s') ∧
      (s'.superblock.inode 0).start_block = 1 ∧
      (s'.superblock.inode 0).size = 1 ∧
      (∀ k, s'.superblock.bit k =
        (session_with_file.superblock.bit k && !decide (1 + 1 ≤ k ∧ k < 1 + 3))) ∧
      (∀ k, 1 + 1 ≤ k → k < 1 + 3 → s'.disk k = zero_block) ∧
      (∀ k, 1 ≤ k → ¬ (1 + 1 ≤ k ∧ k < 1 + 3) → s'.disk k = session_with_file.disk k) :=
  C8_shrink_releases_the_tail session_with_file name_f 0 1 3 1
    (by decide) (by decide) (by decide) (by decide) (by decide) ⟨by decide, by decide⟩
    (by decide)

/-- What the common end of `fs_resize` keeps: the record stays resolvable
under the same name and stays a file, and the first `m` blocks of the file
keep their contents and their bitmap marks when the superblock and the image
handed to it have these properties. -/
theorem resize_finish_prefix (s : State) (name : Name) (idx a m n : Nat) (sb : Superblock)
    (d : Disk) (start' : Nat)
    (hres : get_file_inode s.superblock name s.current_dir_inode = some idx)
    (hfile : (s.superblock.inode idx).is_dir = false)
    (hsb : ∀ i, (sb.inode i).in_use = (s.superblock.inode i).in_use ∧
      (sb.inode i).dir_parent = (s.superblock.inode i).dir_parent ∧
      (sb.inode i).name = (s.superblock.inode i).name)
    (hstart : (sb.inode idx).start_block = start') (h1 : 1 ≤ start')
    (hdisk : ∀ k < m, d (start' + k) = s.disk (a + k))
    (hbits : ∀ k, start' ≤ k → k < start' + m → k < NUM_BLOCKS ∧ sb.bit k = true) :
    get_file_inode (resize_finish s idx n sb d).2.superblock name
        (resize_finish s idx n sb d).2.current_dir_inode = some idx ∧
      ((resize_finish s idx n sb d).2.superblock.inode idx).is_dir = false ∧
      1 ≤ ((resize_finish s idx n sb d).2.superblock.inode idx).start_block ∧
      (∀ k < m, (resize_finish s idx n sb d).2.disk
        (((resize_finish s idx n sb d).2.superblock.inode idx).start_block + k) =
          s.disk (a + k)) ∧
      (∀ k, ((resize_finish s idx n sb d).2.superblock.inode idx).start_block ≤ k →
        k < ((resize_finish s idx n sb d).2.superblock.inode idx).start_block + m →
        k < NUM_BLOCKS ∧ (resize_finish s idx n sb d).2.superblock.bit k = true) ∧
      ((resize_finish s idx n sb d).2.superblock.inode idx).used_size =
        0x80 ||| (n &&& 0x7F) := by
  obtain ⟨_, hu, _, _⟩ := get_file_inode_some hres
  have hst : ((resize_finish s idx n sb d).2.superblock.inode idx).start_block = start' := by
    show (if idx = idx then _ else _ : Inode).start_block = start'
    rw [if_pos rfl]
    exact hstart
  rw [hst]
  refine ⟨?_, ?_, h1, ?_, ?_, ?_⟩
  · rw [← hres]
    show get_file_inode _ name s.current_dir_inode = _
    apply get_file_inode_congr
    intro i _
    show (if i = idx then _ else _ : Inode).in_use = _ ∧
      (if i = idx then _ else _ : Inode).parent = _ ∧ (if i = idx then _ else _ : Inode).name = _
    by_cases hi : i = idx
    · subst hi
      simp only [if_true]
      refine ⟨?_, ?_, (hsb i).2.2⟩
      · rw [hu]; exact in_use_mask n
      · show (sb.inode i).dir_parent &&& 0x7F = (s.superblock.inode i).dir_parent &&& 0x7F
        rw [(hsb i).2.1]
    · simp only [if_neg hi]
      refine ⟨(hsb i).1, ?_, (hsb i).2.2⟩
      show (sb.inode i).dir_parent &&& 0x7F = (s.superblock.inode i).dir_parent &&& 0x7F
      rw [(hsb i).2.1]
  · rw [← hfile]
    show (if idx = idx then _ else _ : Inode).is_dir = _
    rw [if_pos rfl]
    show ((sb.inode idx).dir_parent &&& 0x80 != 0) =
      ((s.superblock.inode idx).dir_parent &&& 0x80 != 0)
    rw [(hsb idx).2.1]
  · intro k hk
    show write_block d 0 _ (start' + k) = _
    unfold write_block
    rw [if_neg (by omega)]
    exact hdisk k hk
  · intro k k1 k2
    exact hbits k k1 k2
  · show (if idx = idx then _ else _ : Inode).used_size = _
    rw [if_pos rfl]

/-- A resize that reports no error keeps the record of the file resolvable
under the same name, keeps its start at a block `≥ 1`, keeps the contents
and the bitmap marks of the first `min sz n` blocks of the file, and stores
the low 7 bits of the new size. -/
theorem resize_keeps_prefix (s s' : State) (name : Name) (idx a sz n : Nat)
    (hres : get_file_inode s.superblock name s.current_dir_inode = some idx)
    (hfile : (s.superblock.inode idx).is_dir = false)
    (ha : (s.superblock.inode idx).start_block = a)
    (hsz : (s.superblock.inode idx).size = sz)
    (ha1 : 1 ≤ a)
    (hused : ∀ k, a ≤ k → k < a + min sz n → k < NUM_BLOCKS ∧ s.superblock.bit k = true)
    (h : fs_resize s name n = (Outcome.ok, s')) :
    get_file_inode s'.superblock name s'.current_dir_inode = some idx ∧
      (s'.superblock.inode idx).is_dir = false ∧
      1 ≤ (s'.superblock.inode idx).start_block ∧
      (∀ k < min sz n,
        s'.disk ((s'.superblock.inode idx).start_block + k) = s.disk (a + k)) ∧
      (∀ k, (s'.superblock.inode idx).start_block ≤ k →
        k < (s'.superblock.inode idx).start_block + min sz n →
        k < NUM_BLOCKS ∧ s'.superblock.bit k = true) ∧
      (s'.superblock.inode idx).used_size = 0x80 ||| (n &&& 0x7F) := by
  have hm : s.current_disk ≠ none := by
    intro hnone
    simp [fs_resize, hnone] at h
  have hkeep : ∀ (sb : Superblock), sb.inode = s.superblock.inode →
      ∀ i, (sb.inode i).in_use = (s.superblock.inode i).in_use ∧
        (sb.inode i).dir_parent = (s.superblock.inode i).dir_parent ∧
        (sb.inode i).name = (s.superblock.inode i).name := by
    intro sb hsb i
    rw [hsb]
    exact ⟨rfl, rfl, rfl⟩
  rcases Nat.lt_trichotomy n sz with hlt | heq | hgt
  · -- shrinking
    rw [fs_resize_shrink s name n idx hm hres hfile (by omega)] at h
    have hs' : (resize_finish s idx n _ _).2 = s' := congrArg Prod.snd h
    subst hs'
    have hmin : min sz n = n := by omega
    rw [hmin] at hused ⊢
    apply resize_finish_prefix s name idx a n n _ _ a hres hfile
      (hkeep _ (mark_blocks_inode _ _ _ _)) (by rw [mark_blocks_inode, ha]) ha1
    · intro k hk
      rw [zero_blocks_apply, ha, if_neg (by omega)]
    · intro k k1 k2
      refine ⟨(hused k k1 k2).1, ?_⟩
      rw [mark_blocks_bit_nat, ha, if_neg (by omega)]
      exact (hused k k1 k2).2
  · -- same size
    rw [fs_resize_same s name n idx hm hres hfile (by omega)] at h
    have hs' : (resize_finish s idx n _ _).2 = s' := congrArg Prod.snd h
    subst hs'
    exact resize_finish_prefix s name idx a (min sz n) n _ _ a hres hfile
      (hkeep _ rfl) ha ha1 (fun _ _ => rfl) hused
  · -- growing
    have hmin : min sz n = sz := by omega
    rw [hmin] at hused ⊢
    cases hc : can_expand s.superblock (s.superblock.inode idx).start_block
        (s.superblock.inode idx).size n with
    | true =>
      rw [fs_resize_grow_in_place s name n idx hm hres hfile (by omega) hc] at h
      have hs' : (resize_finish s idx n _ _).2 = s' := congrArg Prod.snd h
      subst hs'
      apply resize_finish_prefix s name idx a sz n _ _ a hres hfile
        (hkeep _ (mark_blocks_inode _ _ _ _)) (by rw [mark_blocks_inode, ha]) ha1
        (fun _ _ => rfl)
      intro k k1 k2
      refine ⟨(hused k k1 k2).1, ?_⟩
      rw [mark_blocks_bit_nat, ha, hsz, if_neg (by omega)]
      exact (hused k k1 k2).2
    | false =>
      cases hf : find_contiguous_blocks s.superblock n with
      | none =>
        rw [fs_resize_no_space s name n idx hm hres hfile (by omega) hc hf] at h
        exact absurd (Prod.mk.inj h).1 (by decide)
      | some b =>
        obtain ⟨hb1, hb2, hb3⟩ := find_contiguous_blocks_sound (by omega) hf
        simp only [NUM_BLOCKS] at hb2
        have hdisj : ∀ i < sz, ∀ j < sz, a + i ≠ b + j := by
          intro i hi j hj heq
          have h1 := (hused (a + i) (by omega) (by omega)).2
          rw [heq, hb3 (b + j) (by omega) (by omega)] at h1
          exact absurd h1 (by decide)
        rw [fs_resize_relocate s name n idx b hm hres hfile (by omega) hc hf] at h
        have hs' : (resize_finish s idx n _ _).2 = s' := congrArg Prod.snd h
        subst hs'
        have hino : (mark_blocks (mark_blocks s.superblock
            ((s.superblock.inode idx).start_block : Nat) (s.superblock.inode idx).size false)
            (b : Nat) n true).inode = s.superblock.inode := by
          rw [mark_blocks_inode, mark_blocks_inode]
        apply resize_finish_prefix s name idx a sz n _ _ b hres hfile
        · intro i
          by_cases hi : i = idx
          · rw [hi]
            have e : ∀ (X : Superblock) (R : Inode), (X.set_inode idx R).inode idx = R := by
              intro X R
              show (if idx = idx then R else X.inode idx) = R
              rw [if_pos rfl]
            rw [e]
            refine ⟨?_, ?_, ?_⟩
            · show ((mark_blocks (mark_blocks s.superblock _ _ false) (b : Nat) n true).inode
                idx).in_use = _
              rw [hino]
            · show ((mark_blocks (mark_blocks s.superblock _ _ false) (b : Nat) n true).inode
                idx).dir_parent = _
              rw [hino]
            · show ((mark_blocks (mark_blocks s.superblock _ _ false) (b : Nat) n true).inode
                idx).name = _
              rw [hino]
          · have e : ∀ (X : Superblock) (R : Inode), (X.set_inode idx R).inode i = X.inode i := by
              intro X R
              show (if i = idx then R else X.inode i) = X.inode i
              rw [if_neg hi]
            rw [e, hino]
            exact ⟨rfl, rfl, rfl⟩
        · show (if idx = idx then _ else _ : Inode).start_block = b
          rw [if_pos rfl]
          exact Nat.mod_eq_of_lt (by omega)
        · exact hb1
        · intro k hk
          rw [ha, hsz, zero_blocks_apply,
            if_neg (fun h => hdisj (b + k - a) (by omega) k hk (by omega)),
            copy_blocks_apply _ _ _ _ hdisj, if_pos (by omega), Nat.add_sub_cancel_left]
        · intro k k1 k2
          refine ⟨by simp only [NUM_BLOCKS]; omega, ?_⟩
          show (mark_blocks (mark_blocks s.superblock _ _ false) (b : Nat) n true).bit k = true
          rw [mark_blocks_bit_nat, if_pos ⟨k1, by omega, by simp only [NUM_BLOCKS]; omega⟩,
            if_neg (by omega)]

/-- C9: in a state where the file lies inside 1..127 and the bitmap marks its
blocks as used (as in every consistent state), if `fs_resize` to `t` succeeds
(no error is reported and the stored size is `t`) and then `fs_resize` back to
the original size `sz` reports no error, the name still resolves to the same
record, its stored size is `sz` again, and for every `k < min sz t` the
`k`-th block of the file, counted from the start block current at that time,
holds the bytes it held before the two resizes. -/
theorem C9_resize_round_trip (s s1 s2 : State) (name : Name) (idx a sz t : Nat)
    (hres : get_file_inode s.superblock name s.current_dir_inode = some idx)
    (hfile : (s.superblock.inode idx).is_dir = false)
    (ha : (s.superblock.inode idx).start_block = a)
    (hsz : (s.superblock.inode idx).size = sz)
    (hbounds : 1 ≤ a ∧ a + sz ≤ NUM_BLOCKS)
    (hused : ∀ k, a ≤ k → k < a + sz → s.superblock.bit k = true)
    (h1 : fs_resize s name t = (Outcome.ok, s1))
    (h1s : (s1.superblock.inode idx).size = t)
    (h2 : fs_resize s1 name sz = (Outcome.ok, s2)) :
    get_file_inode s2.superblock name s2.current_dir_inode = some idx ∧
      (s2.superblock.inode idx).is_file = true ∧
      (s2.superblock.inode idx).size = sz ∧
      ∀ k < min sz t,
        s2.disk ((s2.superblock.inode idx).start_block + k) =
          s.disk ((s.superblock.inode idx).start_block + k) := by
  obtain ⟨hb1, hb2⟩ := hbounds
  simp only [NUM_BLOCKS] at hb2
  obtain ⟨r1, r2, r3, r4, r5, _⟩ := resize_keeps_prefix s s1 name idx a sz t hres hfile ha hsz
    hb1 (fun k k1 k2 => ⟨by simp only [NUM_BLOCKS]; omega, hused k k1 (by omega)⟩) h1
  obtain ⟨q1, q2, _, q4, _, q6⟩ := resize_keeps_prefix s1 s2 name idx
    (s1.superblock.inode idx).start_block t sz r1 r2 rfl h1s r3
    (fun k k1 k2 => r5 k k1 (by rw [Nat.min_comm]; exact k2)) h2
  have hsz127 : sz ≤ 127 := by
    rw [← hsz]
    exact Nat.and_le_right
  refine ⟨q1, ?_, ?_, ?_⟩
  · unfold Inode.is_file
    rw [q2, (get_file_inode_some q1).2.1]
    rfl
  · unfold Inode.size
    rw [q6]
    exact size_mask sz hsz127
  · intro k hk
    rw [q4 k (by rw [Nat.min_comm]; exact hk), r4 k hk, ha]

set_option maxRecDepth 100000 in
/-- Witness for C9: the file `f` of `two_files_state` (block 1) is resized to
2 blocks, which moves it, and back to 1 block. -/
theorem C9_witness :
    fs_resize two_files_state name_f 2 =
      (Outcome.ok, (fs_resize two_files_state name_f 2).2) ∧
    fs_resize (fs_resize two_files_state name_f 2).2 name_f 1 =
      (Outcome.ok, (fs_resize (fs_resize two_files_state name_f 2).2 name_f 1).2) ∧
    ((fs_resize (fs_resize two_files_state name_f 2).2 name_f 1).2.superblock.inode 0).size = 1 ∧
    ∀ k < min 1 2,
      (fs_resize (fs_resize two_files_state name_f 2).2 name_f 1).2.disk
        (((fs_resize (fs_resize two_files_state name_f 2).2 name_f 1).2.superblock.inode
          0).start_block + k) =
        two_files_state.disk ((two_files_state.superblock.inode 0).start_block + k) :=
  have h1 : fs_resize two_files_state name_f 2 =
      (Outcome.ok, (fs_resize two_files_state name_f 2).2) := Prod.ext (by decide) rfl
  have h2 : fs_resize (fs_resize two_files_state name_f 2).2 name_f 1 =
      (Outcome.ok, (fs_resize (fs_resize two_files_state name_f 2).2 name_f 1).2) :=
    Prod.ext (by decide) rfl
  ⟨h1, h2,
    (C9_resize_round_trip two_files_state _ _ name_f 0 1 1 2
      (by decide) (by decide) (by decide) (by decide) ⟨by decide, by decide⟩
      (fun k k1 k2 => by
        have hk : k = 1 := by omega
        subst hk
        decide)
      h1 (by decide) h2).2.2⟩

theorem bubble_inner_perm (k : Nat) (l : List FileInfo) : (bubble_inner k l).Perm l := by
  induction k generalizing l with
  | zero => simp [bubble_inner]
  | succ k ih =>
    match l with
    | [] => simp [bubble_inner]
    | [a] => simp [bubble_inner]
    | a :: b :: rest =>
      rw [bubble_inner]
      split
      · exact ((ih (a :: rest)).cons b).trans (List.Perm.swap a b rest)
      · exact (ih (b :: rest)).cons a

theorem bubble_inner_append (k : Nat) (P S : List FileInfo) (hk : k < P.length) :
    bubble_inner k (P ++ S) = bubble_inner k P ++ S := by
  induction k generalizing P with
  | zero => simp [bubble_inner]
  | succ k ih =>
    match P, hk with
    | [a], hk => simp at hk
    | a :: b :: rest, hk =>
      simp only [List.length_cons] at hk
      have e1 := ih (a :: rest) (by simp only [List.length_cons]; omega)
      have e2 := ih (b :: rest) (by simp only [List.length_cons]; omega)
      simp only [List.cons_append] at e1 e2
      simp only [List.cons_append, bubble_inner]
      split
      · exact congrArg (List.cons b) e1
      · exact congrArg (List.cons a) e2

/-- A full pass moves an entry of greatest `start_block` to the end. -/
theorem bubble_inner_max (l : List FileInfo) (a : FileInfo) :
    ∃ P m, bubble_inner l.length (a :: l) = P ++ [m] ∧
      ∀ x ∈ a :: l, x.start_block ≤ m.start_block := by
  induction l generalizing a with
  | nil => exact ⟨[], a, by simp [bubble_inner], by simp⟩
  | cons b t ih =>
    simp only [List.length_cons, bubble_inner]
    split
    · next hgt =>
      obtain ⟨P, m, h1, h2⟩ := ih a
      refine ⟨b :: P, m, by rw [h1]; rfl, ?_⟩
      intro x hx
      have ha := h2 a (List.mem_cons_self a t)
      rcases List.mem_cons.mp hx with rfl | hx
      · exact ha
      · rcases List.mem_cons.mp hx with rfl | hx
        · omega
        · exact h2 x (List.mem_cons_of_mem a hx)
    · next hle =>
      obtain ⟨P, m, h1, h2⟩ := ih b
      refine ⟨a :: P, m, by rw [h1]; rfl, ?_⟩
      intro x hx
      have hb := h2 b (List.mem_cons_self b t)
      rcases List.mem_cons.mp hx with rfl | hx
      · omega
      · exact h2 x hx

theorem bubble_inner_ties (k : Nat) (l : List FileInfo)
    (h : l.Pairwise (fun x y => x.start_block = y.start_block → x.inode_idx < y.inode_idx)) :
    (bubble_inner k l).Pairwise
      (fun x y => x.start_block = y.start_block → x.inode_idx < y.inode_idx) := by
  induction k generalizing l with
  | zero => simpa [bubble_inner] using h
  | succ k ih =>
    match l, h with
    | [], h => simp [bubble_inner]
    | [a], h => simp [bubble_inner]
    | a :: b :: rest, h =>
      rw [bubble_inner]
      rw [List.pairwise_cons, List.pairwise_cons] at h
      obtain ⟨ha, hb, hrest⟩ := h
      split
      · next hgt =>
        rw [List.pairwise_cons]
        refine ⟨?_, ih (a :: rest) (List.pairwise_cons.mpr
          ⟨fun x hx => ha x (List.mem_cons_of_mem b hx), hrest⟩)⟩
        intro x hx
        have hx' := (bubble_inner_perm k (a :: rest)).mem_iff.mp hx
        rcases List.mem_cons.mp hx' with rfl | hx'
        · intro he; omega
        · exact hb x hx'
      · next hle =>
        rw [List.pairwise_cons]
        refine ⟨?_, ih (b :: rest) (List.pairwise_cons.mpr ⟨hb, hrest⟩)⟩
        intro x hx
        exact ha x ((bubble_inner_perm k (b :: rest)).mem_iff.mp hx)

theorem bubble_passes_perm (n j : Nat) (F : List FileInfo) :
    ((List.range j).foldl (fun fs i => bubble_inner (n - i - 1) fs) F).Perm F := by
  induction j with
  | zero => exact List.Perm.refl _
  | succ j ih =>
    rw [List.range_succ, List.foldl_append]
    exact (bubble_inner_perm _ _).trans ih

/-- After `j` passes the last `j` entries are in ascending order and not
smaller than any earlier entry. -/
theorem bubble_passes_sorted (F : List FileInfo) (j : Nat) (hj : j ≤ F.length - 1) :
    ∃ P S, (List.range j).foldl (fun fs i => bubble_inner (F.length - i - 1) fs) F = P ++ S ∧
      S.length = j ∧
      S.Pairwise (fun x y => x.start_block ≤ y.start_block) ∧
      ∀ p ∈ P, ∀ q ∈ S, p.start_block ≤ q.start_block := by
  induction j with
  | zero => exact ⟨F, [], by simp, rfl, List.Pairwise.nil, by simp⟩
  | succ j ih =>
    obtain ⟨P, S, h1, h2, h3, h4⟩ := ih (by omega)
    have hlen := (bubble_passes_perm F.length j F).length_eq
    rw [h1, List.length_append, h2] at hlen
    rw [List.range_succ, List.foldl_append, h1]
    simp only [List.foldl_cons, List.foldl_nil]
    match P, hlen, h1, h4 with
    | [], hlen, _, _ => simp at hlen; omega
    | a :: l, hlen, h1, h4 =>
      simp only [List.length_cons] at hlen
      have hk : F.length - j - 1 = l.length := by omega
      rw [hk, bubble_inner_append _ _ _ (by simp)]
      obtain ⟨P', m, e1, e2⟩ := bubble_inner_max l a
      have hperm : (P' ++ [m]).Perm (a :: l) := by
        rw [← e1]; exact bubble_inner_perm _ _
      have hm : m ∈ a :: l := hperm.mem_iff.mp (by simp)
      refine ⟨P', m :: S, by rw [e1]; simp, by simp [h2], ?_, ?_⟩
      · rw [List.pairwise_cons]
        exact ⟨fun q hq => h4 m hm q hq, h3⟩
      · intro p hp q hq
        have hp' : p ∈ a :: l := hperm.mem_iff.mp (by simp [hp])
        rcases List.mem_cons.mp hq with rfl | hq
        · exact e2 p hp'
        · exact h4 p hp' q hq

theorem bubble_sort_perm (F : List FileInfo) : (bubble_sort F).Perm F :=
  bubble_passes_perm F.length (F.length - 1) F

theorem bubble_sort_sorted (F : List FileInfo) :
    (bubble_sort F).Pairwise (fun x y => x.start_block ≤ y.start_block) := by
  obtain ⟨P, S, h1, h2, h3, h4⟩ := bubble_passes_sorted F (F.length - 1) (Nat.le_refl _)
  have hlen := (bubble_passes_perm F.length (F.length - 1) F).length_eq
  unfold bubble_sort
  rw [h1] at hlen ⊢
  rw [List.length_append, h2] at hlen
  rw [List.pairwise_append]
  refine ⟨?_, h3, h4⟩
  match P, hlen with
  | [], _ => exact List.Pairwise.nil
  | [a], _ => exact List.pairwise_singleton _ _
  | a :: b :: t, hlen => simp at hlen; omega

theorem bubble_sort_ties (F : List FileInfo)
    (h : F.Pairwise (fun x y => x.start_block = y.start_block → x.inode_idx < y.inode_idx)) :
    (bubble_sort F).Pairwise
      (fun x y => x.start_block = y.start_block → x.inode_idx < y.inode_idx) := by
  unfold bubble_sort
  generalize F.length - 1 = j
  generalize F.length = n
  induction j with
  | zero => exact h
  | succ j ih =>
    rw [List.range_succ, List.foldl_append]
    exact bubble_inner_ties _ _ ih

/-- The sort of `fs_defrag` is stable: on a table whose ties are in record
order it yields the table in the order `FileInfo.before`. -/
theorem bubble_sort_before (F : List FileInfo)
    (h : F.Pairwise (fun x y => x.start_block = y.start_block → x.inode_idx < y.inode_idx)) :
    (bubble_sort F).Pairwise FileInfo.before := by
  have h1 := bubble_sort_sorted F
  have h2 := bubble_sort_ties F h
  have h3 := List.Pairwise.and h1 h2
  refine h3.imp ?_
  intro x y hxy
  obtain ⟨hle, htie⟩ := hxy
  unfold FileInfo.before
  by_cases he : x.start_block = y.start_block
  · exact Or.inr ⟨he, htie he⟩
  · exact Or.inl (by omega)

theorem before_antisymm : IsAntisymm FileInfo FileInfo.before :=
  ⟨fun x y h1 h2 => by unfold FileInfo.before at h1 h2; omega⟩

/-- Two tables with the same entries that are both in the order
`FileInfo.before` are equal. -/
theorem before_sorted_unique (l₁ l₂ : List FileInfo) (hp : l₁.Perm l₂)
    (h1 : l₁.Pairwise FileInfo.before) (h2 : l₂.Pairwise FileInfo.before) : l₁ = l₂ :=
  @List.eq_of_perm_of_sorted _ _ before_antisymm _ _ hp h1 h2

theorem defrag_step_next_free (st : Superblock × Disk × Nat) (f : FileInfo) :
    (defrag_step st f).2.2 = st.2.2 + f.size := by
  show (if f.start_block ≠ st.2.2 then _ else _ : Superblock × Disk × Nat).2.2 = _
  split <;> rfl

theorem defrag_step_inode (st : Superblock × Disk × Nat) (f : FileInfo) (i : Nat) :
    (defrag_step st f).1.inode i =
      if f.start_block ≠ st.2.2 ∧ i = f.inode_idx then
        { st.1.inode f.inode_idx with start_block := st.2.2 % 256 }
      else st.1.inode i := by
  unfold defrag_step
  by_cases h : f.start_block ≠ st.2.2
  · rw [if_pos h]
    show (if i = f.inode_idx then _ else _) = _
    by_cases hi : i = f.inode_idx
    · rw [if_pos hi, if_pos ⟨h, hi⟩]
    · rw [if_neg hi, if_neg (fun h' => hi h'.2)]
  · rw [if_neg h, if_neg (fun h' => h h'.1)]

theorem defrag_fold_next_free (fs : List FileInfo) (st : Superblock × Disk × Nat) :
    (fs.foldl defrag_step st).2.2 = st.2.2 + (fs.map FileInfo.size).sum := by
  induction fs generalizing st with
  | nil => simp
  | cons f t ih =>
    rw [List.foldl_cons, ih, defrag_step_next_free]
    simp only [List.map_cons, List.sum_cons]
    omega

/-- The loop that moves the files only writes `start_block`. -/
theorem defrag_fold_fields (fs : List FileInfo) (st : Superblock × Disk × Nat) (i : Nat) :
    ((fs.foldl defrag_step st).1.inode i).name = (st.1.inode i).name ∧
      ((fs.foldl defrag_step st).1.inode i).used_size = (st.1.inode i).used_size ∧
      ((fs.foldl defrag_step st).1.inode i).dir_parent = (st.1.inode i).dir_parent := by
  induction fs generalizing st with
  | nil => exact ⟨rfl, rfl, rfl⟩
  | cons f t ih =>
    rw [List.foldl_cons]
    obtain ⟨h1, h2, h3⟩ := ih (defrag_step st f)
    rw [h1, h2, h3, defrag_step_inode]
    split
    · next h => rw [h.2]; exact ⟨rfl, rfl, rfl⟩
    · exact ⟨rfl, rfl, rfl⟩

/-- The loop that moves the files leaves the records it does not list. -/
theorem defrag_fold_frame (fs : List FileInfo) (st : Superblock × Disk × Nat) (i : Nat)
    (hi : ∀ f ∈ fs, f.inode_idx ≠ i) :
    (fs.foldl defrag_step st).1.inode i = st.1.inode i := by
  induction fs generalizing st with
  | nil => rfl
  | cons f t ih =>
    rw [List.foldl_cons, ih _ (fun g hg => hi g (List.mem_cons_of_mem f hg)), defrag_step_inode,
      if_neg (fun h => hi f (List.mem_cons_self f t) h.2.symm)]

/-- The loop that moves the files gives every listed file the position
`next_free` has when its turn comes, as long as that position fits the
one-byte field. -/
theorem defrag_fold_positions (fs : List FileInfo) (st : Superblock × Disk × Nat)
    (hnodup : (fs.map FileInfo.inode_idx).Nodup)
    (hstart : ∀ f ∈ fs, f.start_block = (st.1.inode f.inode_idx).start_block)
    (pre post : List FileInfo) (f : FileInfo) (hsplit : fs = pre ++ f :: post)
    (hfit : st.2.2 + (pre.map FileInfo.size).sum ≤ 255) :
    ((fs.foldl defrag_step st).1.inode f.inode_idx).start_block =
      st.2.2 + (pre.map FileInfo.size).sum := by
  induction pre generalizing fs st with
  | nil =>
    subst hsplit
    simp only [List.nil_append, List.map_cons, List.nodup_cons, List.mem_map, not_exists,
      not_and] at hnodup hstart ⊢
    rw [List.foldl_cons, defrag_fold_frame _ _ _ (fun g hg he => hnodup.1 g hg he),
      defrag_step_inode]
    simp only [List.map_nil, List.sum_nil, Nat.add_zero] at hfit ⊢
    by_cases hmv : f.start_block ≠ st.2.2
    · rw [if_pos ⟨hmv, trivial⟩]
      exact Nat.mod_eq_of_lt (by omega)
    · rw [if_neg (fun h => hmv h.1), ← hstart f (List.mem_cons_self f post)]
      exact not_not.mp hmv
  | cons g pre ih =>
    subst hsplit
    simp only [List.cons_append, List.map_cons, List.nodup_cons, List.mem_map, not_exists,
      not_and] at hnodup hstart ⊢
    rw [List.foldl_cons]
    simp only [List.map_cons, List.sum_cons] at hfit ⊢
    have := ih (pre ++ f :: post) (defrag_step st g) hnodup.2
      (by
        intro x hx
        rw [defrag_step_inode, if_neg (fun h => hnodup.1 x hx h.2), ]
        exact hstart x (List.mem_cons_of_mem g hx))
      rfl (by rw [defrag_step_next_free]; omega)
    rw [this, defrag_step_next_free]
    omega

theorem rebuild_bitmap_inode (files : List FileInfo) (sb : Superblock) :
    (rebuild_bitmap sb files).inode = sb.inode := by
  unfold rebuild_bitmap
  induction files generalizing sb with
  | nil => rfl
  | cons f t ih => rw [List.foldl_cons, ih, mark_blocks_inode]

/-- The records of the superblock after `fs_defrag` are those left by the
loop that moves the files. -/
theorem fs_defrag_inode (s : State) (hm : s.current_disk ≠ none) :
    (fs_defrag s).1 = Outcome.ok ∧
      (fs_defrag s).2.superblock.inode =
        ((bubble_sort (collect_files s.superblock)).foldl defrag_step
          (s.superblock, s.disk, 1)).1.inode := by
  unfold fs_defrag
  rw [isNone_eq_false_of_ne_none hm]
  simp only [Bool.false_eq_true, if_false, true_and]
  rw [rebuild_bitmap_inode]
  rfl

theorem collect_files_eq (sb : Superblock) :
    collect_files sb =
      ((List.range NUM_INODES).filter (fun i => (sb.inode i).is_file)).map
        (fun i => (⟨i, (sb.inode i).start_block, (sb.inode i).size⟩ : FileInfo)) := rfl

/-- The sorted table of `fs_defrag` is the list of the file records in
ascending order of `start_block`, ties in record order. -/
theorem bubble_sort_collect_eq (sb : Superblock) (L : List Nat)
    (hL1 : ∀ i ∈ L, i < NUM_INODES ∧ (sb.inode i).is_file = true)
    (hL2 : ∀ i < NUM_INODES, (sb.inode i).is_file = true → i ∈ L)
    (hsorted : L.Pairwise (fun i j =>
      (sb.inode i).start_block < (sb.inode j).start_block ∨
        ((sb.inode i).start_block = (sb.inode j).start_block ∧ i < j))) :
    bubble_sort (collect_files sb) =
      L.map (fun i => (⟨i, (sb.inode i).start_block, (sb.inode i).size⟩ : FileInfo)) := by
  apply before_sorted_unique
  · refine (bubble_sort_perm _).trans ?_
    rw [collect_files_eq]
    apply List.Perm.map
    rw [List.perm_ext_iff_of_nodup ((List.nodup_range _).filter _)
      (hsorted.imp (fun h => by intro e; subst e; omega))]
    intro i
    rw [List.mem_filter, List.mem_range]
    exact ⟨fun h => hL2 i h.1 h.2, fun h => hL1 i h⟩
  · apply bubble_sort_before
    rw [collect_files_eq, List.pairwise_map]
    refine ((List.pairwise_lt_range _).filter _).imp ?_
    intro i j hij _
    exact hij
  · rw [List.pairwise_map]
    exact hsorted

/-- C10 (as amended): list the records of the files in ascending order of
`start_block`, records with equal `start_block` in table order.  After
`fs_defrag` a file of that list has `start_block = 1 +` the sum of the sizes
of the files before it whenever that number fits the one-byte field (is at
most 255); the name, the size/in-use byte and the parent byte of every record
are unchanged, and every record that is not a file is unchanged. -/
theorem C10_defrag_packs_files (s : State) (L : List Nat)
    (hm : s.current_disk ≠ none)
    (hL1 : ∀ i ∈ L, i < NUM_INODES ∧ (s.superblock.inode i).is_file = true)
    (hL2 : ∀ i < NUM_INODES, (s.superblock.inode i).is_file = true → i ∈ L)
    (hsorted : L.Pairwise (fun i j =>
      (s.superblock.inode i).start_block < (s.superblock.inode j).start_block ∨
        ((s.superblock.inode i).start_block = (s.superblock.inode j).start_block ∧ i < j))) :
    (fs_defrag s).1 = Outcome.ok ∧
      (∀ pre i post, L = pre ++ i :: post →
        1 + (pre.map (fun j => (s.superblock.inode j).size)).sum ≤ 255 →
        ((fs_defrag s).2.superblock.inode i).start_block =
          1 + (pre.map (fun j => (s.superblock.inode j).size)).sum) ∧
      (∀ i, ((fs_defrag s).2.superblock.inode i).name = (s.superblock.inode i).name ∧
        ((fs_defrag s).2.superblock.inode i).used_size = (s.superblock.inode i).used_size ∧
        ((fs_defrag s).2.superblock.inode i).dir_parent = (s.superblock.inode i).dir_parent) ∧
      (∀ i, ¬ (i < NUM_INODES ∧ (s.superblock.inode i).is_file = true) →
        (fs_defrag s).2.superblock.inode i = s.superblock.inode i) := by
  obtain ⟨hok, hino⟩ := fs_defrag_inode s hm
  rw [bubble_sort_collect_eq s.superblock L hL1 hL2 hsorted] at hino
  refine ⟨hok, ?_, ?_, ?_⟩
  · intro pre i post hsplit hfit
    rw [hino]
    have hnodup : L.Nodup := hsorted.imp (fun h => by intro e; subst e; omega)
    have := defrag_fold_positions
      (L.map (fun i => (⟨i, (s.superblock.inode i).start_block,
        (s.superblock.inode i).size⟩ : FileInfo)))
      (s.superblock, s.disk, 1)
      (by rw [List.map_map]; simpa [Function.comp_def] using hnodup)
      (by
        intro f hf
        obtain ⟨j, _, rfl⟩ := List.mem_map.mp hf
        rfl)
      (pre.map (fun i => (⟨i, (s.superblock.inode i).start_block,
        (s.superblock.inode i).size⟩ : FileInfo)))
      (post.map (fun i => (⟨i, (s.superblock.inode i).start_block,
        (s.superblock.inode i).size⟩ : FileInfo)))
      ⟨i, (s.superblock.inode i).start_block, (s.superblock.inode i).size⟩
      (by rw [hsplit, List.map_append, List.map_cons])
      (by rw [List.map_map]; simpa [Function.comp_def] using hfit)
    rw [List.map_map] at this
    simpa [Function.comp_def] using this
  · intro i
    rw [hino]
    exact defrag_fold_fields _ (s.superblock, s.disk, 1) i
  · intro i hi
    rw [hino]
    apply defrag_fold_frame
    intro f hf he
    obtain ⟨j, hj, rfl⟩ := List.mem_map.mp hf
    simp only at he
    subst he
    exact hi (hL1 j hj)

set_option maxRecDepth 100000 in
/-- C10 fails as stated: `overlap_image` passes `check_consistency` and is
mounted; its four files of 127 blocks all start at block 1, so in every
ascending order the fourth file would have to start at block
`1 + 127 + 127 + 127 = 382`.  After `fs_defrag` the four files start at the
blocks 1, 128, 255 and 126. -/
theorem C10_counterexample :
    (fs_mount empty_state "disk1" (some overlap_image)).1 = Outcome.ok ∧
    overlap_state.current_disk = some "disk1" ∧
    (∀ i < NUM_INODES, (overlap_state.superblock.inode i).is_file = true ↔
      (i = 1 ∨ i = 2 ∨ i = 3 ∨ i = 4)) ∧
    (∀ i < NUM_INODES, (overlap_state.superblock.inode i).is_file = true →
      (overlap_state.superblock.inode i).start_block = 1 ∧
        (overlap_state.superblock.inode i).size = 127) ∧
    ((fs_defrag overlap_state).2.superblock.inode 1).start_block = 1 ∧
    ((fs_defrag overlap_state).2.superblock.inode 2).start_block = 128 ∧
    ((fs_defrag overlap_state).2.superblock.inode 3).start_block = 255 ∧
    ((fs_defrag overlap_state).2.superblock.inode 4).start_block = 126 := by
  refine ⟨by decide, by decide, by decide, by decide, by decide, by decide, by decide, by decide⟩

set_option maxRecDepth 100000 in
/-- Witness for C10: in `unordered_state` the file of record 1 (block 3)
comes before the file of record 0 (blocks 4..6); after `fs_defrag` they start
at blocks 1 and 2. -/
theorem C10_witness :
    unordered_state.superblock.inode 0 = ⟨name_x, 0x83, 4, 0⟩ ∧
    unordered_state.superblock.inode 1 = ⟨name_f, 0x81, 3, 0⟩ ∧
    ((fs_defrag unordered_state).2.superblock.inode 1).start_block = 1 ∧
    ((fs_defrag unordered_state).2.superblock.inode 0).start_block = 2 :=
  have h := C10_defrag_packs_files unordered_state [1, 0] (by decide) (by decide) (by decide)
    (by decide)
  ⟨by decide, by decide,
    h.2.1 [] 1 [0] rfl (by decide),
    h.2.1 [1] 0 [] rfl (by decide)⟩

set_option maxRecDepth 100000 in
/-- A file record with `start_block = 0` arises in a mounted session:
`wrap_image` is accepted by `fs_mount`, and `fs_defrag` then assigns the
positions 1, 128, 255 and 256 to its four files, the last of which is stored
in the one-byte field as 0. -/
theorem defrag_can_place_a_file_at_block_zero :
    (fs_mount empty_state "disk1" (some wrap_image)).1 = Outcome.ok ∧
    (fs_defrag (fs_mount empty_state "disk1" (some wrap_image)).2).1 = Outcome.ok ∧
    (fs_defrag (fs_mount empty_state "disk1" (some wrap_image)).2).2.superblock.inode 4 =
      ⟨name_f, 0x81, 0, 0⟩ := by
  refine ⟨by decide, by decide, by decide⟩

/-- C14 (the code departs from the claim): the only record in use of
`sentinel_superblock` is a directory with start 0, size 0 and the sentinel 127
as parent index; checks 1 to 3 pass on it, and `check_consistency` returns 4. -/
theorem C14_sentinel_parent_is_rejected :
    (∀ i < NUM_INODES, (sentinel_superblock.inode i).in_use = true ↔ i = 0) ∧
    sentinel_superblock.inode 0 = ⟨name_d, 0x80, 0, 0xFF⟩ ∧
    (sentinel_superblock.inode 0).parent = 127 ∧
    (List.range NUM_INODES).any (check1_bad sentinel_superblock) = false ∧
    (List.range NUM_INODES).any (check2_bad sentinel_superblock) = false ∧
    (List.range NUM_INODES).any (check3_bad sentinel_superblock) = false ∧
    check_consistency sentinel_superblock = 4 := by
  refine ⟨by decide, by decide, by decide, by decide, by decide, by decide, by decide⟩

theorem any_range_eq_true (p : Nat → Bool) (n : Nat) :
    (List.range n).any p = true ↔ ∃ i < n, p i = true := by
  rw [List.any_eq_true]
  constructor
  · rintro ⟨i, hi, hp⟩
    exact ⟨i, List.mem_range.mp hi, hp⟩
  · rintro ⟨i, hi, hp⟩
    exact ⟨i, List.mem_range.mpr hi, hp⟩

theorem check1_bad_iff (sb : Superblock) (i : Nat) :
    check1_bad sb i = true ↔
      (sb.inode i).in_use = false ∧
        ((sb.inode i).used_size ≠ 0 ∨ (sb.inode i).start_block ≠ 0 ∨
          (sb.inode i).dir_parent ≠ 0 ∨ (sb.inode i).name ≠ zero_name) := by
  unfold check1_bad
  simp [or_assoc]

theorem check2_bad_iff (sb : Superblock) (i : Nat) :
    check2_bad sb i = true ↔
      (sb.inode i).in_use = true ∧ (sb.inode i).is_dir = false ∧
        ((sb.inode i).start_block < 1 ∨ (sb.inode i).start_block > 127 ∨
          ((sb.inode i).start_block : Int) + ((sb.inode i).size : Int) - 1 > 127) := by
  unfold check2_bad
  simp [or_assoc, and_assoc]

theorem check3_bad_iff (sb : Superblock) (i : Nat) :
    check3_bad sb i = true ↔
      (sb.inode i).in_use = true ∧ (sb.inode i).is_dir = true ∧
        ((sb.inode i).start_block ≠ 0 ∨ (sb.inode i).size ≠ 0) := by
  unfold check3_bad
  simp [and_assoc]

/-- C15 (as amended): `check_consistency` returns 1 exactly when some free
record has a nonzero `used_size`, `start_block`, `dir_parent` or name; it
returns 2 exactly when no free record is like that and some in-use file has
`start_block < 1`, `start_block > 127` or `start_block + size - 1 > 127`; it
returns 3 exactly when neither holds and some in-use directory has a nonzero
`start_block` or size. -/
theorem C15_first_violation_among_checks_1_to_3 (sb : Superblock) :
    (check_consistency sb = 1 ↔
      ∃ i < NUM_INODES, (sb.inode i).in_use = false ∧
        ((sb.inode i).used_size ≠ 0 ∨ (sb.inode i).start_block ≠ 0 ∨
          (sb.inode i).dir_parent ≠ 0 ∨ (sb.inode i).name ≠ zero_name)) ∧
    (check_consistency sb = 2 ↔
      (¬ ∃ i < NUM_INODES, (sb.inode i).in_use = false ∧
        ((sb.inode i).used_size ≠ 0 ∨ (sb.inode i).start_block ≠ 0 ∨
          (sb.inode i).dir_parent ≠ 0 ∨ (sb.inode i).name ≠ zero_name)) ∧
      ∃ i < NUM_INODES, (sb.inode i).in_use = true ∧ (sb.inode i).is_dir = false ∧
        ((sb.inode i).start_block < 1 ∨ (sb.inode i).start_block > 127 ∨
          ((sb.inode i).start_block : Int) + ((sb.inode i).size : Int) - 1 > 127)) ∧
    (check_consistency sb = 3 ↔
      (¬ ∃ i < NUM_INODES, (sb.inode i).in_use = false ∧
        ((sb.inode i).used_size ≠ 0 ∨ (sb.inode i).start_block ≠ 0 ∨
          (sb.inode i).dir_parent ≠ 0 ∨ (sb.inode i).name ≠ zero_name)) ∧
      (¬ ∃ i < NUM_INODES, (sb.inode i).in_use = true ∧ (sb.inode i).is_dir = false ∧
        ((sb.inode i).start_block < 1 ∨ (sb.inode i).start_block > 127 ∨
          ((sb.inode i).start_block : Int) + ((sb.inode i).size : Int) - 1 > 127)) ∧
      ∃ i < NUM_INODES, (sb.inode i).in_use = true ∧ (sb.inode i).is_dir = true ∧
        ((sb.inode i).start_block ≠ 0 ∨ (sb.inode i).size ≠ 0)) := by
  have e1 := any_range_eq_true (check1_bad sb) NUM_INODES
  have e2 := any_range_eq_true (check2_bad sb) NUM_INODES
  have e3 := any_range_eq_true (check3_bad sb) NUM_INODES
  simp only [check1_bad_iff] at e1
  simp only [check2_bad_iff] at e2
  simp only [check3_bad_iff] at e3
  rw [← e1, ← e2, ← e3]
  unfold check_consistency
  cases (List.range NUM_INODES).any (check1_bad sb) <;>
    cases (List.range NUM_INODES).any (check2_bad sb) <;>
    cases (List.range NUM_INODES).any (check3_bad sb) <;>
    cases (List.range NUM_INODES).any (check4_bad sb) <;>
    cases (List.range NUM_INODES).any (check5_bad sb) <;>
    simp

/-- C15 fails as stated: the only record in use of `start128_superblock` is a
file with `start_block = 128` and size 0, so no free record is nonzero,
`start_block < 1` is false and `start_block + size - 1 > 127` is false; yet
`check_consistency` returns 2. -/
theorem C15_counterexample :
    (∀ i < NUM_INODES, (start128_superblock.inode i).in_use = false →
      start128_superblock.inode i = zero_inode) ∧
    (∀ i < NUM_INODES, (start128_superblock.inode i).is_file = true →
      ¬ ((start128_superblock.inode i).start_block < 1 ∨
        ((start128_superblock.inode i).start_block : Int) +
          ((start128_superblock.inode i).size : Int) - 1 > 127)) ∧
    check_consistency start128_superblock = 2 := by
  refine ⟨by decide, by decide, by decide⟩

theorem check5_bad_iff (sb : Superblock) (i : Nat) (hi : i < NUM_INODES) :
    check5_bad sb i = true ↔
      (sb.inode i).in_use = true ∧
        ∃ j, i < j ∧ j < NUM_INODES ∧ (sb.inode j).in_use = true ∧
          (sb.inode j).parent = (sb.inode i).parent ∧ (sb.inode i).name = (sb.inode j).name := by
  unfold check5_bad
  rw [Bool.and_eq_true, List.any_eq_true]
  constructor
  · rintro ⟨hu, j, hj, hp⟩
    obtain ⟨j1, j2⟩ := List.mem_range'_1.mp hj
    simp only [Bool.and_eq_true, beq_iff_eq] at hp
    exact ⟨hu, j, by omega, by simp only [NUM_INODES] at hi j2 ⊢; omega, hp.1.1, hp.1.2, hp.2⟩
  · rintro ⟨hu, j, j1, j2, h1, h2, h3⟩
    refine ⟨hu, j, List.mem_range'_1.mpr ⟨by omega, by
      simp only [NUM_INODES] at hi j2 ⊢; omega⟩, ?_⟩
    simp only [Bool.and_eq_true, beq_iff_eq]
    exact ⟨⟨h1, h2⟩, h3⟩

/-- C16: on a superblock whose free records are all zero, whose files have a
range inside 1..127, whose directories have start 0 and size 0, and in which
the parent index of every in-use record is in 0..125 and refers to an in-use
directory, `check_consistency` returns 5 if two distinct in-use records have
the same parent index and the same name, and 0 otherwise. -/
theorem C16_name_uniqueness_check (sb : Superblock)
    (h1 : ∀ i < NUM_INODES, (sb.inode i).in_use = false → sb.inode i = zero_inode)
    (h2 : ∀ i < NUM_INODES, (sb.inode i).in_use = true → (sb.inode i).is_dir = false →
      1 ≤ (sb.inode i).start_block ∧ (sb.inode i).start_block ≤ 127 ∧
        (sb.inode i).start_block + (sb.inode i).size ≤ NUM_BLOCKS)
    (h3 : ∀ i < NUM_INODES, (sb.inode i).in_use = true → (sb.inode i).is_dir = true →
      (sb.inode i).start_block = 0 ∧ (sb.inode i).size = 0)
    (h4 : ∀ i < NUM_INODES, (sb.inode i).in_use = true →
      (sb.inode i).parent < NUM_INODES ∧ (sb.inode (sb.inode i).parent).in_use = true ∧
        (sb.inode (sb.inode i).parent).is_dir = true) :
    ((∃ i < NUM_INODES, ∃ j < NUM_INODES, i ≠ j ∧ (sb.inode i).in_use = true ∧
        (sb.inode j).in_use = true ∧ (sb.inode i).parent = (sb.inode j).parent ∧
        (sb.inode i).name = (sb.inode j).name) → check_consistency sb = 5) ∧
    ((¬ ∃ i < NUM_INODES, ∃ j < NUM_INODES, i ≠ j ∧ (sb.inode i).in_use = true ∧
        (sb.inode j).in_use = true ∧ (sb.inode i).parent = (sb.inode j).parent ∧
        (sb.inode i).name = (sb.inode j).name) → check_consistency sb = 0) := by
  have c1 : (List.range NUM_INODES).any (check1_bad sb) = false := by
    rw [Bool.eq_false_iff]
    intro h
    obtain ⟨i, hi, hb⟩ := (any_range_eq_true _ _).mp h
    obtain ⟨hf, hz⟩ := (check1_bad_iff sb i).mp hb
    rw [h1 i hi hf] at hz
    simp [zero_inode] at hz
  have c2 : (List.range NUM_INODES).any (check2_bad sb) = false := by
    rw [Bool.eq_false_iff]
    intro h
    obtain ⟨i, hi, hb⟩ := (any_range_eq_true _ _).mp h
    obtain ⟨hu, hd, hz⟩ := (check2_bad_iff sb i).mp hb
    obtain ⟨b1, b2, b3⟩ := h2 i hi hu hd
    simp only [NUM_BLOCKS] at b3
    omega
  have c3 : (List.range NUM_INODES).any (check3_bad sb) = false := by
    rw [Bool.eq_false_iff]
    intro h
    obtain ⟨i, hi, hb⟩ := (any_range_eq_true _ _).mp h
    obtain ⟨hu, hd, hz⟩ := (check3_bad_iff sb i).mp hb
    obtain ⟨b1, b2⟩ := h3 i hi hu hd
    omega
  have c4 : (List.range NUM_INODES).any (check4_bad sb) = false := by
    rw [Bool.eq_false_iff]
    intro h
    obtain ⟨i, hi, hb⟩ := (any_range_eq_true _ _).mp h
    unfold check4_bad at hb
    rw [Bool.and_eq_true] at hb
    obtain ⟨hu, hz⟩ := hb
    obtain ⟨b1, b2, b3⟩ := h4 i hi hu
    simp only [NUM_INODES] at b1
    have e1 : ¬ (sb.inode i).parent = 126 := by omega
    have e2 : ¬ (126 ≤ (sb.inode i).parent) := by omega
    simp [b2, b3, e1, e2, NUM_INODES] at hz
  have c5 : (List.range NUM_INODES).any (check5_bad sb) = true ↔
      ∃ i < NUM_INODES, ∃ j < NUM_INODES, i ≠ j ∧ (sb.inode i).in_use = true ∧
        (sb.inode j).in_use = true ∧ (sb.inode i).parent = (sb.inode j).parent ∧
        (sb.inode i).name = (sb.inode j).name := by
    rw [any_range_eq_true]
    constructor
    · rintro ⟨i, hi, hb⟩
      obtain ⟨hu, j, j1, j2, j3, j4, j5⟩ := (check5_bad_iff sb i hi).mp hb
      exact ⟨i, hi, j, j2, by omega, hu, j3, j4.symm, j5⟩
    · rintro ⟨i, hi, j, hj, hne, ui, uj, hp, hn⟩
      rcases Nat.lt_or_gt_of_ne hne with hlt | hgt
      · exact ⟨i, hi, (check5_bad_iff sb i hi).mpr ⟨ui, j, hlt, hj, uj, hp.symm, hn⟩⟩
      · exact ⟨j, hj, (check5_bad_iff sb j hj).mpr ⟨uj, i, hgt, hi, ui, hp, hn.symm⟩⟩
  unfold check_consistency
  rw [c1, c2, c3, c4]
  simp only [Bool.false_eq_true, if_false]
  constructor
  · intro h
    rw [if_pos (c5.mpr h)]
  · intro h
    rw [if_neg (fun h' => h (c5.mp h'))]

set_option maxRecDepth 100000 in
/-- Witness for C16: `duplicate_superblock`, in which the records 1 and 2 have
the same parent and the same name, yields 5, and the all-zero table of the
empty image yields 0. -/
theorem C16_witness :
    check_consistency duplicate_superblock = 5 ∧ check_consistency empty_superblock = 0 :=
  ⟨(C16_name_uniqueness_check duplicate_superblock (by decide) (by decide) (by decide)
      (by decide)).1
      ⟨1, by decide, 2, by decide, by decide, by decide, by decide, by decide, by decide⟩,
    (C16_name_uniqueness_check empty_superblock
      (fun _ _ _ => rfl)
      (fun _ _ hu => absurd (show zero_inode.in_use = true from hu) (by decide))
      (fun _ _ hu => absurd (show zero_inode.in_use = true from hu) (by decide))
      (fun _ _ hu => absurd (show zero_inode.in_use = true from hu) (by decide))).2
      (fun ⟨_, _, _, _, _, hu, _⟩ =>
        absurd (show zero_inode.in_use = true from hu) (by decide))⟩

/-- The scan of `find_contiguous_blocks` passes over no run: with the current
free segment starting at `i - cc` and no run starting before it, a result
`some b` has no run starting before `b`, and the result `none` means that no
run fits before the end of the scanned blocks. -/
theorem find_contiguous_loop_first (sb : Superblock) (size n : Nat) :
    ∀ (i cs cc : Nat), cc < size → cc < i → (cc ≠ 0 → cs = i - cc) →
      (∀ k, i - cc ≤ k → k < i → sb.bit k = false) →
      (∀ s', 1 ≤ s' → s' < i - cc → ¬ (∀ k, s' ≤ k → k < s' + size → sb.bit k = false)) →
      (∀ b, find_contiguous_loop sb size (List.range' i n) cs cc = some b →
        ∀ s', 1 ≤ s' → s' < b → ¬ (∀ k, s' ≤ k → k < s' + size → sb.bit k = false)) ∧
      (find_contiguous_loop sb size (List.range' i n) cs cc = none →
        ∀ s', 1 ≤ s' → s' + size ≤ i + n →
          ¬ (∀ k, s' ≤ k → k < s' + size → sb.bit k = false)) := by
  induction n with
  | zero =>
    intro i cs cc h1 h2 _ _ hN
    refine ⟨fun b hb => by simp [find_contiguous_loop] at hb, ?_⟩
    intro _ s' hs1 hs2
    exact hN s' hs1 (by omega)
  | succ n ih =>
    intro i cs cc h1 h2 h3 hF hN
    rw [List.range'_succ, find_contiguous_loop]
    by_cases hb : sb.bit i = true
    · simp only [hb, Bool.not_true, Bool.false_eq_true, if_false]
      have hN' : ∀ s', 1 ≤ s' → s' < i + 1 - 0 →
          ¬ (∀ k, s' ≤ k → k < s' + size → sb.bit k = false) := by
        intro s' hs1 hs2 hrun
        by_cases hlt : s' < i - cc
        · exact hN s' hs1 hlt hrun
        · have := hrun i (by omega) (by omega)
          rw [hb] at this
          exact absurd this (by decide)
      obtain ⟨r1, r2⟩ := ih (i + 1) cs 0 (by omega) (by omega) (fun h => absurd rfl h)
        (fun k k1 k2 => by omega) hN'
      exact ⟨r1, fun hnone s' hs1 hs2 => r2 hnone s' hs1 (by omega)⟩
    · have hb' : sb.bit i = false := by simpa using hb
      simp only [hb', Bool.not_false, if_true]
      have hcs : (if cc = 0 then i else cs) = i - cc := by
        by_cases h0 : cc = 0
        · rw [if_pos h0, h0]; rfl
        · rw [if_neg h0]; exact h3 h0
      rw [hcs]
      by_cases hsz : cc + 1 = size
      · rw [if_pos hsz]
        refine ⟨?_, fun h => by simp at h⟩
        intro b hbe s' hs1 hs2
        injection hbe with hbe
        exact hN s' hs1 (by omega)
      · rw [if_neg hsz]
        have e : i + 1 - (cc + 1) = i - cc := by omega
        obtain ⟨r1, r2⟩ := ih (i + 1) (i - cc) (cc + 1) (by omega) (by omega)
          (fun _ => e.symm)
          (fun k k1 k2 => by
            rw [e] at k1
            by_cases hk : k = i
            · rw [hk]; exact hb'
            · exact hF k k1 (by omega))
          (fun s' hs1 hs2 => by rw [e] at hs2; exact hN s' hs1 hs2)
        exact ⟨r1, fun hnone s' hs1 hs2 => r2 hnone s' hs1 (by omega)⟩

/-- C17: for `size ≥ 1`, `find_contiguous_blocks` returns the smallest block
`b ≥ 1` at which a run of `size` free blocks inside 1..127 starts (no run at
all starts at a smaller block `≥ 1`), it returns `none` (the value -1) exactly
when no such run exists, and for size 0 it returns 0.  The function only reads
the bitmap. -/
theorem C17_first_fit (sb : Superblock) (size : Nat) (hsize : 1 ≤ size) :
    (∀ b, find_contiguous_blocks sb size = some b →
      1 ≤ b ∧ b + size - 1 ≤ 127 ∧ (∀ k, b ≤ k → k < b + size → sb.bit k = false) ∧
      ∀ s', 1 ≤ s' → s' < b → ¬ (∀ k, s' ≤ k → k < s' + size → sb.bit k = false)) ∧
    (find_contiguous_blocks sb size = none ↔
      ¬ ∃ s', 1 ≤ s' ∧ s' + size - 1 ≤ 127 ∧
        ∀ k, s' ≤ k → k < s' + size → sb.bit k = false) ∧
    find_contiguous_blocks sb 0 = some 0 := by
  have hloop := find_contiguous_loop_first sb size (NUM_BLOCKS - 1) 1 1 0 (by omega) (by omega)
    (fun h => absurd rfl h) (fun k k1 k2 => by omega) (fun s' h1 h2 => by omega)
  have hdef : find_contiguous_blocks sb size =
      find_contiguous_loop sb size (List.range' 1 (NUM_BLOCKS - 1)) 1 0 := by
    unfold find_contiguous_blocks
    rw [if_neg (by omega)]
  rw [← hdef] at hloop
  obtain ⟨l1, l2⟩ := hloop
  refine ⟨?_, ?_, rfl⟩
  · intro b hb
    obtain ⟨s1, s2, s3⟩ := find_contiguous_blocks_sound hsize hb
    simp only [NUM_BLOCKS] at s2
    exact ⟨s1, by omega, s3, l1 b hb⟩
  · constructor
    · intro hnone
      rintro ⟨s', h1, h2, h3⟩
      exact l2 hnone s' h1 (by simp only [NUM_BLOCKS]; omega) h3
    · intro hno
      cases hf : find_contiguous_blocks sb size with
      | none => rfl
      | some b =>
        obtain ⟨s1, s2, s3⟩ := find_contiguous_blocks_sound hsize hf
        simp only [NUM_BLOCKS] at s2
        exact absurd ⟨b, s1, by omega, s3⟩ hno

set_option maxRecDepth 100000 in
/-- Witness for C17: in `two_files_state` (blocks 1 and 2 used) the first run
of two free blocks starts at block 3. -/
theorem C17_witness :
    find_contiguous_blocks two_files_state.superblock 2 = some 3 ∧
    ∀ s', 1 ≤ s' → s' < 3 →
      ¬ (∀ k, s' ≤ k → k < s' + 2 → two_files_state.superblock.bit k = false) :=
  ⟨by decide,
    ((C17_first_fit two_files_state.superblock 2 (by decide)).1 3 (by decide)).2.2.2⟩

theorem mark_block_high_bytes (sb : Superblock) (block : Int) (m : Bool) (j : Nat)
    (hj : 16 ≤ j) : (mark_block sb block m).free_block_list j = sb.free_block_list j := by
  unfold mark_block
  by_cases hr : block < 0 ∨ block ≥ (NUM_BLOCKS : Nat)
  · rw [if_pos hr]
  · rw [if_neg hr]
    simp only [NUM_BLOCKS] at hr
    have hb : block.toNat / 8 < 16 := by omega
    simp only [Superblock.set_byte]
    split
    · show (if j = 0 then _ else _) = _
      rw [if_neg (by omega)]
    · split
      · show (if j = block.toNat / 8 then _ else _) = _
        rw [if_neg (by omega)]
      · show (if j = block.toNat / 8 then _ else _) = _
        rw [if_neg (by omega)]

theorem mark_blocks_high_bytes (sb : Superblock) (start : Int) (n : Nat) (m : Bool) (j : Nat)
    (hj : 16 ≤ j) : (mark_blocks sb start n m).free_block_list j = sb.free_block_list j := by
  induction n with
  | zero => rfl
  | succ n ih => rw [mark_blocks_succ, mark_block_high_bytes _ _ _ _ hj, ih]

/-- C18: `mark_blocks(start, count, flag)` gives every block `b` of the range
with `1 ≤ b ≤ 127` the bit `flag`, sets bit 0 when 0 lies in the range
whatever the flag, leaves every other bit unchanged, and touches neither the
bytes after the 16 bitmap bytes nor the inode table: the positions of the
range outside 0..127 have no effect. -/
theorem C18_mark_blocks_effect (sb : Superblock) (start : Int) (count : Nat) (flag : Bool) :
    (∀ b : Nat, 1 ≤ b → b ≤ 127 → start ≤ (b : Int) → (b : Int) < start + (count : Int) →
      (mark_blocks sb start count flag).bit b = flag) ∧
    (start ≤ 0 → 0 < start + (count : Int) → (mark_blocks sb start count flag).bit 0 = true) ∧
    (∀ b : Nat, ¬ (start ≤ (b : Int) ∧ (b : Int) < start + (count : Int) ∧ b ≤ 127) →
      (mark_blocks sb start count flag).bit b = sb.bit b) ∧
    (∀ j, 16 ≤ j →
      (mark_blocks sb start count flag).free_block_list j = sb.free_block_list j) ∧
    (mark_blocks sb start count flag).inode = sb.inode := by
  refine ⟨?_, ?_, ?_, ?_, mark_blocks_inode sb start count flag⟩
  · intro b h1 h2 h3 h4
    rw [mark_blocks_bit, if_pos ⟨h3, h4, by simp only [NUM_BLOCKS]; omega⟩, if_neg (by omega)]
  · intro h1 h2
    rw [mark_blocks_bit, if_pos ⟨by simpa using h1, by simpa using h2, by decide⟩, if_pos rfl]
  · intro b hb
    rw [mark_blocks_bit, if_neg]
    intro h
    exact hb ⟨h.1, h.2.1, by have := h.2.2; simp only [NUM_BLOCKS] at this; omega⟩
  · intro j hj
    exact mark_blocks_high_bytes sb start count flag j hj

/-- C19: when no session is mounted, or the name resolves in the current
directory, or all 126 records are in use, or `size ≥ 1` and no run of `size`
free blocks lies inside 1..127, `fs_create` reports an error and leaves the
whole state (bitmap, records, image, buffer, current directory) as it was. -/
theorem C19_create_failure_changes_nothing (s : State) (name : Name) (size : Nat)
    (h : s.current_disk = none ∨
      (∃ idx, get_file_inode s.superblock name s.current_dir_inode = some idx) ∨
      (∀ i < NUM_INODES, (s.superblock.inode i).in_use = true) ∨
      (1 ≤ size ∧ ¬ ∃ b, 1 ≤ b ∧ b + size ≤ NUM_BLOCKS ∧
        ∀ k, b ≤ k → k < b + size → s.superblock.bit k = false)) :
    (fs_create s name size).1 ≠ Outcome.ok ∧ (fs_create s name size).2 = s := by
  unfold fs_create
  split
  · exact ⟨fun h0 => Outcome.noConfusion h0, rfl⟩
  next hm =>
  split
  · exact ⟨fun h0 => Outcome.noConfusion h0, rfl⟩
  next hex =>
  split
  · exact ⟨fun h0 => Outcome.noConfusion h0, rfl⟩
  next idx hidx =>
  split
  · exact ⟨fun h0 => Outcome.noConfusion h0, rfl⟩
  next b hb =>
  exfalso
  obtain ⟨_, hfree⟩ := find_free_inode_some hidx
  rcases h with h | h | h | h
  · rw [h] at hm
    exact hm rfl
  · obtain ⟨i, hi⟩ := h
    rw [hi] at hex
    exact hex rfl
  · rw [h idx (find_free_inode_some hidx).1] at hfree
    exact absurd hfree (by decide)
  · obtain ⟨h1, h2⟩ := h
    rw [if_pos (by omega : size > 0)] at hb
    exact h2 ⟨b, find_contiguous_blocks_sound h1 hb⟩

set_option maxRecDepth 100000 in
/-- Witness for C19: in `full_state` no block is free, so `C x 1` fails. -/
theorem C19_witness :
    (fs_create full_state name_x 1).1 ≠ Outcome.ok ∧
      (fs_create full_state name_x 1).2 = full_state :=
  C19_create_failure_changes_nothing full_state name_x 1
    (Or.inr (Or.inr (Or.inr ⟨by decide, fun ⟨b, h1, h2, h3⟩ => by
      have hb : full_state.superblock.bit b = false := h3 b (Nat.le_refl b) (by omega)
      have hall : ∀ k < NUM_BLOCKS, full_state.superblock.bit k = true := by decide
      rw [hall b (by simp only [NUM_BLOCKS] at h2 ⊢; omega)] at hb
      exact absurd hb (by decide)⟩)))

theorem rebuild_bitmap_bit (files : List FileInfo) (sb : Superblock) (b : Nat) :
    (rebuild_bitmap sb files).bit b = true ↔
      sb.bit b = true ∨ ∃ f ∈ files, (sb.inode f.inode_idx).start_block ≤ b ∧
        b < (sb.inode f.inode_idx).start_block + f.size ∧ b < NUM_BLOCKS := by
  induction files generalizing sb with
  | nil => simp [rebuild_bitmap]
  | cons f t ih =>
    have hstep : rebuild_bitmap sb (f :: t) =
        rebuild_bitmap (mark_blocks sb ((sb.inode f.inode_idx).start_block : Nat) f.size true)
          t := rfl
    rw [hstep, ih, mark_blocks_inode, mark_blocks_bit_nat]
    constructor
    · rintro (h | ⟨g, hg, h⟩)
      · by_cases hr : (sb.inode f.inode_idx).start_block ≤ b ∧
            b < (sb.inode f.inode_idx).start_block + f.size ∧ b < NUM_BLOCKS
        · exact Or.inr ⟨f, List.mem_cons_self f t, hr⟩
        · rw [if_neg hr] at h
          exact Or.inl h
      · exact Or.inr ⟨g, List.mem_cons_of_mem f hg, h⟩
    · rintro (h | ⟨g, hg, h⟩)
      · left
        split
        · split <;> rfl
        · exact h
      · rcases List.mem_cons.mp hg with rfl | hg
        · left
          rw [if_pos h]
          split <;> rfl
        · exact Or.inr ⟨g, hg, h⟩

theorem mem_bubble_sort_collect (sb : Superblock) (x : FileInfo) :
    x ∈ bubble_sort (collect_files sb) ↔
      ∃ i < NUM_INODES, (sb.inode i).is_file = true ∧
        x = ⟨i, (sb.inode i).start_block, (sb.inode i).size⟩ := by
  rw [(bubble_sort_perm _).mem_iff, collect_files_eq, List.mem_map]
  constructor
  · rintro ⟨i, hi, rfl⟩
    obtain ⟨h1, h2⟩ := List.mem_filter.mp hi
    exact ⟨i, List.mem_range.mp h1, h2, rfl⟩
  · rintro ⟨i, h1, h2, rfl⟩
    exact ⟨i, List.mem_filter.mpr ⟨List.mem_range.mpr h1, h2⟩, rfl⟩

/-- The superblock after `fs_defrag` in a mounted session. -/
theorem fs_defrag_superblock (s : State) (hm : s.current_disk ≠ none) :
    (fs_defrag s).2.superblock =
      rebuild_bitmap
        (Superblock.set_byte
          { ((bubble_sort (collect_files s.superblock)).foldl defrag_step
              (s.superblock, s.disk, 1)).1 with
            free_block_list := fun j =>
              if j < 16 then 0
              else ((bubble_sort (collect_files s.superblock)).foldl defrag_step
                (s.superblock, s.disk, 1)).1.free_block_list j } 0 1)
        (bubble_sort (collect_files s.superblock)) := by
  unfold fs_defrag
  rw [isNone_eq_false_of_ne_none hm]
  rfl

theorem cleared_bitmap_bit (sb : Superblock) (b : Nat) (hb : b < NUM_BLOCKS) :
    (Superblock.set_byte
      { sb with free_block_list := fun j => if j < 16 then 0 else sb.free_block_list j }
      0 1).bit b = decide (b = 0) := by
  simp only [NUM_BLOCKS] at hb
  rw [set_byte_bit]
  by_cases h0 : b / 8 = 0
  · rw [if_pos h0]
    have h2 := @Nat.testBit_two_pow 0 (b % 8)
    simp only [pow_zero] at h2
    rw [h2]
    by_cases hb0 : b = 0
    · subst hb0; rfl
    · have : ¬ (0 = b % 8) := by omega
      simp [this, hb0]
  · rw [if_neg h0, bit_eq_testBit]
    show (if b / 8 < 16 then 0 else sb.free_block_list (b / 8)).testBit (b % 8) = _
    rw [if_pos (by omega)]
    have : ¬ b = 0 := by omega
    simp [this]

theorem is_file_of_fields {r r' : Inode} (h1 : r'.used_size = r.used_size)
    (h2 : r'.dir_parent = r.dir_parent) : r'.is_file = r.is_file := by
  unfold Inode.is_file Inode.in_use Inode.is_dir
  rw [h1, h2]

theorem size_of_fields {r r' : Inode} (h1 : r'.used_size = r.used_size) : r'.size = r.size := by
  unfold Inode.size
  rw [h1]

/-- The bitmap after `fs_defrag` in a mounted session, in terms of the files
of the state before and their new positions. -/
theorem fs_defrag_bit_table (s : State) (hm : s.current_disk ≠ none)
    (b : Nat) (hb : b < NUM_BLOCKS) :
    (fs_defrag s).2.superblock.bit b = true ↔
      b = 0 ∨ ∃ i < NUM_INODES, (s.superblock.inode i).is_file = true ∧
        ((fs_defrag s).2.superblock.inode i).start_block ≤ b ∧
        b < ((fs_defrag s).2.superblock.inode i).start_block + (s.superblock.inode i).size := by
  rw [fs_defrag_superblock s hm, rebuild_bitmap_bit, cleared_bitmap_bit _ b hb,
    rebuild_bitmap_inode]
  simp only [decide_eq_true_eq]
  constructor
  · rintro (h | ⟨f, hf, h1, h2, _⟩)
    · exact Or.inl h
    · obtain ⟨i, hi, hfi, rfl⟩ := (mem_bubble_sort_collect _ _).mp hf
      exact Or.inr ⟨i, hi, hfi, h1, h2⟩
  · rintro (h | ⟨i, hi, hfi, h1, h2⟩)
    · exact Or.inl h
    · exact Or.inr ⟨⟨i, (s.superblock.inode i).start_block, (s.superblock.inode i).size⟩,
        (mem_bubble_sort_collect _ _).mpr ⟨i, hi, hfi, rfl⟩, h1, h2, hb⟩

theorem fs_defrag_unmounted (s : State) (hm : s.current_disk = none) :
    fs_defrag s = (Outcome.not_mounted, s) := by
  unfold fs_defrag
  rw [hm]
  rfl

/-- `fs_defrag` changes neither which records are files nor their sizes. -/
theorem fs_defrag_fields (s : State) (i : Nat) :
    ((fs_defrag s).2.superblock.inode i).is_file = (s.superblock.inode i).is_file ∧
      ((fs_defrag s).2.superblock.inode i).size = (s.superblock.inode i).size := by
  by_cases hm : s.current_disk = none
  · rw [fs_defrag_unmounted s hm]
    exact ⟨rfl, rfl⟩
  · obtain ⟨_, hino⟩ := fs_defrag_inode s hm
    have hf := defrag_fold_fields (bubble_sort (collect_files s.superblock))
      (s.superblock, s.disk, 1) i
    rw [hino]
    exact ⟨is_file_of_fields hf.2.1 hf.2.2, size_of_fields hf.2.1⟩

/-- C13: after `fs_defrag` in a mounted session, whatever the bitmap was
before, the bit of a block `b` in 0..127 is set exactly when `b = 0` or `b`
lies in the range `[start_block, start_block + size)` of some in-use file
record. -/
theorem C13_bitmap_agrees_with_table_after_defrag (s : State) (hm : s.current_disk ≠ none)
    (b : Nat) (hb : b < NUM_BLOCKS) :
    (fs_defrag s).2.superblock.bit b = true ↔
      b = 0 ∨ ∃ i < NUM_INODES, ((fs_defrag s).2.superblock.inode i).is_file = true ∧
        ((fs_defrag s).2.superblock.inode i).start_block ≤ b ∧
        b < ((fs_defrag s).2.superblock.inode i).start_block +
          ((fs_defrag s).2.superblock.inode i).size := by
  rw [fs_defrag_bit_table s hm b hb]
  constructor
  · rintro (h | ⟨i, hi, hfi, h1, h2⟩)
    · exact Or.inl h
    · refine Or.inr ⟨i, hi, ?_, h1, ?_⟩
      · rw [(fs_defrag_fields s i).1]; exact hfi
      · rw [(fs_defrag_fields s i).2]; exact h2
  · rintro (h | ⟨i, hi, hfi, h1, h2⟩)
    · exact Or.inl h
    · rw [(fs_defrag_fields s i).1] at hfi
      rw [(fs_defrag_fields s i).2] at h2
      exact Or.inr ⟨i, hi, hfi, h1, h2⟩

set_option maxRecDepth 100000 in
/-- Witness for C13: block 2 after `fs_defrag` of `unordered_state`. -/
theorem C13_witness :
    (fs_defrag unordered_state).2.superblock.bit 2 = true ↔
      2 = 0 ∨ ∃ i < NUM_INODES,
        ((fs_defrag unordered_state).2.superblock.inode i).is_file = true ∧
        ((fs_defrag unordered_state).2.superblock.inode i).start_block ≤ 2 ∧
        2 < ((fs_defrag unordered_state).2.superblock.inode i).start_block +
          ((fs_defrag unordered_state).2.superblock.inode i).size :=
  C13_bitmap_agrees_with_table_after_defrag unordered_state (by decide) 2 (by decide)

theorem write_file_data_apply (d : Disk) (nf n : Nat) (data : Nat → Block) (k : Nat) :
    write_file_data d nf n data k = if nf ≤ k ∧ k < nf + n then data (k - nf) else d k := by
  unfold write_file_data
  induction n with
  | zero =>
    have : ¬ (nf ≤ k ∧ k < nf + 0) := by omega
    rw [if_neg this]; rfl
  | succ n ih =>
    rw [List.range_succ, List.foldl_append]
    simp only [List.foldl_cons, List.foldl_nil, write_block]
    by_cases hk : k = nf + n
    · subst hk
      rw [if_pos rfl, if_pos (by omega), Nat.add_sub_cancel_left]
    · rw [if_neg hk, ih]
      by_cases h : nf ≤ k ∧ k < nf + n
      · rw [if_pos h, if_pos (by omega)]
      · rw [if_neg h, if_neg (by omega)]

/-- The image after one iteration of the loop that moves the files. -/
theorem defrag_step_disk (sb : Superblock) (d : Disk) (nf : Nat) (x : FileInfo) (k : Nat) :
    (defrag_step (sb, d, nf) x).2.1 k =
      if x.start_block ≠ nf then
        (if nf ≤ k ∧ k < nf + x.size then d (x.start_block + (k - nf))
         else if x.start_block ≤ k ∧ k < x.start_block + x.size then zero_block
         else d k)
      else d k := by
  unfold defrag_step
  by_cases h : x.start_block ≠ nf
  · simp only [if_pos h]
    show write_file_data (zero_blocks d x.start_block x.size) nf x.size _ k = _
    rw [write_file_data_apply, zero_blocks_apply]
    rfl
  · simp only [if_neg h]

/-- The image after the loop that moves the files, for a table in which every
entry with blocks starts at or after `nf` and ends before the next entry with
blocks starts: each entry's blocks are found at its new position, the blocks
below `nf` are untouched, and a block at or after the final `next_free` is
either untouched or zero, and is zero if it belonged to an entry that moved. -/
theorem defrag_fold_disk (fs : List FileInfo) :
    ∀ (sb : Superblock) (d : Disk) (nf : Nat),
      fs.Pairwise (fun x y => 0 < x.size → 0 < y.size →
        x.start_block + x.size ≤ y.start_block) →
      (∀ y ∈ fs, 0 < y.size → nf ≤ y.start_block) →
      (∀ pre x post, fs = pre ++ x :: post → ∀ j < x.size,
        (fs.foldl defrag_step (sb, d, nf)).2.1 (nf + (pre.map FileInfo.size).sum + j) =
          d (x.start_block + j)) ∧
      (∀ k < nf, (fs.foldl defrag_step (sb, d, nf)).2.1 k = d k) ∧
      (∀ k, nf + (fs.map FileInfo.size).sum ≤ k →
        (fs.foldl defrag_step (sb, d, nf)).2.1 k = d k ∨
          (fs.foldl defrag_step (sb, d, nf)).2.1 k = zero_block) ∧
      (∀ pre x post, fs = pre ++ x :: post →
        x.start_block ≠ nf + (pre.map FileInfo.size).sum →
        ∀ k, x.start_block ≤ k → k < x.start_block + x.size →
          nf + (fs.map FileInfo.size).sum ≤ k →
          (fs.foldl defrag_step (sb, d, nf)).2.1 k = zero_block) := by
  induction fs with
  | nil =>
    intro sb d nf _ _
    refine ⟨?_, fun _ _ => rfl, fun _ _ => Or.inl rfl, ?_⟩
    · intro pre x post h
      exact absurd h (by simp)
    · intro pre x post h
      exact absurd h (by simp)
  | cons x t ih =>
    intro sb d nf hord hlow
    rw [List.pairwise_cons] at hord
    obtain ⟨hx, ht⟩ := hord
    have hst : defrag_step (sb, d, nf) x =
        ((defrag_step (sb, d, nf) x).1, (defrag_step (sb, d, nf) x).2.1, nf + x.size) := by
      have := defrag_step_next_free (sb, d, nf) x
      simp only at this
      rw [← this]
    have hlow' : ∀ y ∈ t, 0 < y.size → nf + x.size ≤ y.start_block := by
      intro y hy hys
      have h1 := hlow y (List.mem_cons_of_mem x hy) hys
      by_cases hxs : 0 < x.size
      · have h2 := hx y hy hxs hys
        have h3 := hlow x (List.mem_cons_self x t) hxs
        omega
      · omega
    obtain ⟨i1, i2, i3, i4⟩ := ih (defrag_step (sb, d, nf) x).1 (defrag_step (sb, d, nf) x).2.1
      (nf + x.size) ht hlow'
    rw [List.foldl_cons, hst]
    -- the image after the first step, on the blocks of a later entry
    have hlater : ∀ y ∈ t, ∀ j < y.size,
        (defrag_step (sb, d, nf) x).2.1 (y.start_block + j) = d (y.start_block + j) := by
      intro y hy j hj
      rw [defrag_step_disk]
      have hys : 0 < y.size := by omega
      have h1 := hlow' y hy hys
      split
      · rw [if_neg (by omega)]
        by_cases hxs : 0 < x.size
        · have h2 := hx y hy hxs hys
          rw [if_neg (by omega)]
        · rw [if_neg (by omega)]
      · rfl
    have hbelow : ∀ k < nf, (defrag_step (sb, d, nf) x).2.1 k = d k := by
      intro k hk
      rw [defrag_step_disk]
      split
      · rw [if_neg (by omega)]
        by_cases hxs : 0 < x.size
        · have h3 := hlow x (List.mem_cons_self x t) hxs
          rw [if_neg (by omega)]
        · rw [if_neg (by omega)]
      · rfl
    refine ⟨?_, ?_, ?_, ?_⟩
    · intro pre z post hsplit j hj
      rcases List.cons_eq_append_iff.mp hsplit with ⟨hp, hz⟩ | ⟨pre', hp, hz⟩
      · subst hp
        injection hz with hz1 hz2
        subst hz1
        simp only [List.map_nil, List.sum_nil, Nat.add_zero]
        rw [i2 (nf + j) (by omega), defrag_step_disk]
        split
        · rw [if_pos (by omega), Nat.add_sub_cancel_left]
        · next hnm =>
          have : z.start_block = nf := not_not.mp hnm
          rw [this]
      · subst hp
        simp only [List.map_cons, List.sum_cons]
        have := i1 pre' z post hz j hj
        rw [← Nat.add_assoc, this]
        exact hlater z (by rw [hz]; simp) j hj
    · intro k hk
      rw [i2 k (by omega)]
      exact hbelow k hk
    · intro k hk
      simp only [List.map_cons, List.sum_cons] at hk
      have hstep : (defrag_step (sb, d, nf) x).2.1 k = d k ∨
          (defrag_step (sb, d, nf) x).2.1 k = zero_block := by
        rw [defrag_step_disk]
        split
        · rw [if_neg (by omega)]
          split
          · exact Or.inr rfl
          · exact Or.inl rfl
        · exact Or.inl rfl
      rcases i3 k (by omega) with h | h
      · rw [h]; exact hstep
      · exact Or.inr h
    · intro pre z post hsplit hmoved k k1 k2 k3
      simp only [List.map_cons, List.sum_cons] at k3
      rcases List.cons_eq_append_iff.mp hsplit with ⟨hp, hz⟩ | ⟨pre', hp, hz⟩
      · subst hp
        injection hz with hz1 hz2
        subst hz1
        simp only [List.map_nil, List.sum_nil, Nat.add_zero] at hmoved
        have hstep : (defrag_step (sb, d, nf) z).2.1 k = zero_block := by
          rw [defrag_step_disk, if_pos hmoved, if_neg (by omega), if_pos ⟨k1, k2⟩]
        rcases i3 k (by omega) with h | h
        · rw [h]; exact hstep
        · exact h
      · subst hp
        simp only [List.map_cons, List.sum_cons] at hmoved
        exact i4 pre' z post hz (by omega) k k1 k2 (by omega)

/-- Consecutive positions of the given sizes, starting at `nf`, cover the
blocks from `nf` up to `nf` plus the sum of the sizes. -/
theorem positions_cover {α : Type} (sz : α → Nat) (l : List α) :
    ∀ (nf k : Nat), nf ≤ k → k < nf + (l.map sz).sum →
      ∃ pre x post, l = pre ++ x :: post ∧ nf + (pre.map sz).sum ≤ k ∧
        k < nf + (pre.map sz).sum + sz x := by
  induction l with
  | nil =>
    intro nf k h1 h2
    simp at h2
    omega
  | cons x t ih =>
    intro nf k h1 h2
    simp only [List.map_cons, List.sum_cons] at h2
    by_cases hk : k < nf + sz x
    · exact ⟨[], x, t, rfl, by simpa using h1, by simpa using hk⟩
    · obtain ⟨pre, z, post, e1, e2, e3⟩ := ih (nf + sz x) k (by omega) (by omega)
      refine ⟨x :: pre, z, post, by rw [e1]; rfl, ?_, ?_⟩
      · simp only [List.map_cons, List.sum_cons]; omega
      · simp only [List.map_cons, List.sum_cons]; omega

/-- The final `next_free` stays on the disk when the entries with blocks are
in ascending order, disjoint and inside the disk. -/
theorem defrag_total_bound (fs : List FileInfo) :
    ∀ (nf : Nat), nf ≤ NUM_BLOCKS →
      fs.Pairwise (fun x y => 0 < x.size → 0 < y.size →
        x.start_block + x.size ≤ y.start_block) →
      (∀ y ∈ fs, 0 < y.size → nf ≤ y.start_block) →
      (∀ y ∈ fs, 0 < y.size → y.start_block + y.size ≤ NUM_BLOCKS) →
      nf + (fs.map FileInfo.size).sum ≤ NUM_BLOCKS := by
  induction fs with
  | nil => intro nf h _ _ _; simpa using h
  | cons x t ih =>
    intro nf hnf hord hlow hb
    rw [List.pairwise_cons] at hord
    obtain ⟨hx, ht⟩ := hord
    simp only [List.map_cons, List.sum_cons]
    have hnf' : nf + x.size ≤ NUM_BLOCKS := by
      by_cases hxs : 0 < x.size
      · have h1 := hlow x (List.mem_cons_self x t) hxs
        have h2 := hb x (List.mem_cons_self x t) hxs
        omega
      · omega
    have := ih (nf + x.size) hnf' ht
      (by
        intro y hy hys
        have h1 := hlow y (List.mem_cons_of_mem x hy) hys
        by_cases hxs : 0 < x.size
        · have h2 := hx y hy hxs hys
          have h3 := hlow x (List.mem_cons_self x t) hxs
          omega
        · omega)
      (fun y hy hys => hb y (List.mem_cons_of_mem x hy) hys)
    omega

/-- The records of the files can be listed in ascending order of
`start_block`, ties in record order. -/
theorem sorted_files_exist (sb : Superblock) :
    ∃ L : List Nat,
      (∀ i ∈ L, i < NUM_INODES ∧ (sb.inode i).is_file = true) ∧
      (∀ i < NUM_INODES, (sb.inode i).is_file = true → i ∈ L) ∧
      L.Pairwise (fun i j =>
        (sb.inode i).start_block < (sb.inode j).start_block ∨
          ((sb.inode i).start_block = (sb.inode j).start_block ∧ i < j)) := by
  refine ⟨(bubble_sort (collect_files sb)).map FileInfo.inode_idx, ?_, ?_, ?_⟩
  · intro i hi
    obtain ⟨x, hx, rfl⟩ := List.mem_map.mp hi
    obtain ⟨j, hj, hf, rfl⟩ := (mem_bubble_sort_collect sb x).mp hx
    exact ⟨hj, hf⟩
  · intro i hi hf
    exact List.mem_map.mpr ⟨⟨i, (sb.inode i).start_block, (sb.inode i).size⟩,
      (mem_bubble_sort_collect sb _).mpr ⟨i, hi, hf, rfl⟩, rfl⟩
  · rw [List.pairwise_map]
    have hties : (collect_files sb).Pairwise
        (fun x y => x.start_block = y.start_block → x.inode_idx < y.inode_idx) := by
      rw [collect_files_eq, List.pairwise_map]
      refine ((List.pairwise_lt_range _).filter _).imp ?_
      intro i j hij _
      exact hij
    refine List.Pairwise.imp_of_mem ?_ (bubble_sort_before _ hties)
    intro x y hx hy hxy
    obtain ⟨i, _, _, rfl⟩ := (mem_bubble_sort_collect sb x).mp hx
    obtain ⟨j, _, _, rfl⟩ := (mem_bubble_sort_collect sb y).mp hy
    exact hxy

/-- The layout after `fs_defrag` in a mounted session whose files lie inside
1..127 and are pairwise disjoint: with `L` the records of the files in
ascending order of `start_block`, every file sits at `1 +` the sizes of the
files before it and its blocks hold what they held, the new positions cover
the blocks from 1 up to the total, and a block after the total is either
untouched or zero, and is zero if it belonged to a file that moved. -/
theorem defrag_layout (s : State) (hm : s.current_disk ≠ none)
    (hbounds : ∀ i < NUM_INODES, (s.superblock.inode i).is_file = true →
      1 ≤ (s.superblock.inode i).start_block ∧
        (s.superblock.inode i).start_block + (s.superblock.inode i).size ≤ NUM_BLOCKS)
    (hdisj : ∀ i < NUM_INODES, ∀ j < NUM_INODES, i ≠ j →
      (s.superblock.inode i).is_file = true → (s.superblock.inode j).is_file = true →
      ∀ k, ¬ ((s.superblock.inode i).start_block ≤ k ∧
        k < (s.superblock.inode i).start_block + (s.superblock.inode i).size ∧
        (s.superblock.inode j).start_block ≤ k ∧
        k < (s.superblock.inode j).start_block + (s.superblock.inode j).size)) :
    ∃ L : List Nat,
      (∀ i ∈ L, i < NUM_INODES ∧ (s.superblock.inode i).is_file = true) ∧
      (∀ i < NUM_INODES, (s.superblock.inode i).is_file = true → i ∈ L) ∧
      L.Pairwise (fun i j =>
        (s.superblock.inode i).start_block < (s.superblock.inode j).start_block ∨
          ((s.superblock.inode i).start_block = (s.superblock.inode j).start_block ∧ i < j)) ∧
      1 + (L.map (fun j => (s.superblock.inode j).size)).sum ≤ NUM_BLOCKS ∧
      (∀ pre i post, L = pre ++ i :: post →
        ((fs_defrag s).2.superblock.inode i).start_block =
          1 + (pre.map (fun j => (s.superblock.inode j).size)).sum ∧
        ∀ j < (s.superblock.inode i).size,
          (fs_defrag s).2.disk (1 + (pre.map (fun j => (s.superblock.inode j).size)).sum + j) =
            s.disk ((s.superblock.inode i).start_block + j)) ∧
      (∀ k, 1 + (L.map (fun j => (s.superblock.inode j).size)).sum ≤ k →
        (fs_defrag s).2.disk k = s.disk k ∨ (fs_defrag s).2.disk k = zero_block) ∧
      (∀ pre i post, L = pre ++ i :: post →
        (s.superblock.inode i).start_block ≠
          1 + (pre.map (fun j => (s.superblock.inode j).size)).sum →
        ∀ k, (s.superblock.inode i).start_block ≤ k →
          k < (s.superblock.inode i).start_block + (s.superblock.inode i).size →
          1 + (L.map (fun j => (s.superblock.inode j).size)).sum ≤ k →
          (fs_defrag s).2.disk k = zero_block) := by
  obtain ⟨L, hL1, hL2, hsorted⟩ := sorted_files_exist s.superblock
  have hsort_eq := bubble_sort_collect_eq s.superblock L hL1 hL2 hsorted
  obtain ⟨_, hino⟩ := fs_defrag_inode s hm
  rw [hsort_eq] at hino
  have hnodup : L.Nodup := hsorted.imp (fun h => by intro e; subst e; omega)
  -- the table of the files, as the loop sees it
  have hord : (L.map (fun i => (⟨i, (s.superblock.inode i).start_block,
      (s.superblock.inode i).size⟩ : FileInfo))).Pairwise
      (fun x y => 0 < x.size → 0 < y.size → x.start_block + x.size ≤ y.start_block) := by
    rw [List.pairwise_map]
    refine List.Pairwise.imp_of_mem ?_ hsorted
    intro i j hi hj hij hsi hsj
    simp only at hsi hsj ⊢
    obtain ⟨hi1, hi2⟩ := hL1 i hi
    obtain ⟨hj1, hj2⟩ := hL1 j hj
    have hne : i ≠ j := by intro e; subst e; omega
    by_contra hcon
    exact hdisj i hi1 j hj1 hne hi2 hj2 (s.superblock.inode j).start_block
      ⟨by omega, by omega, Nat.le_refl _, by omega⟩
  have hlow : ∀ y ∈ L.map (fun i => (⟨i, (s.superblock.inode i).start_block,
      (s.superblock.inode i).size⟩ : FileInfo)), 0 < y.size → 1 ≤ y.start_block := by
    intro y hy _
    obtain ⟨i, hi, rfl⟩ := List.mem_map.mp hy
    exact (hbounds i (hL1 i hi).1 (hL1 i hi).2).1
  have hhigh : ∀ y ∈ L.map (fun i => (⟨i, (s.superblock.inode i).start_block,
      (s.superblock.inode i).size⟩ : FileInfo)), 0 < y.size →
      y.start_block + y.size ≤ NUM_BLOCKS := by
    intro y hy _
    obtain ⟨i, hi, rfl⟩ := List.mem_map.mp hy
    exact (hbounds i (hL1 i hi).1 (hL1 i hi).2).2
  have hsum : ∀ l : List Nat,
      ((l.map (fun i => (⟨i, (s.superblock.inode i).start_block,
        (s.superblock.inode i).size⟩ : FileInfo))).map FileInfo.size).sum =
        (l.map (fun j => (s.superblock.inode j).size)).sum := by
    intro l
    rw [List.map_map]
    rfl
  have htotal := defrag_total_bound _ 1 (by decide) hord hlow hhigh
  rw [hsum] at htotal
  obtain ⟨d1, d2, d3, d4⟩ := defrag_fold_disk _ s.superblock s.disk 1 hord hlow
  have hdisk : ∀ k, 1 ≤ k → (fs_defrag s).2.disk k =
      ((L.map (fun i => (⟨i, (s.superblock.inode i).start_block,
        (s.superblock.inode i).size⟩ : FileInfo))).foldl defrag_step
        (s.superblock, s.disk, 1)).2.1 k := by
    intro k hk
    unfold fs_defrag
    rw [isNone_eq_false_of_ne_none hm]
    simp only [Bool.false_eq_true, if_false]
    rw [hsort_eq]
    unfold write_block
    rw [if_neg (by omega)]
  have hsplit_sum : ∀ pre i post, L = pre ++ i :: post →
      (pre.map (fun j => (s.superblock.inode j).size)).sum ≤
        (L.map (fun j => (s.superblock.inode j).size)).sum := by
    intro pre i post h
    rw [h, List.map_append, List.sum_append]
    omega
  refine ⟨L, hL1, hL2, hsorted, htotal, ?_, ?_, ?_⟩
  · intro pre i post hsplit
    have hle := hsplit_sum pre i post hsplit
    simp only [NUM_BLOCKS] at htotal
    constructor
    · rw [hino]
      have := defrag_fold_positions
        (L.map (fun i => (⟨i, (s.superblock.inode i).start_block,
          (s.superblock.inode i).size⟩ : FileInfo)))
        (s.superblock, s.disk, 1)
        (by rw [List.map_map]; simpa [Function.comp_def] using hnodup)
        (by
          intro f hf
          obtain ⟨j, _, rfl⟩ := List.mem_map.mp hf
          rfl)
        (pre.map (fun i => (⟨i, (s.superblock.inode i).start_block,
          (s.superblock.inode i).size⟩ : FileInfo)))
        (post.map (fun i => (⟨i, (s.superblock.inode i).start_block,
          (s.superblock.inode i).size⟩ : FileInfo)))
        ⟨i, (s.superblock.inode i).start_block, (s.superblock.inode i).size⟩
        (by rw [hsplit, List.map_append, List.map_cons])
        (by rw [hsum]; show 1 + _ ≤ 255; omega)
      rw [hsum] at this
      exact this
    · intro j hj
      rw [hdisk _ (by omega)]
      have := d1
        (pre.map (fun i => (⟨i, (s.superblock.inode i).start_block,
          (s.superblock.inode i).size⟩ : FileInfo)))
        ⟨i, (s.superblock.inode i).start_block, (s.superblock.inode i).size⟩
        (post.map (fun i => (⟨i, (s.superblock.inode i).start_block,
          (s.superblock.inode i).size⟩ : FileInfo)))
        (by rw [hsplit, List.map_append, List.map_cons]) j hj
      rw [hsum] at this
      exact this
  · intro k hk
    rw [hdisk k (by omega)]
    exact d3 k (by rw [hsum]; exact hk)
  · intro pre i post hsplit hmoved k k1 k2 k3
    rw [hdisk k (by omega)]
    have := d4
      (pre.map (fun i => (⟨i, (s.superblock.inode i).start_block,
        (s.superblock.inode i).size⟩ : FileInfo)))
      ⟨i, (s.superblock.inode i).start_block, (s.superblock.inode i).size⟩
      (post.map (fun i => (⟨i, (s.superblock.inode i).start_block,
        (s.superblock.inode i).size⟩ : FileInfo)))
      (by rw [hsplit, List.map_append, List.map_cons])
      (by rw [hsum]; exact hmoved) k k1 k2 (by rw [hsum]; exact k3)
    exact this

/-- C11: when the files occupy pairwise disjoint ranges inside 1..127, after
`fs_defrag` the `j`-th block of every file, counted from its new
`start_block`, holds the bytes its `j`-th block held before, and every old
block of a file whose position changed that is not part of the new range of
some file is zero. -/
theorem C11_defrag_preserves_contents (s : State)
    (hbounds : ∀ i < NUM_INODES, (s.superblock.inode i).is_file = true →
      1 ≤ (s.superblock.inode i).start_block ∧
        (s.superblock.inode i).start_block + (s.superblock.inode i).size ≤ NUM_BLOCKS)
    (hdisj : ∀ i < NUM_INODES, ∀ j < NUM_INODES, i ≠ j →
      (s.superblock.inode i).is_file = true → (s.superblock.inode j).is_file = true →
      ∀ k, ¬ ((s.superblock.inode i).start_block ≤ k ∧
        k < (s.superblock.inode i).start_block + (s.superblock.inode i).size ∧
        (s.superblock.inode j).start_block ≤ k ∧
        k < (s.superblock.inode j).start_block + (s.superblock.inode j).size)) :
    (∀ i < NUM_INODES, (s.superblock.inode i).is_file = true →
      ∀ j < (s.superblock.inode i).size,
        (fs_defrag s).2.disk (((fs_defrag s).2.superblock.inode i).start_block + j) =
          s.disk ((s.superblock.inode i).start_block + j)) ∧
    (∀ i < NUM_INODES, (s.superblock.inode i).is_file = true →
      ((fs_defrag s).2.superblock.inode i).start_block ≠ (s.superblock.inode i).start_block →
      ∀ k, (s.superblock.inode i).start_block ≤ k →
        k < (s.superblock.inode i).start_block + (s.superblock.inode i).size →
        (¬ ∃ i' < NUM_INODES, ((fs_defrag s).2.superblock.inode i').is_file = true ∧
          ((fs_defrag s).2.superblock.inode i').start_block ≤ k ∧
          k < ((fs_defrag s).2.superblock.inode i').start_block +
            ((fs_defrag s).2.superblock.inode i').size) →
        (fs_defrag s).2.disk k = zero_block) := by
  by_cases hm : s.current_disk = none
  · rw [fs_defrag_unmounted s hm]
    exact ⟨fun _ _ _ _ _ => rfl, fun _ _ _ hne => absurd rfl hne⟩
  · obtain ⟨L, hL1, hL2, _, htotal, hpos, _, hzero⟩ := defrag_layout s hm hbounds hdisj
    constructor
    · intro i hi hf j hj
      obtain ⟨pre, post, hsplit⟩ := List.append_of_mem (hL2 i hi hf)
      obtain ⟨p1, p2⟩ := hpos pre i post hsplit
      rw [p1]
      exact p2 j hj
    · intro i hi hf hmoved k k1 k2 hnot
      obtain ⟨pre, post, hsplit⟩ := List.append_of_mem (hL2 i hi hf)
      obtain ⟨p1, _⟩ := hpos pre i post hsplit
      rw [p1] at hmoved
      apply hzero pre i post hsplit (fun e => hmoved e.symm) k k1 k2
      by_contra hlt
      have hk1 : 1 ≤ k := by
        have := (hbounds i hi hf).1
        omega
      obtain ⟨pre', i', post', hsplit', c1, c2⟩ :=
        positions_cover (fun j => (s.superblock.inode j).size) L 1 k hk1 (by omega)
      obtain ⟨q1, _⟩ := hpos pre' i' post' hsplit'
      have hi' : i' ∈ L := by rw [hsplit']; simp
      apply hnot
      refine ⟨i', (hL1 i' hi').1, ?_, ?_, ?_⟩
      · rw [(fs_defrag_fields s i').1]; exact (hL1 i' hi').2
      · rw [q1]; exact c1
      · rw [q1, (fs_defrag_fields s i').2]; exact c2

/-- Ranges that follow one another have no block in common. -/
theorem disjoint_of_ordered (sb : Superblock)
    (h : ∀ i < NUM_INODES, ∀ j < NUM_INODES, i ≠ j →
      (sb.inode i).is_file = true → (sb.inode j).is_file = true →
      (sb.inode i).start_block + (sb.inode i).size ≤ (sb.inode j).start_block ∨
        (sb.inode j).start_block + (sb.inode j).size ≤ (sb.inode i).start_block) :
    ∀ i < NUM_INODES, ∀ j < NUM_INODES, i ≠ j →
      (sb.inode i).is_file = true → (sb.inode j).is_file = true →
      ∀ k, ¬ ((sb.inode i).start_block ≤ k ∧
        k < (sb.inode i).start_block + (sb.inode i).size ∧
        (sb.inode j).start_block ≤ k ∧
        k < (sb.inode j).start_block + (sb.inode j).size) := by
  intro i hi j hj hne fi fj k hk
  have := h i hi j hj hne fi fj
  omega

set_option maxRecDepth 100000 in
/-- Witness for C11: in `written_state` the file `f` (block 3, holding the
byte 7) and the file `x` (blocks 4..6) are moved to blocks 1 and 2..4. -/
theorem C11_witness :
    written_state.disk 3 0 = 7 ∧
    ((fs_defrag written_state).2.superblock.inode 1).start_block = 1 ∧
    (fs_defrag written_state).2.disk
        (((fs_defrag written_state).2.superblock.inode 1).start_block + 0) =
      written_state.disk ((written_state.superblock.inode 1).start_block + 0) :=
  ⟨by decide, by decide,
    (C11_defrag_preserves_contents written_state (by decide)
      (disjoint_of_ordered written_state.superblock (fun i hi j hj hne fi fj => by
        have hfiles : ∀ i < NUM_INODES, (written_state.superblock.inode i).is_file = true →
            i = 0 ∨ i = 1 := by decide
        rcases hfiles i hi fi with rfl | rfl <;> rcases hfiles j hj fj with rfl | rfl
        · exact absurd rfl hne
        · right; decide
        · left; decide
        · exact absurd rfl hne))).1 1 (by decide) (by decide) 0 (by decide)⟩

theorem fs_defrag_disk (s : State) (hm : s.current_disk ≠ none) (k : Nat) (hk : 1 ≤ k) :
    (fs_defrag s).2.disk k =
      ((bubble_sort (collect_files s.superblock)).foldl defrag_step
        (s.superblock, s.disk, 1)).2.1 k := by
  unfold fs_defrag
  rw [isNone_eq_false_of_ne_none hm]
  simp only [Bool.false_eq_true, if_false]
  unfold write_block
  rw [if_neg (by omega)]

theorem fs_defrag_current_disk (s : State) :
    (fs_defrag s).2.current_disk = s.current_disk := by
  unfold fs_defrag
  split <;> rfl

/-- A run of the moving loop over files that already sit where the loop
would put them changes neither the superblock nor the image. -/
theorem defrag_fold_fixed (fs : List FileInfo) :
    ∀ (st : Superblock × Disk × Nat),
      (∀ pre x post, fs = pre ++ x :: post →
        x.start_block = st.2.2 + (pre.map FileInfo.size).sum) →
      (fs.foldl defrag_step st).1 = st.1 ∧ (fs.foldl defrag_step st).2.1 = st.2.1 := by
  induction fs with
  | nil => intro st _; exact ⟨rfl, rfl⟩
  | cons x t ih =>
    intro st h
    have hx : x.start_block = st.2.2 := by
      have := h [] x t rfl
      simpa using this
    have hstep : defrag_step st x = (st.1, st.2.1, st.2.2 + x.size) := by
      unfold defrag_step
      simp only [hx, ne_eq, not_true_eq_false, if_false]
    rw [List.foldl_cons, hstep]
    apply ih
    intro pre y post hsplit
    have := h (x :: pre) y post (by rw [hsplit]; rfl)
    rw [this]
    simp only [List.map_cons, List.sum_cons]
    omega

/-- Files of at least one block each that are packed one after another are
in strictly ascending order of position. -/
theorem pairwise_of_positions (sz pos : Nat → Nat) (L : List Nat) :
    ∀ nf : Nat,
      (∀ pre i post, L = pre ++ i :: post → pos i = nf + (pre.map sz).sum) →
      (∀ i ∈ L, 1 ≤ sz i) →
      L.Pairwise (fun i j => pos i < pos j) := by
  induction L with
  | nil => intro _ _ _; exact List.Pairwise.nil
  | cons x t ih =>
    intro nf hpos hsz
    refine List.Pairwise.cons ?_ ?_
    · intro y hy
      obtain ⟨pre, post, hsplit⟩ := List.append_of_mem hy
      have hx := hpos [] x t rfl
      have hy2 := hpos (x :: pre) y post (by rw [hsplit]; rfl)
      have := hsz x (List.mem_cons_self _ _)
      simp only [List.map_nil, List.sum_nil, List.map_cons, List.sum_cons] at hx hy2
      omega
    · apply ih (nf + sz x)
      · intro pre i post hsplit
        have := hpos (x :: pre) i post (by rw [hsplit]; rfl)
        simp only [List.map_cons, List.sum_cons] at this
        omega
      · intro i hi
        exact hsz i (List.mem_cons_of_mem _ hi)

/-- In a mounted session whose files, of at least one block each, are already
packed from block 1 in the order of the list `L`, `fs_defrag` changes neither
the inode table nor any data block. -/
theorem fs_defrag_packed (s : State) (hm : s.current_disk ≠ none) (L : List Nat)
    (hL1 : ∀ i ∈ L, i < NUM_INODES ∧ (s.superblock.inode i).is_file = true)
    (hL2 : ∀ i < NUM_INODES, (s.superblock.inode i).is_file = true → i ∈ L)
    (hpos : ∀ pre i post, L = pre ++ i :: post →
      (s.superblock.inode i).start_block =
        1 + (pre.map (fun j => (s.superblock.inode j).size)).sum)
    (hsz : ∀ i ∈ L, 1 ≤ (s.superblock.inode i).size) :
    (fs_defrag s).2.superblock.inode = s.superblock.inode ∧
      ∀ k, 1 ≤ k → (fs_defrag s).2.disk k = s.disk k := by
  have hsorted : L.Pairwise (fun i j =>
      (s.superblock.inode i).start_block < (s.superblock.inode j).start_block ∨
        ((s.superblock.inode i).start_block = (s.superblock.inode j).start_block ∧ i < j)) :=
    (pairwise_of_positions (fun j => (s.superblock.inode j).size)
      (fun j => (s.superblock.inode j).start_block) L 1 hpos hsz).imp Or.inl
  have hsort_eq := bubble_sort_collect_eq s.superblock L hL1 hL2 hsorted
  have hfix := defrag_fold_fixed
    (L.map (fun i => (⟨i, (s.superblock.inode i).start_block,
      (s.superblock.inode i).size⟩ : FileInfo)))
    (s.superblock, s.disk, 1)
    (by
      intro pre x post hsplit
      obtain ⟨l1, l2, hl, h1, h2⟩ := List.map_eq_append_iff.mp hsplit
      obtain ⟨i, l3, hl2, hi, h3⟩ := List.map_eq_cons_iff.mp h2
      subst hl2 hl
      rw [← hi, ← h1, List.map_map]
      exact hpos l1 i l3 rfl)
  constructor
  · rw [(fs_defrag_inode s hm).2, hsort_eq, hfix.1]
  · intro k hk
    rw [fs_defrag_disk s hm k hk, hsort_eq, hfix.2]

/-- C12, for files of at least one block each: when the files occupy pairwise
disjoint ranges inside 1..127 and none of them is empty, a second `fs_defrag`
leaves every inode record, every bit of the bitmap and every data block as the
first one left them. -/
theorem C12_second_defrag_changes_nothing (s : State)
    (hbounds : ∀ i < NUM_INODES, (s.superblock.inode i).is_file = true →
      1 ≤ (s.superblock.inode i).start_block ∧
        (s.superblock.inode i).start_block + (s.superblock.inode i).size ≤ NUM_BLOCKS)
    (hdisj : ∀ i < NUM_INODES, ∀ j < NUM_INODES, i ≠ j →
      (s.superblock.inode i).is_file = true → (s.superblock.inode j).is_file = true →
      ∀ k, ¬ ((s.superblock.inode i).start_block ≤ k ∧
        k < (s.superblock.inode i).start_block + (s.superblock.inode i).size ∧
        (s.superblock.inode j).start_block ≤ k ∧
        k < (s.superblock.inode j).start_block + (s.superblock.inode j).size))
    (hsize : ∀ i < NUM_INODES, (s.superblock.inode i).is_file = true →
      1 ≤ (s.superblock.inode i).size) :
    (∀ i, (fs_defrag (fs_defrag s).2).2.superblock.inode i =
      (fs_defrag s).2.superblock.inode i) ∧
    (∀ b < NUM_BLOCKS, (fs_defrag (fs_defrag s).2).2.superblock.bit b =
      (fs_defrag s).2.superblock.bit b) ∧
    (∀ k, 1 ≤ k → (fs_defrag (fs_defrag s).2).2.disk k = (fs_defrag s).2.disk k) := by
  by_cases hm : s.current_disk = none
  · rw [fs_defrag_unmounted s hm]
    show (∀ i, (fs_defrag s).2.superblock.inode i = _) ∧
      (∀ b < NUM_BLOCKS, (fs_defrag s).2.superblock.bit b = _) ∧
      (∀ k, 1 ≤ k → (fs_defrag s).2.disk k = _)
    rw [fs_defrag_unmounted s hm]
    exact ⟨fun _ => rfl, fun _ _ => rfl, fun _ _ => rfl⟩
  · obtain ⟨L, hL1, hL2, _, _, hpos, _, _⟩ := defrag_layout s hm hbounds hdisj
    have hm1 : (fs_defrag s).2.current_disk ≠ none := by
      rw [fs_defrag_current_disk]; exact hm
    have hsz : (fun j => ((fs_defrag s).2.superblock.inode j).size) =
        (fun j => (s.superblock.inode j).size) :=
      funext (fun j => (fs_defrag_fields s j).2)
    obtain ⟨hino, hdisk⟩ := fs_defrag_packed (fs_defrag s).2 hm1 L
      (fun i hi => ⟨(hL1 i hi).1, by rw [(fs_defrag_fields s i).1]; exact (hL1 i hi).2⟩)
      (fun i hi hf => hL2 i hi (by rw [← (fs_defrag_fields s i).1]; exact hf))
      (fun pre i post hsplit => by rw [hsz]; exact (hpos pre i post hsplit).1)
      (fun i hi => by
        rw [(fs_defrag_fields s i).2]
        exact hsize i (hL1 i hi).1 (hL1 i hi).2)
    refine ⟨fun i => by rw [hino], ?_, hdisk⟩
    intro b hb
    rw [Bool.eq_iff_iff, fs_defrag_bit_table _ hm1 b hb, fs_defrag_bit_table s hm b hb, hino]
    constructor
    · rintro (h | ⟨i, hi, hfi, h1, h2⟩)
      · exact Or.inl h
      · rw [(fs_defrag_fields s i).1] at hfi
        rw [(fs_defrag_fields s i).2] at h2
        exact Or.inr ⟨i, hi, hfi, h1, h2⟩
    · rintro (h | ⟨i, hi, hfi, h1, h2⟩)
      · exact Or.inl h
      · refine Or.inr ⟨i, hi, ?_, h1, ?_⟩
        · rw [(fs_defrag_fields s i).1]; exact hfi
        · rw [(fs_defrag_fields s i).2]; exact h2

set_option maxRecDepth 100000 in
/-- Witness for C12: in `unordered_state` the file `x` (blocks 4..6) has three
blocks and the file `f` (block 3) has one; the first `fs_defrag` moves both,
and a second one leaves the records, the bitmap and the data blocks as the
first one left them. -/
theorem C12_witness :
    (unordered_state.superblock.inode 0).size = 3 ∧
    (unordered_state.superblock.inode 1).size = 1 ∧
    ((fs_defrag unordered_state).2.superblock.inode 0).start_block = 2 ∧
    ((∀ i, (fs_defrag (fs_defrag unordered_state).2).2.superblock.inode i =
      (fs_defrag unordered_state).2.superblock.inode i) ∧
    (∀ b < NUM_BLOCKS, (fs_defrag (fs_defrag unordered_state).2).2.superblock.bit b =
      (fs_defrag unordered_state).2.superblock.bit b) ∧
    (∀ k, 1 ≤ k → (fs_defrag (fs_defrag unordered_state).2).2.disk k =
      (fs_defrag unordered_state).2.disk k)) :=
  have hfiles : ∀ i < NUM_INODES, (unordered_state.superblock.inode i).is_file = true →
      i = 0 ∨ i = 1 := by decide
  ⟨by decide, by decide, by decide,
    C12_second_defrag_changes_nothing unordered_state (by decide)
      (disjoint_of_ordered unordered_state.superblock (fun i hi j hj hne fi fj => by
        rcases hfiles i hi fi with rfl | rfl <;> rcases hfiles j hj fj with rfl | rfl
        · exact absurd rfl hne
        · right; decide
        · left; decide
        · exact absurd rfl hne))
      (by decide)⟩

set_option maxRecDepth 100000 in
/-- C12 fails as stated: `empty_file_image` passes `check_consistency` and is
mounted; its files are `a` in blocks 5..7 and `f` with no block at all, so
their ranges are disjoint and inside 1..127.  The first `fs_defrag` puts both
at block 1; the second one then takes `a` first, because it comes first in
the table, and moves the record of `f` to block 4. -/
theorem C12_counterexample :
    check_consistency empty_file_superblock = 0 ∧
    (fs_mount empty_state "disk1" (some empty_file_image)).1 = Outcome.ok ∧
    empty_file_state.current_disk = some "disk1" ∧
    (∀ i < NUM_INODES, (empty_file_state.superblock.inode i).is_file = true →
      1 ≤ (empty_file_state.superblock.inode i).start_block ∧
        (empty_file_state.superblock.inode i).start_block +
          (empty_file_state.superblock.inode i).size ≤ NUM_BLOCKS) ∧
    (∀ i < NUM_INODES, (empty_file_state.superblock.inode i).is_file = true ↔
      (i = 1 ∨ i = 2)) ∧
    (empty_file_state.superblock.inode 2).start_block +
        (empty_file_state.superblock.inode 2).size ≤
      (empty_file_state.superblock.inode 1).start_block ∧
    ((fs_defrag empty_file_state).2.superblock.inode 2).start_block = 1 ∧
    ((fs_defrag (fs_defrag empty_file_state).2).2.superblock.inode 2).start_block = 4 := by
  refine ⟨by decide, by decide, by decide, by decide, by decide, by decide, by decide, by decide⟩

theorem write_block_other (d : Disk) (b : Nat) (data : Block) (k : Nat) (h : k ≠ b) :
    write_block d b data k = d k := by
  unfold write_block
  rw [if_neg h]

/-- `fs_create` writes no data block. -/
theorem fs_create_disk (s : State) (name : Name) (size k : Nat) (hk : 1 ≤ k) :
    (fs_create s name size).2.disk k = s.disk k := by
  unfold fs_create
  split
  · rfl
  · split
    · rfl
    · split
      · rfl
      · split
        · rfl
        · exact write_block_other _ _ _ _ (by omega)

/-- `fs_create` clears no bit of the bitmap. -/
theorem fs_create_bit (s : State) (name : Name) (size k : Nat)
    (h : s.superblock.bit k = true) : (fs_create s name size).2.superblock.bit k = true := by
  unfold fs_create
  split
  · exact h
  · split
    · exact h
    · split
      · exact h
      · split
        · exact h
        · rename_i start_block _
          show (if size > 0 then mark_blocks _ (start_block : Int) size true else _).bit k = true
          split
          · rw [mark_blocks_bit_nat]
            split
            · split <;> rfl
            · exact h
          · exact h

/-- `fs_write` changes no bit of the bitmap, and the only data block it
writes has its bit set. -/
theorem fs_write_free (s : State) (name : Name) (block_num k : Nat) (hk : 1 ≤ k)
    (hbit : s.superblock.bit k = false) :
    (fs_write s name block_num).2.superblock = s.superblock ∧
      (fs_write s name block_num).2.disk k = s.disk k := by
  unfold fs_write
  split
  · exact ⟨rfl, rfl⟩
  · split
    · exact ⟨rfl, rfl⟩
    · split
      · exact ⟨rfl, rfl⟩
      · split
        · exact ⟨rfl, rfl⟩
        · rename_i idx _ _ _
          by_cases hset : (!s.superblock.bit ((s.superblock.inode idx).start_block + block_num))
              = true
          · simp only [hset, if_true, and_self]
          · have hne : k ≠ (s.superblock.inode idx).start_block + block_num := by
              intro e
              rw [← e, hbit] at hset
              exact hset rfl
            simp only [hset, Bool.false_eq_true, if_false, true_and]
            rw [write_block_other _ _ _ _ hne, write_block_other _ _ _ _ (by omega)]

/-- `fs_delete` of a name that does not resolve to a directory returns, and
keeps the free data blocks zero. -/
theorem fs_delete_free_zero (fuel : Nat) (s : State) (name : Name)
    (hzero : ∀ k, 1 ≤ k → k < NUM_BLOCKS → s.superblock.bit k = false →
      s.disk k = zero_block)
    (hfile : ∀ idx, get_file_inode s.superblock name s.current_dir_inode = some idx →
      (s.superblock.inode idx).is_dir = false) :
    ∃ r, fs_delete (fuel + 1) s name = some r ∧
      ∀ k, 1 ≤ k → k < NUM_BLOCKS → r.2.superblock.bit k = false →
        r.2.disk k = zero_block := by
  by_cases hm : s.current_disk = none
  · refine ⟨(Outcome.not_mounted, s), ?_, hzero⟩
    simp only [fs_delete, hm, Option.isNone_none, if_true]
  · cases hres : get_file_inode s.superblock name s.current_dir_inode with
    | none =>
      refine ⟨(Outcome.does_not_exist, s), ?_, hzero⟩
      simp only [fs_delete, isNone_eq_false_of_ne_none hm, hres, Bool.false_eq_true, if_false]
    | some idx =>
      refine ⟨_, fs_delete_file fuel s name idx hm hres (hfile idx hres), ?_⟩
      intro k hk1 hk2 hbit
      show write_block (zero_blocks s.disk _ _) 0 _ k = zero_block
      rw [write_block_other _ _ _ _ (by omega), zero_blocks_apply]
      have hbit2 : (mark_blocks s.superblock ((s.superblock.inode idx).start_block : Nat)
          (s.superblock.inode idx).size false).bit k = false := hbit
      rw [mark_blocks_bit_nat] at hbit2
      split
      · rfl
      · rename_i hout
        rw [if_neg (fun h => hout ⟨h.1, h.2.1⟩)] at hbit2
        exact hzero k hk1 hk2 hbit2

/-- The copy loop of the relocation writes only destination blocks. -/
theorem copy_blocks_outside (d : Disk) (a b n k : Nat) (h : k < b ∨ b + n ≤ k) :
    copy_blocks d a b n k = d k := by
  induction n with
  | zero => rfl
  | succ n ih =>
    rw [copy_blocks_succ, write_block_other _ _ _ _ (by omega)]
    exact ih (by omega)

theorem resize_finish_disk (s : State) (idx n : Nat) (sb : Superblock) (d : Disk) (k : Nat)
    (hk : 1 ≤ k) : (resize_finish s idx n sb d).2.disk k = d k :=
  write_block_other _ _ _ _ (by omega)

/-- `fs_resize` keeps the free data blocks zero, on every path. -/
theorem fs_resize_free_zero (s : State) (name : Name) (n : Nat)
    (hzero : ∀ k, 1 ≤ k → k < NUM_BLOCKS → s.superblock.bit k = false →
      s.disk k = zero_block) :
    ∀ k, 1 ≤ k → k < NUM_BLOCKS → (fs_resize s name n).2.superblock.bit k = false →
      (fs_resize s name n).2.disk k = zero_block := by
  by_cases hm : s.current_disk = none
  · have : fs_resize s name n = (Outcome.not_mounted, s) := by
      simp only [fs_resize, hm, Option.isNone_none, if_true]
    rw [this]; exact hzero
  cases hres : get_file_inode s.superblock name s.current_dir_inode with
  | none =>
    have : fs_resize s name n = (Outcome.does_not_exist, s) := by
      simp only [fs_resize, isNone_eq_false_of_ne_none hm, hres, Bool.false_eq_true, if_false]
    rw [this]; exact hzero
  | some idx =>
    cases hdir : (s.superblock.inode idx).is_dir with
    | true =>
      have : fs_resize s name n = (Outcome.does_not_exist, s) := by
        simp only [fs_resize, isNone_eq_false_of_ne_none hm, hres, hdir, Bool.false_eq_true,
          if_false, if_true]
      rw [this]; exact hzero
    | false =>
      rcases Nat.lt_trichotomy (s.superblock.inode idx).size n with hn | hn | hn
      · cases hc : can_expand s.superblock (s.superblock.inode idx).start_block
            (s.superblock.inode idx).size n with
        | true =>
          rw [fs_resize_grow_in_place s name n idx hm hres hdir hn hc]
          intro k hk1 hk2 hbit
          rw [resize_finish_disk _ _ _ _ _ _ hk1]
          have hbit2 : (mark_blocks s.superblock
              (((s.superblock.inode idx).start_block + (s.superblock.inode idx).size : Nat) : Int)
              (n - (s.superblock.inode idx).size) true).bit k = false := hbit
          rw [mark_blocks_bit_nat] at hbit2
          split at hbit2
          · split at hbit2 <;> exact absurd hbit2 (by decide)
          · exact hzero k hk1 hk2 hbit2
        | false =>
          cases hf : find_contiguous_blocks s.superblock n with
          | none =>
            rw [fs_resize_no_space s name n idx hm hres hdir hn hc hf]
            exact hzero
          | some b =>
            rw [fs_resize_relocate s name n idx b hm hres hdir hn hc hf]
            intro k hk1 hk2 hbit
            rw [resize_finish_disk _ _ _ _ _ _ hk1, zero_blocks_apply]
            have hbit2 : (mark_blocks
                (mark_blocks s.superblock ((s.superblock.inode idx).start_block : Nat)
                  (s.superblock.inode idx).size false) (b : Nat) n true).bit k = false := hbit
            rw [mark_blocks_bit_nat] at hbit2
            split at hbit2
            · split at hbit2 <;> exact absurd hbit2 (by decide)
            · rename_i hout
              rw [mark_blocks_bit_nat] at hbit2
              split
              · rfl
              · rename_i hout2
                rw [if_neg (fun h => hout2 ⟨h.1, h.2.1⟩)] at hbit2
                rw [copy_blocks_outside _ _ _ _ _ (by
                  by_cases h1 : k < b
                  · exact Or.inl h1
                  · right
                    by_contra h2
                    exact hout ⟨by omega, by omega, hk2⟩)]
                exact hzero k hk1 hk2 hbit2
      · rw [fs_resize_same s name n idx hm hres hdir hn.symm]
        intro k hk1 hk2 hbit
        rw [resize_finish_disk _ _ _ _ _ _ hk1]
        exact hzero k hk1 hk2 hbit
      · rw [fs_resize_shrink s name n idx hm hres hdir hn]
        intro k hk1 hk2 hbit
        rw [resize_finish_disk _ _ _ _ _ _ hk1, zero_blocks_apply]
        have hbit2 : (mark_blocks s.superblock
            (((s.superblock.inode idx).start_block + n : Nat) : Int)
            ((s.superblock.inode idx).size - n) false).bit k = false := hbit
        rw [mark_blocks_bit_nat] at hbit2
        split
        · rfl
        · rename_i hout
          rw [if_neg (fun h => hout ⟨h.1, h.2.1⟩)] at hbit2
          exact hzero k hk1 hk2 hbit2

/-- `fs_defrag` keeps the free data blocks zero when the files are in bounds
and pairwise disjoint and every block marked used belongs to a file. -/
theorem fs_defrag_free_zero (s : State)
    (hbounds : ∀ i < NUM_INODES, (s.superblock.inode i).is_file = true →
      1 ≤ (s.superblock.inode i).start_block ∧
        (s.superblock.inode i).start_block + (s.superblock.inode i).size ≤ NUM_BLOCKS)
    (hdisj : ∀ i < NUM_INODES, ∀ j < NUM_INODES, i ≠ j →
      (s.superblock.inode i).is_file = true → (s.superblock.inode j).is_file = true →
      ∀ k, ¬ ((s.superblock.inode i).start_block ≤ k ∧
        k < (s.superblock.inode i).start_block + (s.superblock.inode i).size ∧
        (s.superblock.inode j).start_block ≤ k ∧
        k < (s.superblock.inode j).start_block + (s.superblock.inode j).size))
    (hbitmap : ∀ b < NUM_BLOCKS, s.superblock.bit b = true →
      b = 0 ∨ ∃ i < NUM_INODES, (s.superblock.inode i).is_file = true ∧
        (s.superblock.inode i).start_block ≤ b ∧
        b < (s.superblock.inode i).start_block + (s.superblock.inode i).size)
    (hzero : ∀ k, 1 ≤ k → k < NUM_BLOCKS → s.superblock.bit k = false →
      s.disk k = zero_block) :
    ∀ k, 1 ≤ k → k < NUM_BLOCKS → (fs_defrag s).2.superblock.bit k = false →
      (fs_defrag s).2.disk k = zero_block := by
  by_cases hm : s.current_disk = none
  · rw [fs_defrag_unmounted s hm]
    exact hzero
  intro k hk1 hk2 hbit
  obtain ⟨L, hL1, hL2, _, _, hpos, hrest, hmoved⟩ := defrag_layout s hm hbounds hdisj
  -- a free block lies after the packed files
  have hafter : 1 + (L.map (fun j => (s.superblock.inode j).size)).sum ≤ k := by
    by_contra hlt
    obtain ⟨pre, i, post, hsplit, c1, c2⟩ :=
      positions_cover (fun j => (s.superblock.inode j).size) L 1 k hk1 (by omega)
    have hi : i ∈ L := by rw [hsplit]; simp
    have hset : (fs_defrag s).2.superblock.bit k = true := by
      rw [fs_defrag_bit_table s hm k hk2]
      refine Or.inr ⟨i, (hL1 i hi).1, (hL1 i hi).2, ?_, ?_⟩
      · rw [(hpos pre i post hsplit).1]; exact c1
      · rw [(hpos pre i post hsplit).1]; exact c2
    rw [hbit] at hset
    exact absurd hset (by decide)
  rcases hrest k hafter with hsame | hz
  · cases hold : s.superblock.bit k with
    | false =>
      rw [hsame]
      exact hzero k hk1 hk2 hold
    | true =>
      rcases hbitmap k hk2 hold with h0 | ⟨i, hi, hfi, h1, h2⟩
      · omega
      · obtain ⟨pre, post, hsplit⟩ := List.append_of_mem (hL2 i hi hfi)
        by_cases hstay : (s.superblock.inode i).start_block =
            1 + (pre.map (fun j => (s.superblock.inode j).size)).sum
        · exfalso
          have : (L.map (fun j => (s.superblock.inode j).size)).sum =
              (pre.map (fun j => (s.superblock.inode j).size)).sum +
                ((s.superblock.inode i).size +
                  (post.map (fun j => (s.superblock.inode j).size)).sum) := by
            rw [hsplit, List.map_append, List.sum_append, List.map_cons, List.sum_cons]
          omega
        · exact hmoved pre i post hsplit hstay k h1 h2 hafter
  · exact hz

/-- `fs_create` keeps the free data blocks zero. -/
theorem fs_create_free_zero (s : State) (name : Name) (size : Nat)
    (hzero : ∀ k, 1 ≤ k → k < NUM_BLOCKS → s.superblock.bit k = false →
      s.disk k = zero_block) :
    ∀ k, 1 ≤ k → k < NUM_BLOCKS → (fs_create s name size).2.superblock.bit k = false →
      (fs_create s name size).2.disk k = zero_block := by
  intro k hk1 hk2 hbit
  rw [fs_create_disk s name size k hk1]
  apply hzero k hk1 hk2
  cases hold : s.superblock.bit k with
  | false => rfl
  | true =>
    rw [fs_create_bit s name size k hold] at hbit
    exact absurd hbit (by decide)

/-- `fs_write` keeps the free data blocks zero. -/
theorem fs_write_free_zero (s : State) (name : Name) (block_num : Nat)
    (hzero : ∀ k, 1 ≤ k → k < NUM_BLOCKS → s.superblock.bit k = false →
      s.disk k = zero_block) :
    ∀ k, 1 ≤ k → k < NUM_BLOCKS → (fs_write s name block_num).2.superblock.bit k = false →
      (fs_write s name block_num).2.disk k = zero_block := by
  intro k hk1 hk2 hbit
  cases hold : s.superblock.bit k with
  | false =>
    rw [(fs_write_free s name block_num k hk1 hold).2]
    exact hzero k hk1 hk2 hold
  | true =>
    have hsb : (fs_write s name block_num).2.superblock = s.superblock := by
      unfold fs_write
      split
      · rfl
      · split
        · rfl
        · split
          · rfl
          · split
            · rfl
            · simp only []
              split <;> rfl
    rw [hsb, hold] at hbit
    exact absurd hbit (by decide)

/-- C20: in a state where the files are in bounds and pairwise disjoint, the
bitmap marks exactly block 0 and the blocks of the files, and every data
block in 1..127 that is marked free is all zero bytes, every data block in
1..127 that is marked free after `fs_create`, after `fs_delete` of a file
(which returns), after `fs_write`, after `fs_resize` or after `fs_defrag` is
all zero bytes. -/
theorem C20_free_blocks_stay_zero (s : State)
    (hbounds : ∀ i < NUM_INODES, (s.superblock.inode i).is_file = true →
      1 ≤ (s.superblock.inode i).start_block ∧
        (s.superblock.inode i).start_block + (s.superblock.inode i).size ≤ NUM_BLOCKS)
    (hdisj : ∀ i < NUM_INODES, ∀ j < NUM_INODES, i ≠ j →
      (s.superblock.inode i).is_file = true → (s.superblock.inode j).is_file = true →
      ∀ k, ¬ ((s.superblock.inode i).start_block ≤ k ∧
        k < (s.superblock.inode i).start_block + (s.superblock.inode i).size ∧
        (s.superblock.inode j).start_block ≤ k ∧
        k < (s.superblock.inode j).start_block + (s.superblock.inode j).size))
    (hbitmap : ∀ b < NUM_BLOCKS, s.superblock.bit b = true ↔
      b = 0 ∨ ∃ i < NUM_INODES, (s.superblock.inode i).is_file = true ∧
        (s.superblock.inode i).start_block ≤ b ∧
        b < (s.superblock.inode i).start_block + (s.superblock.inode i).size)
    (hzero : ∀ k, 1 ≤ k → k < NUM_BLOCKS → s.superblock.bit k = false →
      s.disk k = zero_block) :
    (∀ name size k, 1 ≤ k → k < NUM_BLOCKS →
      (fs_create s name size).2.superblock.bit k = false →
      (fs_create s name size).2.disk k = zero_block) ∧
    (∀ fuel name idx,
      get_file_inode s.superblock name s.current_dir_inode = some idx →
      (s.superblock.inode idx).is_dir = false →
      ∃ r, fs_delete (fuel + 1) s name = some r ∧
        ∀ k, 1 ≤ k → k < NUM_BLOCKS → r.2.superblock.bit k = false →
          r.2.disk k = zero_block) ∧
    (∀ name block_num k, 1 ≤ k → k < NUM_BLOCKS →
      (fs_write s name block_num).2.superblock.bit k = false →
      (fs_write s name block_num).2.disk k = zero_block) ∧
    (∀ name n k, 1 ≤ k → k < NUM_BLOCKS →
      (fs_resize s name n).2.superblock.bit k = false →
      (fs_resize s name n).2.disk k = zero_block) ∧
    (∀ k, 1 ≤ k → k < NUM_BLOCKS →
      (fs_defrag s).2.superblock.bit k = false →
      (fs_defrag s).2.disk k = zero_block) := by
  refine ⟨?_, ?_, ?_, ?_, ?_⟩
  · intro name size
    exact fs_create_free_zero s name size hzero
  · intro fuel name idx hres hfile
    apply fs_delete_free_zero fuel s name hzero
    intro idx2 hres2
    rw [hres] at hres2
    rw [← Option.some.inj hres2]
    exact hfile
  · intro name block_num
    exact fs_write_free_zero s name block_num hzero
  · intro name n
    exact fs_resize_free_zero s name n hzero
  · exact fs_defrag_free_zero s hbounds hdisj (fun b hb h => (hbitmap b hb).mp h) hzero

/-- In `written_state` every free data block is zero: the sessions it is made
from start from the empty image and every command keeps the free blocks zero. -/
theorem written_state_free_zero :
    ∀ k, 1 ≤ k → k < NUM_BLOCKS → written_state.superblock.bit k = false →
      written_state.disk k = zero_block := by
  have h0 : ∀ k, 1 ≤ k → k < NUM_BLOCKS → empty_state.superblock.bit k = false →
      empty_state.disk k = zero_block := by
    intro k hk _ _
    show (if k = 0 then _ else zero_block) = zero_block
    rw [if_neg (by omega)]
  have h1 := fs_create_free_zero empty_state name_a 2 h0
  have h2 := fs_create_free_zero _ name_f 1 h1
  obtain ⟨r, hr, h3⟩ := fs_delete_free_zero 0 _ name_a h2 (by
    intro idx h
    have hres : get_file_inode (fs_create (fs_create empty_state name_a 2).2 name_f 1).2.superblock
        name_a (fs_create (fs_create empty_state name_a 2).2 name_f 1).2.current_dir_inode
        = some 0 := by decide
    rw [hres] at h
    rw [← Option.some.inj h]
    decide)
  have h4 := fs_create_free_zero r.2 name_x 3 h3
  have hu : unordered_state = (fs_create r.2 name_x 3).2 := by
    unfold unordered_state
    simp only [hr]
  rw [← hu] at h4
  exact fs_write_free_zero
    { unordered_state with buffer := fun off => if off = 0 then 7 else 0 } name_f 0 h4

set_option maxRecDepth 100000 in
/-- Witness for C20: `written_state` holds the file `x` in blocks 4..6 and
the file `f` in block 3, whose first byte is 7; its bitmap marks the blocks
0 and 3..6 and its other blocks are zero.  Deleting `f` returns and leaves
the free blocks zero, and after `fs_defrag` block 5 is free and zero. -/
theorem C20_witness :
    written_state.disk 3 0 = 7 ∧
    (∃ r, fs_delete 1 written_state name_f = some r ∧
      ∀ k, 1 ≤ k → k < NUM_BLOCKS → r.2.superblock.bit k = false →
        r.2.disk k = zero_block) ∧
    (fs_defrag written_state).2.superblock.bit 5 = false ∧
    (fs_defrag written_state).2.disk 5 = zero_block :=
  have hfiles : ∀ i < NUM_INODES, (written_state.superblock.inode i).is_file = true →
      i = 0 ∨ i = 1 := by decide
  have h := C20_free_blocks_stay_zero written_state (by decide)
    (disjoint_of_ordered written_state.superblock (fun i hi j hj hne fi fj => by
      rcases hfiles i hi fi with rfl | rfl <;> rcases hfiles j hj fj with rfl | rfl
      · exact absurd rfl hne
      · right; decide
      · left; decide
      · exact absurd rfl hne))
    (by decide)
    written_state_free_zero
  ⟨by decide, h.2.1 0 name_f 1 (by decide) (by decide), by decide,
    h.2.2.2.2 5 (by decide) (by decide) (by decide)⟩

/-- The effect of `fs_write` on a block of a file whose bit is set. -/
theorem fs_write_ok (s : State) (name : Name) (idx k : Nat)
    (hm : s.current_disk ≠ none)
    (hres : get_file_inode s.superblock name s.current_dir_inode = some idx)
    (hfile : (s.superblock.inode idx).is_dir = false)
    (hk : k < (s.superblock.inode idx).size)
    (hbit : s.superblock.bit ((s.superblock.inode idx).start_block + k) = true) :
    fs_write s name k =
      (Outcome.ok,
        { s with
          disk :=
            write_block (write_block s.disk 0 s.superblock.toBlock)
              ((s.superblock.inode idx).start_block + k) s.buffer }) := by
  simp only [fs_write, isNone_eq_false_of_ne_none hm, hres, hfile, Bool.false_eq_true, if_false,
    ge_iff_le, Nat.not_le.mpr hk, hbit, Bool.not_true]

/-- The effect of `fs_read` on a block of a file. -/
theorem fs_read_ok (s : State) (name : Name) (idx k : Nat)
    (hm : s.current_disk ≠ none)
    (hres : get_file_inode s.superblock name s.current_dir_inode = some idx)
    (hfile : (s.superblock.inode idx).is_dir = false)
    (hk : k < (s.superblock.inode idx).size) :
    fs_read s name k =
      (Outcome.ok,
        { s with
          buffer := read_block s.disk ((s.superblock.inode idx).start_block + k) }) := by
  simp only [fs_read, isNone_eq_false_of_ne_none hm, hres, hfile, Bool.false_eq_true, if_false,
    ge_iff_le, Nat.not_le.mpr hk]

/-- C21: in a mounted session, for a file of the current directory whose
blocks are marked used and a block index `k` below its size, `fs_write`
reports no error, stores the transfer buffer in block `start_block + k`,
changes no other data block, leaves the superblock (bitmap and records) and
the buffer as they were, and a following `fs_read` of the same block, whatever
the buffer holds by then, leaves the buffer equal to what was written; for
`k` at or above the size both operations report that the block does not exist
and change nothing. -/
theorem C21_write_then_read (s : State) (name : Name) (idx : Nat)
    (hm : s.current_disk ≠ none)
    (hres : get_file_inode s.superblock name s.current_dir_inode = some idx)
    (hfile : (s.superblock.inode idx).is_dir = false)
    (hused : ∀ j < (s.superblock.inode idx).size,
      (s.superblock.inode idx).start_block + j < NUM_BLOCKS ∧
        s.superblock.bit ((s.superblock.inode idx).start_block + j) = true) :
    (∀ k < (s.superblock.inode idx).size,
      (fs_write s name k).1 = Outcome.ok ∧
      (fs_write s name k).2.disk ((s.superblock.inode idx).start_block + k) = s.buffer ∧
      (∀ b, 1 ≤ b → b ≠ (s.superblock.inode idx).start_block + k →
        (fs_write s name k).2.disk b = s.disk b) ∧
      (fs_write s name k).2.superblock = s.superblock ∧
      (fs_write s name k).2.buffer = s.buffer ∧
      ∀ other : Block,
        (fs_read { (fs_write s name k).2 with buffer := other } name k).1 = Outcome.ok ∧
        (fs_read { (fs_write s name k).2 with buffer := other } name k).2.buffer = s.buffer) ∧
    (∀ k, (s.superblock.inode idx).size ≤ k →
      fs_write s name k = (Outcome.no_such_block, s) ∧
      fs_read s name k = (Outcome.no_such_block, s)) := by
  constructor
  · intro k hk
    rw [fs_write_ok s name idx k hm hres hfile hk (hused k hk).2]
    refine ⟨rfl, ?_, ?_, rfl, rfl, ?_⟩
    · simp only [write_block, ↓reduceIte]
    · intro b hb hne
      show write_block (write_block s.disk 0 _) _ s.buffer b = s.disk b
      rw [write_block_other _ _ _ _ hne, write_block_other _ _ _ _ (by omega)]
    · intro other
      have hr := fs_read_ok
        { s with
          buffer := other
          disk :=
            write_block (write_block s.disk 0 s.superblock.toBlock)
              ((s.superblock.inode idx).start_block + k) s.buffer }
        name idx k hm hres hfile hk
      refine ⟨congrArg Prod.fst hr, ?_⟩
      refine (congrArg (fun r => r.2.buffer) hr).trans ?_
      simp only [read_block, write_block, ↓reduceIte]
  · intro k hk
    constructor
    · simp only [fs_write, isNone_eq_false_of_ne_none hm, hres, hfile, Bool.false_eq_true,
        if_false, ge_iff_le, hk, if_true]
    · simp only [fs_read, isNone_eq_false_of_ne_none hm, hres, hfile, Bool.false_eq_true,
        if_false, ge_iff_le, hk, if_true]

set_option maxRecDepth 100000 in
/-- Witness for C21: in `buffer_state` the file `f` occupies the blocks 1..3
and the buffer starts with the byte 7; writing block 1 of `f` puts the buffer
in block 2 and leaves block 3 alone, reading it back restores the buffer, and
block 3 of `f` does not exist. -/
theorem C21_witness :
    get_file_inode buffer_state.superblock name_f buffer_state.current_dir_inode = some 0 ∧
    buffer_state.superblock.inode 0 = ⟨name_f, 0x83, 1, 0⟩ ∧
    buffer_state.buffer 0 = 7 ∧
    (fs_write buffer_state name_f 1).2.disk 2 = buffer_state.buffer ∧
    (fs_write buffer_state name_f 1).2.disk 3 = buffer_state.disk 3 ∧
    (fs_read { (fs_write buffer_state name_f 1).2 with buffer := zero_block } name_f 1).2.buffer
      = buffer_state.buffer ∧
    fs_write buffer_state name_f 3 = (Outcome.no_such_block, buffer_state) :=
  have h := C21_write_then_read buffer_state name_f 0 (by decide) (by decide) (by decide)
    (by decide)
  ⟨by decide, by decide, by decide, (h.1 1 (by decide)).2.1,
    (h.1 1 (by decide)).2.2.1 3 (by decide) (by decide),
    ((h.1 1 (by decide)).2.2.2.2.2 zero_block).2, (h.2 3 (by decide)).1⟩

/-- What `get_file_inode` returns: the first record in table order that is in
use, has the given parent index and has the given five name bytes. -/
theorem get_file_inode_eq_some_iff (sb : Superblock) (name : Name) (p d : Nat) :
    get_file_inode sb name p = some d ↔
      d < NUM_INODES ∧ (sb.inode d).in_use = true ∧ (sb.inode d).parent = p ∧
        (sb.inode d).name = name ∧
        ∀ j < d, ¬ ((sb.inode j).in_use = true ∧ (sb.inode j).parent = p ∧
          (sb.inode j).name = name) := by
  unfold get_file_inode
  rw [List.find?_range_eq_some]
  simp only [Bool.and_eq_true, beq_iff_eq, List.mem_range, Bool.not_eq_true', Bool.and_eq_false_imp,
    and_assoc]
  constructor
  · rintro ⟨h1, h2, h3, h4, h5⟩
    refine ⟨h4, h1, h2, h3, ?_⟩
    intro j hj ⟨a, b, c⟩
    have := h5 j hj ⟨a, b⟩
    simp [c] at this
  · rintro ⟨h1, h2, h3, h4, h5⟩
    refine ⟨h2, h3, h4, h1, ?_⟩
    intro j hj a
    cases hn : (sb.inode j).name == name with
    | false => rfl
    | true => exact absurd ⟨a.1, a.2, by simpa using hn⟩ (h5 j hj)

/-- `fs_cd` changes nothing but the current directory. -/
theorem fs_cd_frame (s : State) (name : Name) :
    (fs_cd s name).2.superblock = s.superblock ∧ (fs_cd s name).2.disk = s.disk ∧
      (fs_cd s name).2.buffer = s.buffer ∧ (fs_cd s name).2.current_disk = s.current_disk := by
  unfold fs_cd
  split
  · exact ⟨rfl, rfl, rfl, rfl⟩
  · split
    · exact ⟨rfl, rfl, rfl, rfl⟩
    · split
      · split
        · simp only []
          split <;> exact ⟨rfl, rfl, rfl, rfl⟩
        · exact ⟨rfl, rfl, rfl, rfl⟩
      · split
        · exact ⟨rfl, rfl, rfl, rfl⟩
        · split <;> exact ⟨rfl, rfl, rfl, rfl⟩

/-- C22: in a mounted session `fs_cd` of the name `.` changes nothing; `fs_cd`
of the name `..` sets the current directory to the parent index of its record,
unless the current directory is the root (index 0) or that parent is 127, in
which case it stays; for any other name `fs_cd` reports no error and sets the
current directory to `d` exactly when `d` is the record that is in use, has
the current directory as parent and has that name (the first one in table
order) and `d` is a directory, and otherwise the current directory stays;
`fs_cd` never changes the superblock, the image or the buffer. -/
theorem C22_change_directory (s : State) (hm : s.current_disk ≠ none) :
    (∀ name : Name, name.c0 = 46 → name.c1 = 0 → fs_cd s name = (Outcome.ok, s)) ∧
    (∀ name : Name, name.c0 = 46 → name.c1 = 46 → name.c2 = 0 →
      (fs_cd s name).2.current_dir_inode =
        if s.current_dir_inode = 0 ∨
            (s.superblock.inode s.current_dir_inode).parent = 127 then
          s.current_dir_inode
        else (s.superblock.inode s.current_dir_inode).parent) ∧
    (∀ name : Name, ¬ (name.c0 = 46 ∧ name.c1 = 0) →
      ¬ (name.c0 = 46 ∧ name.c1 = 46 ∧ name.c2 = 0) →
      (∀ d, ((fs_cd s name).1 = Outcome.ok ∧ (fs_cd s name).2.current_dir_inode = d) ↔
        (d < NUM_INODES ∧ (s.superblock.inode d).in_use = true ∧
          (s.superblock.inode d).parent = s.current_dir_inode ∧
          (s.superblock.inode d).name = name ∧
          (∀ j < d, ¬ ((s.superblock.inode j).in_use = true ∧
            (s.superblock.inode j).parent = s.current_dir_inode ∧
            (s.superblock.inode j).name = name)) ∧
          (s.superblock.inode d).is_dir = true)) ∧
      ((fs_cd s name).1 ≠ Outcome.ok →
        (fs_cd s name).2.current_dir_inode = s.current_dir_inode)) ∧
    (∀ name : Name, (fs_cd s name).2.superblock = s.superblock ∧
      (fs_cd s name).2.disk = s.disk ∧ (fs_cd s name).2.buffer = s.buffer) := by
  refine ⟨?_, ?_, ?_, ?_⟩
  · intro name h0 h1
    simp only [fs_cd, isNone_eq_false_of_ne_none hm, Bool.false_eq_true, if_false, h0, h1,
      and_self, if_true]
  · intro name h0 h1 h2
    have hnot : ¬ (name.c0 = 46 ∧ name.c1 = 0) := by
      intro h
      omega
    unfold fs_cd
    rw [if_neg (by rw [isNone_eq_false_of_ne_none hm]; exact Bool.false_ne_true), if_neg hnot,
      if_pos ⟨h0, h1, h2⟩]
    by_cases hroot : s.current_dir_inode = 0
    · simp only [hroot, ne_eq, not_true_eq_false, if_false, true_or, if_true]
    · by_cases hp : (s.superblock.inode s.current_dir_inode).parent = 127
      · simp only [ne_eq, hroot, not_false_eq_true, if_true, hp, not_true_eq_false, if_false,
          or_true]
      · simp only [ne_eq, hroot, not_false_eq_true, if_true, hp, if_false, or_self]
  · intro name hdot hdotdot
    have hcd : fs_cd s name =
        match get_file_inode s.superblock name s.current_dir_inode with
        | none => (Outcome.does_not_exist, s)
        | some dir_inode =>
          if !(s.superblock.inode dir_inode).is_dir then (Outcome.does_not_exist, s)
          else (Outcome.ok, { s with current_dir_inode := dir_inode }) := by
      unfold fs_cd
      rw [if_neg (by rw [isNone_eq_false_of_ne_none hm]; exact Bool.false_ne_true), if_neg hdot,
        if_neg hdotdot]
    cases hres : get_file_inode s.superblock name s.current_dir_inode with
    | none =>
      have hcd2 : fs_cd s name = (Outcome.does_not_exist, s) := by rw [hcd, hres]
      rw [hcd2]
      refine ⟨fun d => ⟨fun h => Outcome.noConfusion h.1, ?_⟩, fun _ => rfl⟩
      rintro ⟨h1, h2, h3, h4, h5, _⟩
      have := (get_file_inode_eq_some_iff _ _ _ d).mpr ⟨h1, h2, h3, h4, h5⟩
      rw [hres] at this
      exact Option.noConfusion this
    | some idx =>
      cases hdir : (s.superblock.inode idx).is_dir with
      | false =>
        have hcd2 : fs_cd s name = (Outcome.does_not_exist, s) := by
          rw [hcd, hres]
          exact if_pos (by rw [hdir]; rfl)
        rw [hcd2]
        refine ⟨fun d => ⟨fun h => Outcome.noConfusion h.1, ?_⟩, fun _ => rfl⟩
        rintro ⟨h1, h2, h3, h4, h5, h6⟩
        have := (get_file_inode_eq_some_iff _ _ _ d).mpr ⟨h1, h2, h3, h4, h5⟩
        rw [hres] at this
        rw [← Option.some.inj this, hdir] at h6
        exact Bool.noConfusion h6
      | true =>
        have hcd2 : fs_cd s name = (Outcome.ok, { s with current_dir_inode := idx }) := by
          rw [hcd, hres]
          exact if_neg (by rw [hdir]; exact Bool.false_ne_true)
        rw [hcd2]
        refine ⟨fun d => ⟨?_, ?_⟩, fun h => absurd rfl h⟩
        · rintro ⟨_, h⟩
          have hd : idx = d := h
          subst hd
          obtain ⟨h1, h2, h3, h4, h5⟩ := (get_file_inode_eq_some_iff _ _ _ idx).mp hres
          exact ⟨h1, h2, h3, h4, h5, hdir⟩
        · rintro ⟨h1, h2, h3, h4, h5, _⟩
          have := (get_file_inode_eq_some_iff _ _ _ d).mpr ⟨h1, h2, h3, h4, h5⟩
          rw [hres] at this
          exact ⟨rfl, Option.some.inj this⟩
  · intro name
    exact ⟨(fs_cd_frame s name).1, (fs_cd_frame s name).2.1, (fs_cd_frame s name).2.2.1⟩

set_option maxRecDepth 100000 in
/-- Witness for C22: in `tree_state` the current directory is the root and
record 1 is the directory `d` of the root; `fs_cd d` makes record 1 the
current directory, and from there `fs_cd ..` leads back to the root. -/
theorem C22_witness :
    tree_state.current_dir_inode = 0 ∧
    tree_state.superblock.inode 1 = ⟨name_d, 0x80, 0, 0x80⟩ ∧
    ((fs_cd tree_state name_d).1 = Outcome.ok ∧
      (fs_cd tree_state name_d).2.current_dir_inode = 1) ∧
    (fs_cd tree_state name_dotdot).2.current_dir_inode = 0 :=
  have h := C22_change_directory tree_state (by decide)
  ⟨by decide, by decide,
    ((h.2.2.1 name_d (by decide) (by decide)).1 1).mpr
      ⟨by decide, by decide, by decide, by decide, by decide, by decide⟩,
    (h.2.1 name_dotdot (by decide) (by decide) (by decide)).trans (by decide)⟩

set_option maxRecDepth 100000 in
/-- C23 (the code departs from the claim): the empty image passes
`check_consistency` and is mounted, with the current directory at the root;
`fs_create f 1` reports no error and fills record 0 with the file `f`, whose
parent index is the current directory, 0, that is record 0 itself, which is
not a directory: `check_consistency` returns 4 on the resulting superblock and
the image that `fs_create` wrote is rejected by `fs_mount`. -/
theorem C23_create_breaks_the_checker :
    check_consistency
      ((Superblock.ofBlock (read_block zero_image 0)).set_byte 0
        ((Superblock.ofBlock (read_block zero_image 0)).free_block_list 0 ||| 1)) = 0 ∧
    (fs_mount empty_state "disk1" (some zero_image)).1 = Outcome.ok ∧
    fresh_state.current_disk = some "disk1" ∧
    fresh_state.current_dir_inode = 0 ∧
    (fs_create fresh_state name_f 1).1 = Outcome.ok ∧
    (fs_create fresh_state name_f 1).2.superblock.inode 0 = ⟨name_f, 0x81, 1, 0⟩ ∧
    check_consistency (fs_create fresh_state name_f 1).2.superblock = 4 ∧
    (fs_mount (fs_create fresh_state name_f 1).2 "disk1"
      (some (fs_create fresh_state name_f 1).2.disk)).1 = Outcome.inconsistent 4 := by
  refine ⟨by decide, by decide, by decide, by decide, by decide, by decide, by decide, by decide⟩

set_option maxRecDepth 100000 in
/-- C24 (the code departs from the claim): in `tail_state` the only file is
`f` in block 127, inside 1..127, and the bitmap marks exactly the blocks 0 and
127; `fs_resize f 2` reports no error and stores the size 2 at
`start_block = 127`, so the range of `f` is now 127..128, and block 128 is not
a block of the disk. -/
theorem C24_resize_leaves_the_disk :
    tail_state.current_disk = some "disk0" ∧
    get_file_inode tail_state.superblock name_f tail_state.current_dir_inode = some 1 ∧
    (∀ i < NUM_INODES, (tail_state.superblock.inode i).is_file = true ↔ i = 1) ∧
    tail_state.superblock.inode 1 = ⟨name_f, 0x81, 127, 0⟩ ∧
    (∀ b < NUM_BLOCKS, tail_state.superblock.bit b = true ↔
      b = 0 ∨ ∃ i < NUM_INODES, (tail_state.superblock.inode i).is_file = true ∧
        (tail_state.superblock.inode i).start_block ≤ b ∧
        b < (tail_state.superblock.inode i).start_block +
          (tail_state.superblock.inode i).size) ∧
    (fs_resize tail_state name_f 2).1 = Outcome.ok ∧
    ((fs_resize tail_state name_f 2).2.superblock.inode 1).is_file = true ∧
    ((fs_resize tail_state name_f 2).2.superblock.inode 1).size = 2 ∧
    ((fs_resize tail_state name_f 2).2.superblock.inode 1).start_block = 127 ∧
    ¬ (((fs_resize tail_state name_f 2).2.superblock.inode 1).start_block +
        ((fs_resize tail_state name_f 2).2.superblock.inode 1).size ≤ NUM_BLOCKS) := by
  refine ⟨by decide, by decide, by decide, by decide, by decide, by decide, by decide, by decide,
    by decide, by decide⟩

end FsSim
